import Mathlib

/-!
# Vector3 / Matrix4 kernel of the SIMD 3D graphics demo, over exact arithmetic

Shallow embedding of `src/src/math/vector3.cpp` and `src/src/math/matrix4.cpp`.

* `float` is replaced by an arbitrary linearly ordered field `F` (the reals are one
  instance, the rationals another, on which every definition below can be evaluated).
* A `__m128` register is an array of four lanes (lane 0 is the lowest lane); C arrays
  are structures of fixed length, read with `get` and written with `set`.
* The math-library functions `std::sqrt`, `std::cos`, `std::sin` are parameters of the
  functions that call them.
* Where the source has an `#ifdef __FMA__` branch, the definition without suffix is the
  `#else` branch and the definition with suffix `_fma` is the FMA branch.
-/

set_option linter.unusedSectionVars false

namespace Simd3D

variable {F : Type} [LinearOrderedField F]

/-! ## Packed registers -/

/-- A C array of four entries, e.g. `float _data[4]` or `__m128 _rows[4]`. -/
structure Vec4 (α : Type) where
  /-- Entry 0. -/
  e0 : α
  /-- Entry 1. -/
  e1 : α
  /-- Entry 2. -/
  e2 : α
  /-- Entry 3. -/
  e3 : α
  deriving DecidableEq

/-- Array read `v[i]`. -/
def Vec4.get {α : Type} (v : Vec4 α) (i : Fin 4) : α := ![v.e0, v.e1, v.e2, v.e3] i

/-- Array write `v[i] = a`. -/
def Vec4.set {α : Type} (v : Vec4 α) (i : Fin 4) (a : α) : Vec4 α :=
  ⟨if i = 0 then a else v.e0, if i = 1 then a else v.e1,
   if i = 2 then a else v.e2, if i = 3 then a else v.e3⟩

/-- A C array of eight entries: one row `float augmented[i][8]`. -/
structure Vec8 (α : Type) where
  /-- Entry 0. -/
  e0 : α
  /-- Entry 1. -/
  e1 : α
  /-- Entry 2. -/
  e2 : α
  /-- Entry 3. -/
  e3 : α
  /-- Entry 4. -/
  e4 : α
  /-- Entry 5. -/
  e5 : α
  /-- Entry 6. -/
  e6 : α
  /-- Entry 7. -/
  e7 : α
  deriving DecidableEq

/-- Array read `v[i]`. -/
def Vec8.get {α : Type} (v : Vec8 α) (i : Fin 8) : α :=
  ![v.e0, v.e1, v.e2, v.e3, v.e4, v.e5, v.e6, v.e7] i

/-- Array write `v[i] = a`. -/
def Vec8.set {α : Type} (v : Vec8 α) (i : Fin 8) (a : α) : Vec8 α :=
  ⟨if i = 0 then a else v.e0, if i = 1 then a else v.e1,
   if i = 2 then a else v.e2, if i = 3 then a else v.e3,
   if i = 4 then a else v.e4, if i = 5 then a else v.e5,
   if i = 6 then a else v.e6, if i = 7 then a else v.e7⟩

/-- A packed register `__m128`: four lanes, lane 0 lowest. -/
abbrev M128 (F : Type) := Vec4 F

/-- Intrinsic `_mm_set_ps(e3, e2, e1, e0)`: the arguments come highest lane first. -/
def mm_set_ps (e3 e2 e1 e0 : F) : M128 F := Vec4.mk e0 e1 e2 e3

/-- Intrinsic `_mm_setzero_ps()`. -/
def mm_setzero_ps : M128 F := Vec4.mk 0 0 0 0

/-- Intrinsic `_mm_set1_ps(a)`: broadcast. -/
def mm_set1_ps (a : F) : M128 F := Vec4.mk a a a a

/-- Intrinsic `_mm_add_ps`. -/
def mm_add_ps (a b : M128 F) : M128 F :=
  Vec4.mk (a.get 0 + b.get 0) (a.get 1 + b.get 1) (a.get 2 + b.get 2) (a.get 3 + b.get 3)

/-- Intrinsic `_mm_sub_ps`. -/
def mm_sub_ps (a b : M128 F) : M128 F :=
  Vec4.mk (a.get 0 - b.get 0) (a.get 1 - b.get 1) (a.get 2 - b.get 2) (a.get 3 - b.get 3)

/-- Intrinsic `_mm_mul_ps`. -/
def mm_mul_ps (a b : M128 F) : M128 F :=
  Vec4.mk (a.get 0 * b.get 0) (a.get 1 * b.get 1) (a.get 2 * b.get 2) (a.get 3 * b.get 3)

/-- Intrinsic `_mm_fmadd_ps(a, b, c)` = `a * b + c` lane by lane. -/
def mm_fmadd_ps (a b c : M128 F) : M128 F :=
  Vec4.mk (a.get 0 * b.get 0 + c.get 0) (a.get 1 * b.get 1 + c.get 1)
    (a.get 2 * b.get 2 + c.get 2) (a.get 3 * b.get 3 + c.get 3)

/-- Intrinsic `_mm_fnmadd_ps(a, b, c)` = `-(a * b) + c` lane by lane. -/
def mm_fnmadd_ps (a b c : M128 F) : M128 F :=
  Vec4.mk (-(a.get 0 * b.get 0) + c.get 0) (-(a.get 1 * b.get 1) + c.get 1)
    (-(a.get 2 * b.get 2) + c.get 2) (-(a.get 3 * b.get 3) + c.get 3)

/-- Intrinsic `_mm_shuffle_ps(a, b, _MM_SHUFFLE(z, y, x, w))`: lanes 0 and 1 are taken
from `a` (selectors `w`, `x`), lanes 2 and 3 from `b` (selectors `y`, `z`). -/
def mm_shuffle_ps (a b : M128 F) (z y x w : Fin 4) : M128 F :=
  Vec4.mk (a.get w) (a.get x) (b.get y) (b.get z)

/-- Intrinsic `_mm_dp_ps(a, b, 0x71)`: the products of lanes 0, 1, 2 are summed
(lane 3 is masked out and contributes 0) and the sum is stored in lane 0 only. -/
def mm_dp_ps_0x71 (a b : M128 F) : M128 F :=
  Vec4.mk ((a.get 0 * b.get 0 + a.get 1 * b.get 1) + (a.get 2 * b.get 2 + 0)) 0 0 0

/-- Intrinsic `_mm_hadd_ps(a, b)`. -/
def mm_hadd_ps (a b : M128 F) : M128 F :=
  Vec4.mk (a.get 0 + a.get 1) (a.get 2 + a.get 3) (b.get 0 + b.get 1) (b.get 2 + b.get 3)

/-- Intrinsic `_mm_cvtss_f32`: the lowest lane. -/
def mm_cvtss_f32 (a : M128 F) : F := a.get 0

/-- Intrinsic `_mm_unpacklo_ps(a, b)`: interleaves the low halves. -/
def mm_unpacklo_ps (a b : M128 F) : M128 F := Vec4.mk (a.get 0) (b.get 0) (a.get 1) (b.get 1)

/-- Intrinsic `_mm_unpackhi_ps(a, b)`: interleaves the high halves. -/
def mm_unpackhi_ps (a b : M128 F) : M128 F := Vec4.mk (a.get 2) (b.get 2) (a.get 3) (b.get 3)

/-- Intrinsic `_mm_movelh_ps(a, b)`: the low half of `a`, then the low half of `b`. -/
def mm_movelh_ps (a b : M128 F) : M128 F := Vec4.mk (a.get 0) (a.get 1) (b.get 0) (b.get 1)

/-- Intrinsic `_mm_movehl_ps(a, b)`: the high half of `b`, then the high half of `a`. -/
def mm_movehl_ps (a b : M128 F) : M128 F := Vec4.mk (b.get 2) (b.get 3) (a.get 2) (a.get 3)

/-- Macro `_MM_TRANSPOSE4_PS(row0, row1, row2, row3)` of the intrinsics header
`xmmintrin.h`: the four registers after the macro. -/
def MM_TRANSPOSE4_PS (row0 row1 row2 row3 : M128 F) : M128 F × M128 F × M128 F × M128 F :=
  let t0 := mm_unpacklo_ps row0 row1
  let t1 := mm_unpacklo_ps row2 row3
  let t2 := mm_unpackhi_ps row0 row1
  let t3 := mm_unpackhi_ps row2 row3
  (mm_movelh_ps t0 t1, mm_movehl_ps t1 t0, mm_movelh_ps t2 t3, mm_movehl_ps t3 t2)

/-! ## Vector3 -/

/-- Class `Vector3`: the union of `__m128 _simd` and `float _data[4]`. -/
structure Vector3 (F : Type) where
  /-- The four lanes `x, y, z, w`. -/
  simd : M128 F
  deriving DecidableEq

namespace Vector3

/-- Constructor `Vector3::Vector3()`. -/
def default : Vector3 F := ⟨mm_setzero_ps⟩

/-- Constructor `Vector3::Vector3(float x, float y, float z)`. -/
def ofXYZ (x y z : F) : Vector3 F := ⟨mm_set_ps 0 z y x⟩

/-- Accessor `x()` = `_data[0]`. -/
def x (v : Vector3 F) : F := v.simd.get 0

/-- Accessor `y()` = `_data[1]`. -/
def y (v : Vector3 F) : F := v.simd.get 1

/-- Accessor `z()` = `_data[2]`. -/
def z (v : Vector3 F) : F := v.simd.get 2

/-- The padding lane `_data[3]` (no accessor in the source). -/
def w (v : Vector3 F) : F := v.simd.get 3

/-- Setter `set_x`: `_data[0] = x`. -/
def set_x (v : Vector3 F) (x : F) : Vector3 F := ⟨v.simd.set 0 x⟩

/-- Setter `set_y`: `_data[1] = y`. -/
def set_y (v : Vector3 F) (y : F) : Vector3 F := ⟨v.simd.set 1 y⟩

/-- Setter `set_z`: `_data[2] = z`. -/
def set_z (v : Vector3 F) (z : F) : Vector3 F := ⟨v.simd.set 2 z⟩

/-- Static `Vector3::zero()`. -/
def zero : Vector3 F := default

/-- Operator `Vector3::operator+`. -/
def add (a b : Vector3 F) : Vector3 F := ⟨mm_add_ps a.simd b.simd⟩

/-- Operator `Vector3::operator-`. -/
def sub (a b : Vector3 F) : Vector3 F := ⟨mm_sub_ps a.simd b.simd⟩

/-- Operator `Vector3::operator*(float)`. -/
def smul (a : Vector3 F) (scalar : F) : Vector3 F := ⟨mm_mul_ps a.simd (mm_set1_ps scalar)⟩

/-- Operator `Vector3::operator*(const Vector3&)`. -/
def mul (a b : Vector3 F) : Vector3 F := ⟨mm_mul_ps a.simd b.simd⟩

/-- Method `Vector3::dot`, the `__SSE4_1__` branch. -/
def dot (a b : Vector3 F) : F :=
  mm_cvtss_f32 (mm_dp_ps_0x71 (mm_mul_ps a.simd b.simd) (mm_set1_ps 1))

/-- Method `Vector3::dot`, the horizontal-add fallback branch. -/
def dot_hadd (a b : Vector3 F) : F :=
  let mul := mm_mul_ps a.simd b.simd
  let hadd1 := mm_hadd_ps mul mul
  let hadd2 := mm_hadd_ps hadd1 hadd1
  mm_cvtss_f32 hadd2

/-- Method `Vector3::cross`, the branch without FMA. -/
def cross (a b : Vector3 F) : Vector3 F :=
  let a_yzx := mm_shuffle_ps a.simd a.simd 3 0 2 1
  let b_zxy := mm_shuffle_ps b.simd b.simd 3 1 0 2
  let a_zxy := mm_shuffle_ps a.simd a.simd 3 1 0 2
  let b_yzx := mm_shuffle_ps b.simd b.simd 3 0 2 1
  let term1 := mm_mul_ps a_yzx b_zxy
  let term2 := mm_mul_ps a_zxy b_yzx
  ⟨mm_sub_ps term1 term2⟩

/-- Method `Vector3::cross`, the FMA branch. -/
def cross_fma (a b : Vector3 F) : Vector3 F :=
  let a_yzx := mm_shuffle_ps a.simd a.simd 3 0 2 1
  let b_zxy := mm_shuffle_ps b.simd b.simd 3 1 0 2
  let a_zxy := mm_shuffle_ps a.simd a.simd 3 1 0 2
  let b_yzx := mm_shuffle_ps b.simd b.simd 3 0 2 1
  ⟨mm_fnmadd_ps a_zxy b_yzx (mm_mul_ps a_yzx b_zxy)⟩

/-- Method `Vector3::length_squared`. -/
def length_squared (a : Vector3 F) : F := dot a a

/-- Method `Vector3::length`; `sqrtf` is the square root (`_mm_sqrt_ss`). -/
def length (sqrtf : F → F) (a : Vector3 F) : F := sqrtf (length_squared a)

/-- Method `Vector3::normalized`; the literal `1e-8f` is taken as `1 / 10 ^ 8`. -/
def normalized (sqrtf : F → F) (a : Vector3 F) : Vector3 F :=
  let len := length sqrtf a
  if len > 1 / 10 ^ 8 then
    let inv_len := 1 / len
    smul a inv_len
  else zero

/-- Operator `Vector3::operator=`: the value of the receiver after `*this = other` (the
lanes of `other` are copied unless both are the same object, which has the same lanes). -/
def assign (_self other : Vector3 F) : Vector3 F := ⟨other.simd⟩

/-- Method `Vector3::normalize` (in place): the value of the receiver `*this` after the
call. The method writes nothing else. -/
def normalize (sqrtf : F → F) (self : Vector3 F) : Vector3 F :=
  let len := length sqrtf self
  if len > 1 / 10 ^ 8 then
    let inv_len := 1 / len
    assign self (smul self inv_len)
  else
    assign self zero

end Vector3

/-! ## Matrix4 -/

/-- Class `Matrix4`: the union of `__m128 _rows[4]` and `float _data[16]` (row-major). -/
structure Matrix4 (F : Type) where
  /-- The four rows `_rows[0..3]`. -/
  rows : Vec4 (M128 F)
  deriving DecidableEq

namespace Matrix4

/-- Read access `operator()(row, col)` = `_data[row * 4 + col]`. -/
def get (M : Matrix4 F) (row col : Fin 4) : F := (M.rows.get row).get col

/-- Write access `m(row, col) = v` through the reference returned by `operator()`. -/
def set (M : Matrix4 F) (row col : Fin 4) (v : F) : Matrix4 F :=
  ⟨M.rows.set row ((M.rows.get row).set col v)⟩

/-- Constructor `Matrix4::Matrix4()`: the identity. -/
def default : Matrix4 F :=
  ⟨Vec4.mk (mm_set_ps 0 0 0 1) (mm_set_ps 0 0 1 0) (mm_set_ps 0 1 0 0) (mm_set_ps 1 0 0 0)⟩

/-- Static `Matrix4::identity()`: returns `IDENTITY_MATRIX = Matrix4()`. -/
def identity : Matrix4 F := default

/-- Static `Matrix4::zero()`. -/
def zero : Matrix4 F :=
  let zero_vec : M128 F := mm_setzero_ps
  ⟨Vec4.mk zero_vec zero_vec zero_vec zero_vec⟩

/-- Static `Matrix4::translation`. -/
def translation (t : Vector3 F) : Matrix4 F :=
  let result : Matrix4 F := default
  let result := result.set 0 3 t.x
  let result := result.set 1 3 t.y
  let result := result.set 2 3 t.z
  result

/-- Static `Matrix4::rotation_x`; `cosf`, `sinf` are `std::cos`, `std::sin`. -/
def rotation_x (cosf sinf : F → F) (angle : F) : Matrix4 F :=
  let result : Matrix4 F := default
  let cos_a := cosf angle
  let sin_a := sinf angle
  let result := result.set 1 1 cos_a
  let result := result.set 1 2 (-sin_a)
  let result := result.set 2 1 sin_a
  let result := result.set 2 2 cos_a
  result

/-- Static `Matrix4::rotation_y`; `cosf`, `sinf` are `std::cos`, `std::sin`. -/
def rotation_y (cosf sinf : F → F) (angle : F) : Matrix4 F :=
  let result : Matrix4 F := default
  let cos_a := cosf angle
  let sin_a := sinf angle
  let result := result.set 0 0 cos_a
  let result := result.set 0 2 sin_a
  let result := result.set 2 0 (-sin_a)
  let result := result.set 2 2 cos_a
  result

/-- Static `Matrix4::rotation_z`; `cosf`, `sinf` are `std::cos`, `std::sin`. -/
def rotation_z (cosf sinf : F → F) (angle : F) : Matrix4 F :=
  let result : Matrix4 F := default
  let cos_a := cosf angle
  let sin_a := sinf angle
  let result := result.set 0 0 cos_a
  let result := result.set 0 1 (-sin_a)
  let result := result.set 1 0 sin_a
  let result := result.set 1 1 cos_a
  result

/-- Static `Matrix4::rotation(axis, angle)`: the formula of Rodrigues on the normalised
axis. -/
def rotation (sqrtf cosf sinf : F → F) (axis : Vector3 F) (angle : F) : Matrix4 F :=
  let normalized_axis := axis.normalized sqrtf
  let cos_a := cosf angle
  let sin_a := sinf angle
  let one_minus_cos := 1 - cos_a
  let x := normalized_axis.x
  let y := normalized_axis.y
  let z := normalized_axis.z
  let result : Matrix4 F := default
  let result := result.set 0 0 (cos_a + x * x * one_minus_cos)
  let result := result.set 0 1 (x * y * one_minus_cos - z * sin_a)
  let result := result.set 0 2 (x * z * one_minus_cos + y * sin_a)
  let result := result.set 1 0 (y * x * one_minus_cos + z * sin_a)
  let result := result.set 1 1 (cos_a + y * y * one_minus_cos)
  let result := result.set 1 2 (y * z * one_minus_cos - x * sin_a)
  let result := result.set 2 0 (z * x * one_minus_cos - y * sin_a)
  let result := result.set 2 1 (z * y * one_minus_cos + x * sin_a)
  let result := result.set 2 2 (cos_a + z * z * one_minus_cos)
  result

/-- Static `Matrix4::scale(const Vector3&)`. -/
def scale (scale : Vector3 F) : Matrix4 F :=
  let result : Matrix4 F := default
  let result := result.set 0 0 scale.x
  let result := result.set 1 1 scale.y
  let result := result.set 2 2 scale.z
  result

/-- Static `Matrix4::scale(float)`. -/
def scale_uniform (uniform_scale : F) : Matrix4 F :=
  scale (Vector3.ofXYZ uniform_scale uniform_scale uniform_scale)

/-- Static `Matrix4::perspective`; `tanf` is `std::tan`, the literal `0.5f` is `1 / 2`. -/
def perspective (tanf : F → F) (fov aspect near far : F) : Matrix4 F :=
  let result : Matrix4 F := zero
  let tan_half_fov := tanf (fov * (1 / 2))
  let result := result.set 0 0 (1 / (aspect * tan_half_fov))
  let result := result.set 1 1 (1 / tan_half_fov)
  let result := result.set 2 2 (-(far + near) / (far - near))
  let result := result.set 2 3 (-(2 * far * near) / (far - near))
  let result := result.set 3 2 (-1)
  result

/-- Static `Matrix4::orthographic`. -/
def orthographic (left right bottom top near far : F) : Matrix4 F :=
  let result : Matrix4 F := zero
  let result := result.set 0 0 (2 / (right - left))
  let result := result.set 1 1 (2 / (top - bottom))
  let result := result.set 2 2 (-2 / (far - near))
  let result := result.set 0 3 (-(right + left) / (right - left))
  let result := result.set 1 3 (-(top + bottom) / (top - bottom))
  let result := result.set 2 3 (-(far + near) / (far - near))
  let result := result.set 3 3 1
  result

/-- Static `Matrix4::look_at`. -/
def look_at (sqrtf : F → F) (eye center up : Vector3 F) : Matrix4 F :=
  let f := (center.sub eye).normalized sqrtf
  let s := (f.cross up).normalized sqrtf
  let u := s.cross f
  let result : Matrix4 F := identity
  let result := ((result.set 0 0 s.x).set 0 1 s.y).set 0 2 s.z
  let result := ((result.set 1 0 u.x).set 1 1 u.y).set 1 2 u.z
  let result := ((result.set 2 0 (-f.x)).set 2 1 (-f.y)).set 2 2 (-f.z)
  let result := result.set 0 3 (-(s.dot eye))
  let result := result.set 1 3 (-(u.dot eye))
  let result := result.set 2 3 (f.dot eye)
  let result := result.set 3 0 0
  let result := result.set 3 1 0
  let result := result.set 3 2 0
  let result := result.set 3 3 1
  result

/-- Body of the loop of `Matrix4::operator*(const Matrix4&)` for row `i`, the branch
without FMA. -/
def mul_row (A B : Matrix4 F) (i : Fin 4) : M128 F :=
  let row := A.rows.get i
    let x := mm_shuffle_ps row row 0 0 0 0
    let y := mm_shuffle_ps row row 1 1 1 1
    let z := mm_shuffle_ps row row 2 2 2 2
    let w := mm_shuffle_ps row row 3 3 3 3
    mm_add_ps
      (mm_add_ps (mm_mul_ps x (B.rows.get 0)) (mm_mul_ps y (B.rows.get 1)))
      (mm_add_ps (mm_mul_ps z (B.rows.get 2)) (mm_mul_ps w (B.rows.get 3)))

/-- Operator `Matrix4::operator*(const Matrix4&)`, the branch without FMA: the loop
`i = 0 .. 3` stores `result._rows[i]`. -/
def mul (A B : Matrix4 F) : Matrix4 F :=
  ⟨Vec4.mk (mul_row A B 0) (mul_row A B 1) (mul_row A B 2) (mul_row A B 3)⟩

/-- Body of the loop of `Matrix4::operator*(const Matrix4&)` for row `i`, the FMA
branch. -/
def mul_row_fma (A B : Matrix4 F) (i : Fin 4) : M128 F :=
  let row := A.rows.get i
    let x := mm_shuffle_ps row row 0 0 0 0
    let y := mm_shuffle_ps row row 1 1 1 1
    let z := mm_shuffle_ps row row 2 2 2 2
    let w := mm_shuffle_ps row row 3 3 3 3
    let result_row := mm_mul_ps x (B.rows.get 0)
    let result_row := mm_fmadd_ps y (B.rows.get 1) result_row
    let result_row := mm_fmadd_ps z (B.rows.get 2) result_row
    let result_row := mm_fmadd_ps w (B.rows.get 3) result_row
    result_row

/-- Operator `Matrix4::operator*(const Matrix4&)`, the FMA branch. -/
def mul_fma (A B : Matrix4 F) : Matrix4 F :=
  ⟨Vec4.mk (mul_row_fma A B 0) (mul_row_fma A B 1) (mul_row_fma A B 2) (mul_row_fma A B 3)⟩

/-- Method `Matrix4::transform_point`, the branch without FMA. The whole register,
lane 3 included, goes into the returned `Vector3`. -/
def transform_point (M : Matrix4 F) (point : Vector3 F) : Vector3 F :=
  let p := mm_set_ps 1 point.z point.y point.x
  let x := mm_shuffle_ps p p 0 0 0 0
  let y := mm_shuffle_ps p p 1 1 1 1
  let z := mm_shuffle_ps p p 2 2 2 2
  let w := mm_shuffle_ps p p 3 3 3 3
  ⟨mm_add_ps
    (mm_add_ps (mm_mul_ps x (M.rows.get 0)) (mm_mul_ps y (M.rows.get 1)))
    (mm_add_ps (mm_mul_ps z (M.rows.get 2)) (mm_mul_ps w (M.rows.get 3)))⟩

/-- Method `Matrix4::transform_point`, the FMA branch. -/
def transform_point_fma (M : Matrix4 F) (point : Vector3 F) : Vector3 F :=
  let p := mm_set_ps 1 point.z point.y point.x
  let x := mm_shuffle_ps p p 0 0 0 0
  let y := mm_shuffle_ps p p 1 1 1 1
  let z := mm_shuffle_ps p p 2 2 2 2
  let w := mm_shuffle_ps p p 3 3 3 3
  let result := mm_mul_ps x (M.rows.get 0)
  let result := mm_fmadd_ps y (M.rows.get 1) result
  let result := mm_fmadd_ps z (M.rows.get 2) result
  let result := mm_fmadd_ps w (M.rows.get 3) result
  ⟨result⟩

/-- Method `Matrix4::transform_vector`, the branch without FMA. -/
def transform_vector (M : Matrix4 F) (vector : Vector3 F) : Vector3 F :=
  let v := mm_set_ps 0 vector.z vector.y vector.x
  let x := mm_shuffle_ps v v 0 0 0 0
  let y := mm_shuffle_ps v v 1 1 1 1
  let z := mm_shuffle_ps v v 2 2 2 2
  ⟨mm_add_ps
    (mm_add_ps (mm_mul_ps x (M.rows.get 0)) (mm_mul_ps y (M.rows.get 1)))
    (mm_mul_ps z (M.rows.get 2))⟩

/-- Method `Matrix4::transform_vector`, the FMA branch. -/
def transform_vector_fma (M : Matrix4 F) (vector : Vector3 F) : Vector3 F :=
  let v := mm_set_ps 0 vector.z vector.y vector.x
  let x := mm_shuffle_ps v v 0 0 0 0
  let y := mm_shuffle_ps v v 1 1 1 1
  let z := mm_shuffle_ps v v 2 2 2 2
  let result := mm_mul_ps x (M.rows.get 0)
  let result := mm_fmadd_ps y (M.rows.get 1) result
  let result := mm_fmadd_ps z (M.rows.get 2) result
  ⟨result⟩

/-- Method `Matrix4::transpose`. -/
def transpose (M : Matrix4 F) : Matrix4 F :=
  let row0 := M.rows.get 0
  let row1 := M.rows.get 1
  let row2 := M.rows.get 2
  let row3 := M.rows.get 3
  let r := MM_TRANSPOSE4_PS row0 row1 row2 row3
  ⟨Vec4.mk r.1 r.2.1 r.2.2.1 r.2.2.2⟩

/-- The augmented array `float augmented[4][8]` of `Matrix4::inverse`. -/
abbrev Augmented (F : Type) := Vec4 (Vec8 F)

/-- Column `j` of the left half, `augmented[.][j]`. -/
def lcol (j : Fin 4) : Fin 8 := Fin.castAdd 4 j

/-- Column `j + 4` of the right half, `augmented[.][j + 4]`. -/
def rcol (j : Fin 4) : Fin 8 := Fin.natAdd 4 j

/-- Load `_mm_loadu_ps(&augmented[i][0])` of a row. -/
def loadu_left (row : Vec8 F) : M128 F := Vec4.mk (row.get 0) (row.get 1) (row.get 2) (row.get 3)

/-- Load `_mm_loadu_ps(&augmented[i][4])` of a row. -/
def loadu_right (row : Vec8 F) : M128 F := Vec4.mk (row.get 4) (row.get 5) (row.get 6) (row.get 7)

/-- The two stores `_mm_storeu_ps(&augmented[i][0], l)` and
`_mm_storeu_ps(&augmented[i][4], r)` into one row. -/
def storeu_row (l r : M128 F) : Vec8 F :=
  Vec8.mk (l.get 0) (l.get 1) (l.get 2) (l.get 3) (r.get 0) (r.get 1) (r.get 2) (r.get 3)

/-- Row `i` written by the first loop of `inverse`: `augmented[i][j] = (*this)(i, j)`
and `augmented[i][j + 4] = (i == j) ? 1 : 0`. -/
def augment_row (M : Matrix4 F) (i : Fin 4) : Vec8 F :=
  Vec8.mk (M.get i 0) (M.get i 1) (M.get i 2) (M.get i 3)
    (if i = 0 then 1 else 0) (if i = 1 then 1 else 0)
    (if i = 2 then 1 else 0) (if i = 3 then 1 else 0)

/-- First loop of `inverse`: builds `[A | I]`. -/
def augment (M : Matrix4 F) : Augmented F :=
  Vec4.mk (augment_row M 0) (augment_row M 1) (augment_row M 2) (augment_row M 3)

/-- The pivot search of `inverse` at column `i`: scans `k = i + 1 .. 3` and keeps a
strictly larger magnitude; returns `(pivot_row, max_val)`. -/
def find_pivot (aug : Augmented F) (i : Fin 4) : Fin 4 × F :=
  (([0, 1, 2, 3] : List (Fin 4)).filter (fun k => i < k)).foldl
    (fun (acc : Fin 4 × F) k =>
      let val := |(aug.get k).get (lcol i)|
      if val > acc.2 then (k, val) else acc)
    (i, |(aug.get i).get (lcol i)|)

/-- The row swap of `inverse`: `std::swap(augmented[i][j], augmented[pivot_row][j])`
for `j = 0 .. 7`. -/
def swap_rows (aug : Augmented F) (i pivot_row : Fin 4) : Augmented F :=
  ([0, 1, 2, 3, 4, 5, 6, 7] : List (Fin 8)).foldl
    (fun (a : Augmented F) j =>
      let x := (a.get i).get j
      let y := (a.get pivot_row).get j
      let a := a.set i ((a.get i).set j y)
      a.set pivot_row ((a.get pivot_row).set j x))
    aug

/-- The pivot-row scaling of `inverse`: both halves of row `i` times `1 / pivot`. -/
def scale_pivot_row (aug : Augmented F) (i : Fin 4) : Augmented F :=
  let pivot := (aug.get i).get (lcol i)
  let pivot_vec : M128 F := mm_set1_ps (1 / pivot)
  let left_half := loadu_left (aug.get i)
  let right_half := loadu_right (aug.get i)
  aug.set i
    (storeu_row (mm_mul_ps left_half pivot_vec) (mm_mul_ps right_half pivot_vec))

/-- One iteration `k` of the elimination loop of `inverse` (branch without FMA). -/
def eliminate_row (aug : Augmented F) (i k : Fin 4) : Augmented F :=
  if k ≠ i then
    let factor := (aug.get k).get (lcol i)
    let factor_vec : M128 F := mm_set1_ps factor
    let row_left := mm_sub_ps (loadu_left (aug.get k)) (mm_mul_ps factor_vec (loadu_left (aug.get i)))
    let row_right := mm_sub_ps (loadu_right (aug.get k)) (mm_mul_ps factor_vec (loadu_right (aug.get i)))
    aug.set k (storeu_row row_left row_right)
  else aug

/-- The elimination loop of `inverse`: `k = 0 .. 3`. -/
def eliminate_column (aug : Augmented F) (i : Fin 4) : Augmented F :=
  ([0, 1, 2, 3] : List (Fin 4)).foldl (fun a k => eliminate_row a i k) aug

/-- One iteration `i` of the Gauss-Jordan loop of `inverse`; `none` is the early
`return identity()` of the singular check (`1e-10f` is taken as `1 / 10 ^ 10`). -/
def gauss_jordan_step (aug : Augmented F) (i : Fin 4) : Option (Augmented F) :=
  let p := find_pivot aug i
  let pivot_row := p.1
  let max_val := p.2
  if max_val < 1 / 10 ^ 10 then none
  else
    let aug := if pivot_row ≠ i then swap_rows aug i pivot_row else aug
    let aug := scale_pivot_row aug i
    some (eliminate_column aug i)

/-- The Gauss-Jordan loop of `inverse`, `i = 0 .. 3`, run for the columns in `cols`. -/
def gauss_jordan_loop (cols : List (Fin 4)) (aug : Augmented F) : Option (Augmented F) :=
  cols.foldlM gauss_jordan_step aug

/-- The whole Gauss-Jordan loop of `inverse` on `[A | I]`. -/
def gauss_jordan (M : Matrix4 F) : Option (Augmented F) :=
  gauss_jordan_loop [0, 1, 2, 3] (augment M)

/-- Method `Matrix4::inverse`. -/
def inverse (M : Matrix4 F) : Matrix4 F :=
  match gauss_jordan M with
  | none => identity
  | some aug =>
    ⟨Vec4.mk (loadu_right (aug.get 0)) (loadu_right (aug.get 1))
      (loadu_right (aug.get 2)) (loadu_right (aug.get 3))⟩

/-- The array `minor[9]` filled by `determinant` for column `col`: rows 1..3, the
columns other than `col`, in row-major order. -/
def minor (M : Matrix4 F) (col : Fin 4) : List F :=
  ([1, 2, 3] : List (Fin 4)).flatMap fun i =>
    (([0, 1, 2, 3] : List (Fin 4)).filter (fun j => j ≠ col)).map fun j => M.get i j

/-- The 3x3 determinant `det3x3` computed by `determinant` from `minor`. -/
def det3x3 (minor : List F) : F :=
  minor.getD 0 0 * (minor.getD 4 0 * minor.getD 8 0 - minor.getD 5 0 * minor.getD 7 0) -
  minor.getD 1 0 * (minor.getD 3 0 * minor.getD 8 0 - minor.getD 5 0 * minor.getD 6 0) +
  minor.getD 2 0 * (minor.getD 3 0 * minor.getD 7 0 - minor.getD 4 0 * minor.getD 6 0)

/-- Method `Matrix4::determinant`: cofactor expansion along row 0. -/
def determinant (M : Matrix4 F) : F :=
  ([0, 1, 2, 3] : List (Fin 4)).foldl
    (fun det col =>
      let cofactor := (if col.val % 2 = 0 then 1 else -1) * det3x3 (minor M col)
      det + M.get 0 col * cofactor)
    0

/-- The default argument `epsilon = 1e-6f` of `is_invertible`. -/
def default_epsilon : F := 1 / 10 ^ 6

/-- Method `Matrix4::is_invertible`. -/
def is_invertible (M : Matrix4 F) (epsilon : F) : Bool :=
  decide (|determinant M| > epsilon)

/-- The values that `Matrix4::decompose` returns and writes through its three reference
parameters. -/
structure Decomposition (F : Type) where
  /-- The returned `bool`. -/
  ret : Bool
  /-- The parameter `translation` after the call. -/
  translation : Vector3 F
  /-- The parameter `rotation` after the call. -/
  rotation : Vector3 F
  /-- The parameter `scale` after the call. -/
  scale : Vector3 F

/-- Method `Matrix4::decompose`; `rotation` is the value of the parameter `rotation` before
the call (the method writes it with `set_x`, `set_y`, `set_z`), `atan2f` is `std::atan2`
and `sqrtf` is `std::sqrt`. -/
def decompose (sqrtf : F → F) (atan2f : F → F → F) (M : Matrix4 F) (rotation : Vector3 F) :
    Decomposition F :=
  let translation := Vector3.ofXYZ (M.get 0 3) (M.get 1 3) (M.get 2 3)
  let col0 := Vector3.ofXYZ (M.get 0 0) (M.get 1 0) (M.get 2 0)
  let col1 := Vector3.ofXYZ (M.get 0 1) (M.get 1 1) (M.get 2 1)
  let col2 := Vector3.ofXYZ (M.get 0 2) (M.get 1 2) (M.get 2 2)
  let scale := Vector3.ofXYZ (col0.length sqrtf) (col1.length sqrtf) (col2.length sqrtf)
  let scale := if determinant M < 0 then scale.smul (-1) else scale
  let rotation_matrix := M
  let rotation_matrix :=
    if scale.x ≠ 0 then
      let m := rotation_matrix.set 0 0 (rotation_matrix.get 0 0 / scale.x)
      let m := m.set 1 0 (m.get 1 0 / scale.x)
      m.set 2 0 (m.get 2 0 / scale.x)
    else rotation_matrix
  let rotation_matrix :=
    if scale.y ≠ 0 then
      let m := rotation_matrix.set 0 1 (rotation_matrix.get 0 1 / scale.y)
      let m := m.set 1 1 (m.get 1 1 / scale.y)
      m.set 2 1 (m.get 2 1 / scale.y)
    else rotation_matrix
  let rotation_matrix :=
    if scale.z ≠ 0 then
      let m := rotation_matrix.set 0 2 (rotation_matrix.get 0 2 / scale.z)
      let m := m.set 1 2 (m.get 1 2 / scale.z)
      m.set 2 2 (m.get 2 2 / scale.z)
    else rotation_matrix
  let rotation := rotation.set_x (atan2f (rotation_matrix.get 2 1) (rotation_matrix.get 2 2))
  let rotation := rotation.set_y
    (atan2f (-rotation_matrix.get 2 0)
      (sqrtf (rotation_matrix.get 2 1 * rotation_matrix.get 2 1 +
        rotation_matrix.get 2 2 * rotation_matrix.get 2 2)))
  let rotation := rotation.set_z (atan2f (rotation_matrix.get 1 0) (rotation_matrix.get 0 0))
  ⟨true, translation, rotation, scale⟩

/-! ### Notions used to state and prove the properties of `inverse` -/

/-- Entry `augmented[r][c]`. -/
def entry (aug : Augmented F) (r : Fin 4) (c : Fin 8) : F := (aug.get r).get c

/-- Every row of the augmented array satisfies `right half · M = left half`. -/
def RowsOK (M : Matrix4 F) (aug : Augmented F) : Prop :=
  ∀ r j : Fin 4, ∑ k : Fin 4, entry aug r (rcol k) * M.get k j = entry aug r (lcol j)

/-- The first `n` columns of the left half are already columns of the identity. -/
def ColsDone (aug : Augmented F) (n : Nat) : Prop :=
  ∀ r c : Fin 4, c.val < n → entry aug r (lcol c) = if r = c then 1 else 0

/-- The array after the optional row swap of iteration `i`. -/
def swapped (aug : Augmented F) (i : Fin 4) : Augmented F :=
  if (find_pivot aug i).1 ≠ i then swap_rows aug i (find_pivot aug i).1 else aug

/-- The mathematical matrix with entries `M(i, j)`. -/
def toMatrix (M : Matrix4 F) : Matrix (Fin 4) (Fin 4) F := Matrix.of fun i j => M.get i j

/-! ### Concrete matrices used as examples -/

/-- The matrix `diag(d0, d1, d2, d3)`. -/
def diag (d0 d1 d2 d3 : F) : Matrix4 F :=
  ⟨⟨⟨d0, 0, 0, 0⟩, ⟨0, d1, 0, 0⟩, ⟨0, 0, d2, 0⟩, ⟨0, 0, 0, d3⟩⟩⟩

/-- A matrix that needs a row swap at the second elimination step. -/
def sampleMatrix : Matrix4 ℚ :=
  ⟨⟨⟨2, 0, 0, 1⟩, ⟨0, 0, 1, 0⟩, ⟨0, 4, 0, 0⟩, ⟨1, 0, 0, 1⟩⟩⟩

/-- The augmented array that the elimination of `sampleMatrix` ends with. -/
def sampleReduced : Augmented ℚ :=
  ⟨⟨1, 0, 0, 0, 1, 0, 0, -1⟩, ⟨0, 1, 0, 0, 0, 0, 1 / 4, 0⟩,
   ⟨0, 0, 1, 0, 0, 1, 0, 0⟩, ⟨0, 0, 0, 1, -1, 0, 0, 2⟩⟩

end Matrix4

/-! ## Camera -/

/-- The private members of class `Camera`. -/
structure Camera (F : Type) where
  /-- Member `_position`. -/
  _position : Vector3 F
  /-- Member `_target`. -/
  _target : Vector3 F
  /-- Member `_up`. -/
  _up : Vector3 F
  /-- Member `_fov`. -/
  _fov : F
  /-- Member `_aspect_ratio`. -/
  _aspect_ratio : F
  /-- Member `_near_plane`. -/
  _near_plane : F
  /-- Member `_far_plane`. -/
  _far_plane : F
  /-- Member `mutable Matrix4 _view_matrix`. -/
  _view_matrix : Matrix4 F
  /-- Member `mutable Matrix4 _projection_matrix`. -/
  _projection_matrix : Matrix4 F
  /-- Member `mutable bool _view_dirty`. -/
  _view_dirty : Bool
  /-- Member `mutable bool _projection_dirty`. -/
  _projection_dirty : Bool

namespace Camera

/-- Constructor `Camera::Camera()`; `pi` is `M_PI`, the literal `0.1f` is `1 / 10`, and
the two matrices are default-constructed. -/
def default (pi : F) : Camera F where
  _position := Vector3.ofXYZ 0 0 5
  _target := Vector3.ofXYZ 0 0 0
  _up := Vector3.ofXYZ 0 1 0
  _fov := 45 * pi / 180
  _aspect_ratio := 16 / 9
  _near_plane := 1 / 10
  _far_plane := 100
  _view_matrix := Matrix4.default
  _projection_matrix := Matrix4.default
  _view_dirty := true
  _projection_dirty := true

/-- The default argument `up = Vector3(0, 1, 0)` of the second constructor. -/
def default_up : Vector3 F := Vector3.ofXYZ 0 1 0

/-- Constructor `Camera::Camera(position, target, up)`. -/
def ofPositionTarget (pi : F) (position target up : Vector3 F) : Camera F where
  _position := position
  _target := target
  _up := up
  _fov := 45 * pi / 180
  _aspect_ratio := 16 / 9
  _near_plane := 1 / 10
  _far_plane := 100
  _view_matrix := Matrix4.default
  _projection_matrix := Matrix4.default
  _view_dirty := true
  _projection_dirty := true

/-- Method `Camera::look_at`. -/
def look_at (c : Camera F) (target : Vector3 F) : Camera F :=
  let c := { c with _target := target }
  { c with _view_dirty := true }

/-- Method `Camera::move`. -/
def move (c : Camera F) (offset : Vector3 F) : Camera F :=
  let c := { c with _position := c._position.add offset }
  let c := { c with _target := c._target.add offset }
  { c with _view_dirty := true }

/-- Method `Camera::rotate`. -/
def rotate (sqrtf cosf sinf : F → F) (c : Camera F) (yaw pitch : F) : Camera F :=
  let forward := (c._target.sub c._position).normalized sqrtf
  let right := (forward.cross c._up).normalized sqrtf
  let yaw_rotation := Matrix4.rotation_y cosf sinf yaw
  let forward := yaw_rotation.transform_vector forward
  let pitch_rotation := Matrix4.rotation sqrtf cosf sinf right pitch
  let forward := pitch_rotation.transform_vector forward
  let c := { c with _target := c._position.add forward }
  { c with _view_dirty := true }

/-- Method `Camera::set_position`. -/
def set_position (c : Camera F) (position : Vector3 F) : Camera F :=
  let c := { c with _position := position }
  { c with _view_dirty := true }

/-- Method `Camera::set_target`. -/
def set_target (c : Camera F) (target : Vector3 F) : Camera F :=
  let c := { c with _target := target }
  { c with _view_dirty := true }

/-- Method `Camera::set_up`. -/
def set_up (c : Camera F) (up : Vector3 F) : Camera F :=
  let c := { c with _up := up }
  { c with _view_dirty := true }

/-- Method `Camera::set_perspective`. -/
def set_perspective (c : Camera F) (fov aspect near far : F) : Camera F :=
  let c := { c with _fov := fov }
  let c := { c with _aspect_ratio := aspect }
  let c := { c with _near_plane := near }
  let c := { c with _far_plane := far }
  { c with _projection_dirty := true }

/-- Method `Camera::set_orthographic`: the first four parameters are unnamed and unused. -/
def set_orthographic (c : Camera F) (_left _right _bottom _top near far : F) : Camera F :=
  let c := { c with _near_plane := near }
  let c := { c with _far_plane := far }
  { c with _projection_dirty := true }

/-- Method `Camera::update_view_matrix`. -/
def update_view_matrix (sqrtf : F → F) (c : Camera F) : Camera F :=
  let c := { c with _view_matrix := Matrix4.look_at sqrtf c._position c._target c._up }
  { c with _view_dirty := false }

/-- Method `Camera::update_projection_matrix`. -/
def update_projection_matrix (tanf : F → F) (c : Camera F) : Camera F :=
  let c := { c with _projection_matrix :=
    Matrix4.perspective tanf c._fov c._aspect_ratio c._near_plane c._far_plane }
  { c with _projection_dirty := false }

/-- Method `Camera::view_matrix`: the returned matrix and the object after the call (the
method is `const` but writes the `mutable` members). -/
def view_matrix (sqrtf : F → F) (c : Camera F) : Matrix4 F × Camera F :=
  let c := if c._view_dirty then update_view_matrix sqrtf c else c
  (c._view_matrix, c)

/-- Method `Camera::projection_matrix`: the returned matrix and the object after the call. -/
def projection_matrix (tanf : F → F) (c : Camera F) : Matrix4 F × Camera F :=
  let c := if c._projection_dirty then update_projection_matrix tanf c else c
  (c._projection_matrix, c)

/-- Method `Camera::view_projection_matrix`: `projection_matrix() * view_matrix()`, with
the left operand evaluated first; the returned matrix and the object after the call. -/
def view_projection_matrix (sqrtf tanf : F → F) (c : Camera F) : Matrix4 F × Camera F :=
  let p := projection_matrix tanf c
  let v := view_matrix sqrtf p.2
  (Matrix4.mul p.1 v.1, v.2)

/-- Method `Camera::view_projection_matrix` with the right operand of `operator*`
evaluated first. -/
def view_projection_matrix_rl (sqrtf tanf : F → F) (c : Camera F) : Matrix4 F × Camera F :=
  let v := view_matrix sqrtf c
  let p := projection_matrix tanf v.2
  (Matrix4.mul p.1 v.1, p.2)

/-! ### Sequences of calls on a camera -/

/-- One call of a public method of `Camera` that can change the object, with its
arguments. -/
inductive Call (F : Type) where
  | look_at (target : Vector3 F)
  | move (offset : Vector3 F)
  | rotate (yaw pitch : F)
  | set_position (position : Vector3 F)
  | set_target (target : Vector3 F)
  | set_up (up : Vector3 F)
  | set_perspective (fov aspect near far : F)
  | set_orthographic (left right bottom top near far : F)
  | view_matrix
  | projection_matrix
  | view_projection_matrix

/-- The camera after one call. -/
def call (sqrtf cosf sinf tanf : F → F) (c : Camera F) : Call F → Camera F
  | .look_at target => c.look_at target
  | .move offset => c.move offset
  | .rotate yaw pitch => c.rotate sqrtf cosf sinf yaw pitch
  | .set_position position => c.set_position position
  | .set_target target => c.set_target target
  | .set_up up => c.set_up up
  | .set_perspective fov aspect near far => c.set_perspective fov aspect near far
  | .set_orthographic left right bottom top near far =>
      c.set_orthographic left right bottom top near far
  | .view_matrix => (c.view_matrix sqrtf).2
  | .projection_matrix => (c.projection_matrix tanf).2
  | .view_projection_matrix => (c.view_projection_matrix sqrtf tanf).2

/-- The camera after a sequence of calls, first call first. -/
def run (sqrtf cosf sinf tanf : F → F) (c : Camera F) (calls : List (Call F)) : Camera F :=
  calls.foldl (call sqrtf cosf sinf tanf) c

/-! ### The cache of the camera -/

/-- A clear dirty flag means that the cached matrix is the one computed from the members. -/
def Coherent (sqrtf tanf : F → F) (c : Camera F) : Prop :=
  (c._view_dirty = false →
    c._view_matrix = Matrix4.look_at sqrtf c._position c._target c._up) ∧
  (c._projection_dirty = false →
    c._projection_matrix =
      Matrix4.perspective tanf c._fov c._aspect_ratio c._near_plane c._far_plane)

/-- The members behind the view matrix: position, target, up, the cached view matrix and
the view dirty flag. -/
def view_part (c : Camera F) : Vector3 F × Vector3 F × Vector3 F × Matrix4 F × Bool :=
  (c._position, c._target, c._up, c._view_matrix, c._view_dirty)

/-- The members behind the projection matrix: fov, aspect ratio, near and far planes, the
cached projection matrix and the projection dirty flag. -/
def projection_part (c : Camera F) : F × F × F × F × Matrix4 F × Bool :=
  (c._fov, c._aspect_ratio, c._near_plane, c._far_plane, c._projection_matrix,
    c._projection_dirty)

end Camera

/-! ## Mesh -/

/-- The value of type `int` (32 bits, two's complement) that an integer result is stored
as. -/
def toInt32 (n : Int) : Int := (n + 2147483648) % 4294967296 - 2147483648

/-- Struct `Vertex`. -/
structure Vertex (F : Type) where
  /-- Member `position`. -/
  position : Vector3 F
  /-- Member `normal`. -/
  normal : Vector3 F
  /-- Member `color`. -/
  color : Vector3 F

/-- The private members of class `Mesh`. -/
structure Mesh (F : Type) where
  /-- Member `std::vector<Vertex> _vertices`. -/
  _vertices : List (Vertex F)
  /-- Member `std::vector<int> _indices`. -/
  _indices : List Int

namespace Mesh

/-- Constructor `Mesh::Mesh()`. -/
def default : Mesh F := ⟨[], []⟩

/-- Method `Mesh::add_vertex`. -/
def add_vertex (mesh : Mesh F) (vertex : Vertex F) : Mesh F :=
  { mesh with _vertices := mesh._vertices ++ [vertex] }

/-- Method `Mesh::add_triangle`: three `push_back`. -/
def add_triangle (mesh : Mesh F) (v1 v2 v3 : Int) : Mesh F :=
  let mesh := { mesh with _indices := mesh._indices ++ [v1] }
  let mesh := { mesh with _indices := mesh._indices ++ [v2] }
  { mesh with _indices := mesh._indices ++ [v3] }

/-- Accessor `vertices()`. -/
def vertices (mesh : Mesh F) : List (Vertex F) := mesh._vertices

/-- Accessor `indices()`. -/
def indices (mesh : Mesh F) : List Int := mesh._indices

/-- Method `vertex_count`. -/
def vertex_count (mesh : Mesh F) : Nat := mesh._vertices.length

/-- Method `triangle_count`. -/
def triangle_count (mesh : Mesh F) : Nat := mesh._indices.length / 3

/-- Body of the loop over `face` of `create_cube`; the five arrays of the function are
passed as lists. -/
def create_cube_face (vertices normals colors : List (Vector3 F))
    (face_indices : List (List Nat)) (triangle_winding : List (List Int))
    (mesh : Mesh F) (face : Nat) : Mesh F :=
  let base_vertex := toInt32 mesh._vertices.length
  let mesh := (List.range 4).foldl
    (fun mesh i => mesh.add_vertex
      ⟨vertices.getD ((face_indices.getD face []).getD i 0) Vector3.default,
        normals.getD face Vector3.default, colors.getD face Vector3.default⟩) mesh
  let mesh := mesh.add_triangle
    (toInt32 (base_vertex + (triangle_winding.getD face []).getD 0 0))
    (toInt32 (base_vertex + (triangle_winding.getD face []).getD 1 0))
    (toInt32 (base_vertex + (triangle_winding.getD face []).getD 2 0))
  mesh.add_triangle
    (toInt32 (base_vertex + (triangle_winding.getD face []).getD 3 0))
    (toInt32 (base_vertex + (triangle_winding.getD face []).getD 4 0))
    (toInt32 (base_vertex + (triangle_winding.getD face []).getD 5 0))

/-- Static `Mesh::create_cube`; the literal `0.5f` is `1 / 2`. -/
def create_cube (size : F) : Mesh F :=
  let mesh : Mesh F := default
  let half_size := size * (1 / 2)
  let vertices : List (Vector3 F) := [
    Vector3.ofXYZ (-half_size) (-half_size) (-half_size),
    Vector3.ofXYZ half_size (-half_size) (-half_size),
    Vector3.ofXYZ half_size half_size (-half_size),
    Vector3.ofXYZ (-half_size) half_size (-half_size),
    Vector3.ofXYZ (-half_size) (-half_size) half_size,
    Vector3.ofXYZ half_size (-half_size) half_size,
    Vector3.ofXYZ half_size half_size half_size,
    Vector3.ofXYZ (-half_size) half_size half_size]
  let normals : List (Vector3 F) := [
    Vector3.ofXYZ 0 0 (-1), Vector3.ofXYZ 0 0 1, Vector3.ofXYZ (-1) 0 0,
    Vector3.ofXYZ 1 0 0, Vector3.ofXYZ 0 (-1) 0, Vector3.ofXYZ 0 1 0]
  let colors : List (Vector3 F) := [
    Vector3.ofXYZ 1 0 0, Vector3.ofXYZ 0 1 0, Vector3.ofXYZ 0 0 1,
    Vector3.ofXYZ 1 1 0, Vector3.ofXYZ 1 0 1, Vector3.ofXYZ 0 1 1]
  let face_indices : List (List Nat) := [
    [0, 1, 2, 3], [5, 4, 7, 6], [4, 0, 3, 7], [1, 5, 6, 2], [4, 5, 1, 0], [3, 2, 6, 7]]
  let triangle_winding : List (List Int) := [
    [0, 1, 2, 0, 2, 3], [0, 2, 1, 0, 3, 2], [0, 1, 2, 0, 2, 3],
    [0, 2, 1, 0, 3, 2], [0, 2, 1, 0, 3, 2], [0, 1, 2, 0, 2, 3]]
  (List.range 6).foldl
    (create_cube_face vertices normals colors face_indices triangle_winding) mesh

/-- Body of the loop over `lon` of `create_sphere`. -/
def create_sphere_point (sqrtf cosf sinf : F → F) (pi radius : F) (segments : Int)
    (sin_theta cos_theta : F) (mesh : Mesh F) (lon : Nat) : Mesh F :=
  let phi := (lon : F) * 2 * pi / ((toInt32 (segments * 2) : Int) : F)
  let sin_phi := sinf phi
  let cos_phi := cosf phi
  let position := Vector3.ofXYZ (radius * sin_theta * cos_phi) (radius * cos_theta)
    (radius * sin_theta * sin_phi)
  let normal := position.normalized sqrtf
  let color := Vector3.ofXYZ ((normal.x + 1) * (1 / 2)) ((normal.y + 1) * (1 / 2))
    ((normal.z + 1) * (1 / 2))
  mesh.add_vertex ⟨position, normal, color⟩

/-- Body of the loop over `lat` of `create_sphere`. -/
def create_sphere_ring (sqrtf cosf sinf : F → F) (pi radius : F) (segments : Int)
    (mesh : Mesh F) (lat : Nat) : Mesh F :=
  let theta := (lat : F) * pi / ((segments : Int) : F)
  let sin_theta := sinf theta
  let cos_theta := cosf theta
  (List.range (toInt32 (segments * 2)).toNat).foldl
    (create_sphere_point sqrtf cosf sinf pi radius segments sin_theta cos_theta) mesh

/-- Body of the first loop over `i` of `create_sphere`: the triangles at the top vertex. -/
def create_sphere_top (points_per_ring : Int) (mesh : Mesh F) (i : Nat) : Mesh F :=
  let next := Int.tmod (toInt32 (i + 1)) points_per_ring
  mesh.add_triangle 0 (toInt32 (i + 1)) (toInt32 (next + 1))

/-- Body of the loop over `i` inside the loop over `ring` of `create_sphere`. -/
def create_sphere_quad (points_per_ring current_ring_start next_ring_start : Int)
    (mesh : Mesh F) (i : Nat) : Mesh F :=
  let next := Int.tmod (toInt32 (i + 1)) points_per_ring
  let mesh := mesh.add_triangle (toInt32 (current_ring_start + i))
    (toInt32 (next_ring_start + i)) (toInt32 (current_ring_start + next))
  mesh.add_triangle (toInt32 (current_ring_start + next)) (toInt32 (next_ring_start + i))
    (toInt32 (next_ring_start + next))

/-- Body of the loop over `ring` of `create_sphere`. -/
def create_sphere_band (points_per_ring : Int) (mesh : Mesh F) (ring : Nat) : Mesh F :=
  let current_ring_start := toInt32 (1 + toInt32 (ring * points_per_ring))
  let next_ring_start := toInt32 (1 + toInt32 (toInt32 (ring + 1) * points_per_ring))
  (List.range points_per_ring.toNat).foldl
    (create_sphere_quad points_per_ring current_ring_start next_ring_start) mesh

/-- Body of the last loop over `i` of `create_sphere`: the triangles at the bottom
vertex. -/
def create_sphere_bottom (points_per_ring last_ring_start bottom_vertex : Int)
    (mesh : Mesh F) (i : Nat) : Mesh F :=
  let next := Int.tmod (toInt32 (i + 1)) points_per_ring
  mesh.add_triangle (toInt32 (last_ring_start + next)) (toInt32 (last_ring_start + i))
    bottom_vertex

/-- Static `Mesh::create_sphere`; `pi` is `M_PI`, `segments` is an `int`, and every
result of `int` arithmetic goes through `toInt32`. -/
def create_sphere (sqrtf cosf sinf : F → F) (pi radius : F) (segments : Int) : Mesh F :=
  let mesh : Mesh F := default
  let mesh := mesh.add_vertex
    ⟨Vector3.ofXYZ 0 radius 0, Vector3.ofXYZ 0 1 0, Vector3.ofXYZ 1 1 1⟩
  let mesh := (List.range' 1 (segments.toNat - 1)).foldl
    (create_sphere_ring sqrtf cosf sinf pi radius segments) mesh
  let mesh := mesh.add_vertex
    ⟨Vector3.ofXYZ 0 (-radius) 0, Vector3.ofXYZ 0 (-1) 0, Vector3.ofXYZ 1 1 1⟩
  let rings := toInt32 (segments - 1)
  let points_per_ring := toInt32 (segments * 2)
  let mesh := (List.range points_per_ring.toNat).foldl (create_sphere_top points_per_ring) mesh
  let mesh := (List.range (toInt32 (rings - 1)).toNat).foldl
    (create_sphere_band points_per_ring) mesh
  let last_ring_start := toInt32 (1 + toInt32 (toInt32 (rings - 1) * points_per_ring))
  let bottom_vertex := toInt32 ((mesh._vertices.length : Int) - 1)
  (List.range points_per_ring.toNat).foldl
    (create_sphere_bottom points_per_ring last_ring_start bottom_vertex) mesh

/-- Static `Mesh::create_plane`. -/
def create_plane (width height : F) : Mesh F :=
  let mesh : Mesh F := default
  let half_width := width * (1 / 2)
  let half_height := height * (1 / 2)
  let mesh := mesh.add_vertex
    ⟨Vector3.ofXYZ (-half_width) 0 (-half_height), Vector3.ofXYZ 0 1 0, Vector3.ofXYZ 1 1 1⟩
  let mesh := mesh.add_vertex
    ⟨Vector3.ofXYZ half_width 0 (-half_height), Vector3.ofXYZ 0 1 0, Vector3.ofXYZ 1 1 1⟩
  let mesh := mesh.add_vertex
    ⟨Vector3.ofXYZ half_width 0 half_height, Vector3.ofXYZ 0 1 0, Vector3.ofXYZ 1 1 1⟩
  let mesh := mesh.add_vertex
    ⟨Vector3.ofXYZ (-half_width) 0 half_height, Vector3.ofXYZ 0 1 0, Vector3.ofXYZ 1 1 1⟩
  let mesh := mesh.add_triangle 0 1 2
  mesh.add_triangle 0 2 3

/-- Static `Mesh::create_triangle`. -/
def create_triangle (size : F) : Mesh F :=
  let mesh : Mesh F := default
  let half_size := size * (1 / 2)
  let mesh := mesh.add_vertex
    ⟨Vector3.ofXYZ 0 0 half_size, Vector3.ofXYZ 0 1 0, Vector3.ofXYZ 1 0 0⟩
  let mesh := mesh.add_vertex
    ⟨Vector3.ofXYZ (-half_size) 0 (-half_size), Vector3.ofXYZ 0 1 0, Vector3.ofXYZ 0 1 0⟩
  let mesh := mesh.add_vertex
    ⟨Vector3.ofXYZ half_size 0 (-half_size), Vector3.ofXYZ 0 1 0, Vector3.ofXYZ 0 0 1⟩
  mesh.add_triangle 0 1 2

/-! ### Notions used to state the properties of the factories -/

/-- Every index is a position in the list of vertices. -/
def ValidIndices (mesh : Mesh F) : Prop :=
  ∀ idx ∈ mesh.indices, 0 ≤ idx ∧ idx < (mesh.vertex_count : Int)

end Mesh

end Simd3D

/-! ## Reading registers and arrays lane by lane -/

namespace Simd3D

variable {F : Type} [LinearOrderedField F]

@[simp] theorem Vec4.get_mk {α : Type} (a b c d : α) (i : Fin 4) :
    (Vec4.mk a b c d).get i = ![a, b, c, d] i := rfl

@[simp] theorem Vec8.get_mk_0 {α : Type} (a b c d e f g h : α) :
    (Vec8.mk a b c d e f g h).get 0 = a := rfl
@[simp] theorem Vec8.get_mk_1 {α : Type} (a b c d e f g h : α) :
    (Vec8.mk a b c d e f g h).get 1 = b := rfl
@[simp] theorem Vec8.get_mk_2 {α : Type} (a b c d e f g h : α) :
    (Vec8.mk a b c d e f g h).get 2 = c := rfl
@[simp] theorem Vec8.get_mk_3 {α : Type} (a b c d e f g h : α) :
    (Vec8.mk a b c d e f g h).get 3 = d := rfl
@[simp] theorem Vec8.get_mk_4 {α : Type} (a b c d e f g h : α) :
    (Vec8.mk a b c d e f g h).get 4 = e := rfl
@[simp] theorem Vec8.get_mk_5 {α : Type} (a b c d e f g h : α) :
    (Vec8.mk a b c d e f g h).get 5 = f := rfl
@[simp] theorem Vec8.get_mk_6 {α : Type} (a b c d e f g h : α) :
    (Vec8.mk a b c d e f g h).get 6 = g := rfl
@[simp] theorem Vec8.get_mk_7 {α : Type} (a b c d e f g h : α) :
    (Vec8.mk a b c d e f g h).get 7 = h := rfl

theorem Vec4.ext_get4 {α : Type} {v w : Vec4 α} (h : ∀ i, v.get i = w.get i) : v = w := by
  cases v
  cases w
  have h0 := h 0
  have h1 := h 1
  have h2 := h 2
  have h3 := h 3
  simp at h0 h1 h2 h3
  simp [h0, h1, h2, h3]

theorem Vec8.ext_get8 {α : Type} {v w : Vec8 α} (h : ∀ i, v.get i = w.get i) : v = w := by
  cases v
  cases w
  have h0 := h 0
  have h1 := h 1
  have h2 := h 2
  have h3 := h 3
  have h4 := h 4
  have h5 := h 5
  have h6 := h 6
  have h7 := h 7
  simp only [Vec8.get_mk_0, Vec8.get_mk_1, Vec8.get_mk_2, Vec8.get_mk_3, Vec8.get_mk_4,
    Vec8.get_mk_5, Vec8.get_mk_6, Vec8.get_mk_7] at h0 h1 h2 h3 h4 h5 h6 h7
  simp [h0, h1, h2, h3, h4, h5, h6, h7]

@[simp] theorem Vec4.get_set4 {α : Type} (v : Vec4 α) (i j : Fin 4) (a : α) :
    (v.set i a).get j = if j = i then a else v.get j := by
  fin_cases i <;> fin_cases j <;> simp [Vec4.set, Vec4.get]

@[simp] theorem Vec8.get_set8 {α : Type} (v : Vec8 α) (i j : Fin 8) (a : α) :
    (v.set i a).get j = if j = i then a else v.get j := by
  fin_cases i <;> fin_cases j <;> rfl

@[simp] theorem mm_set_ps_get (e3 e2 e1 e0 : F) (i : Fin 4) :
    (mm_set_ps e3 e2 e1 e0).get i = ![e0, e1, e2, e3] i := rfl

@[simp] theorem mm_setzero_ps_get (i : Fin 4) : (mm_setzero_ps : M128 F).get i = 0 := by
  fin_cases i <;> rfl

@[simp] theorem mm_set1_ps_get (a : F) (i : Fin 4) : (mm_set1_ps a).get i = a := by
  fin_cases i <;> rfl

@[simp] theorem mm_add_ps_get (a b : M128 F) (i : Fin 4) :
    (mm_add_ps a b).get i = a.get i + b.get i := by
  fin_cases i <;> rfl

@[simp] theorem mm_sub_ps_get (a b : M128 F) (i : Fin 4) :
    (mm_sub_ps a b).get i = a.get i - b.get i := by
  fin_cases i <;> rfl

@[simp] theorem mm_mul_ps_get (a b : M128 F) (i : Fin 4) :
    (mm_mul_ps a b).get i = a.get i * b.get i := by
  fin_cases i <;> rfl

@[simp] theorem mm_fmadd_ps_get (a b c : M128 F) (i : Fin 4) :
    (mm_fmadd_ps a b c).get i = a.get i * b.get i + c.get i := by
  fin_cases i <;> rfl

@[simp] theorem mm_fnmadd_ps_get (a b c : M128 F) (i : Fin 4) :
    (mm_fnmadd_ps a b c).get i = -(a.get i * b.get i) + c.get i := by
  fin_cases i <;> rfl

/-- A shuffle with four equal selectors of the same register is a broadcast. -/
@[simp] theorem mm_shuffle_ps_broadcast_get (a : M128 F) (k i : Fin 4) :
    (mm_shuffle_ps a a k k k k).get i = a.get k := by
  fin_cases i <;> rfl

/-- Two vectors with the same four lanes are equal. -/
theorem Vector3.ext_lanes {a b : Vector3 F} (h : ∀ i, a.simd.get i = b.simd.get i) : a = b := by
  cases a
  cases b
  congr 1
  exact Vec4.ext_get4 h

namespace Vector3

@[simp] theorem ofXYZ_x (a b c : F) : (ofXYZ a b c).x = a := rfl
@[simp] theorem ofXYZ_y (a b c : F) : (ofXYZ a b c).y = b := rfl
@[simp] theorem ofXYZ_z (a b c : F) : (ofXYZ a b c).z = c := rfl
@[simp] theorem ofXYZ_w (a b c : F) : (ofXYZ a b c).w = 0 := rfl

/-- The value computed by the `_mm_dp_ps` branch of `dot`. -/
theorem dot_eq (a b : Vector3 F) : dot a b = a.x * b.x + a.y * b.y + a.z * b.z := by
  simp [dot, mm_dp_ps_0x71, mm_cvtss_f32, x, y, z]

/-- The value computed by the horizontal-add branch of `dot`: lane 3 takes part. -/
theorem dot_hadd_eq (a b : Vector3 F) :
    dot_hadd a b = a.x * b.x + a.y * b.y + a.z * b.z + a.w * b.w := by
  simp [dot_hadd, mm_hadd_ps, mm_cvtss_f32, x, y, z, w]
  ring

/-- The four lanes of `cross`. -/
theorem cross_lanes (a b : Vector3 F) :
    (cross a b).x = a.y * b.z - a.z * b.y ∧ (cross a b).y = a.z * b.x - a.x * b.z ∧
    (cross a b).z = a.x * b.y - a.y * b.x ∧ (cross a b).w = a.w * b.w - a.w * b.w := by
  simp [cross, mm_shuffle_ps, x, y, z, w]

theorem cross_fma_eq (a b : Vector3 F) : cross_fma a b = cross a b := by
  apply Vector3.ext_lanes
  intro i
  fin_cases i <;> simp [cross_fma, cross, mm_shuffle_ps] <;> ring

theorem smul_lanes (a : Vector3 F) (k : F) (i : Fin 4) : (smul a k).simd.get i = a.simd.get i * k := by
  simp [smul]

theorem zero_lanes (i : Fin 4) : (zero : Vector3 F).simd.get i = 0 := by
  simp [zero, default]

theorem normalized_of_gt (sqrtf : F → F) (a : Vector3 F) (h : length sqrtf a > 1 / 10 ^ 8) :
    normalized sqrtf a = smul a (1 / length sqrtf a) := by
  unfold normalized
  simp only [h, if_true]

theorem normalized_of_le (sqrtf : F → F) (a : Vector3 F) (h : length sqrtf a ≤ 1 / 10 ^ 8) :
    normalized sqrtf a = zero := by
  unfold normalized
  simp only [not_lt.mpr h, if_false, gt_iff_lt]

theorem normalize_eq (sqrtf : F → F) (a : Vector3 F) : normalize sqrtf a = normalized sqrtf a := by
  unfold normalize normalized assign
  by_cases h : length sqrtf a > 1 / 10 ^ 8
  · simp only [h, if_true]
  · simp only [h, if_false]

theorem length_squared_smul (a : Vector3 F) (k : F) :
    length_squared (smul a k) = k * k * length_squared a := by
  simp only [length_squared, dot_eq]
  simp [smul, x, y, z]
  ring

theorem length_squared_nonneg (a : Vector3 F) : 0 ≤ length_squared a := by
  simp only [length_squared, dot_eq]
  nlinarith [mul_self_nonneg a.x, mul_self_nonneg a.y, mul_self_nonneg a.z]

/-- The length of a vector on the `x` axis, with the real square root. -/
theorem length_real_axis (a : ℝ) (ha : 0 ≤ a) : length Real.sqrt (ofXYZ a 0 0) = a := by
  unfold length length_squared
  rw [dot_eq]
  simp only [ofXYZ_x, ofXYZ_y, ofXYZ_z, mul_zero, add_zero]
  exact Real.sqrt_mul_self ha

theorem length_real_zero : length Real.sqrt (zero : Vector3 ℝ) = 0 := by
  unfold length length_squared
  rw [dot_eq]
  simp [zero, default, x, y, z]

theorem length_real_345 : length Real.sqrt (ofXYZ 3 4 0) = 5 := by
  unfold length length_squared
  rw [dot_eq]
  simp only [ofXYZ_x, ofXYZ_y, ofXYZ_z]
  rw [show (3 : ℝ) * 3 + 4 * 4 + 0 * 0 = 5 * 5 by norm_num]
  exact Real.sqrt_mul_self (by norm_num)

/-- With the real square root, a vector longer than the threshold is normalised to length 1. -/
theorem length_normalized_real (v : Vector3 ℝ) (h : length Real.sqrt v > 1 / 10 ^ 8) :
    length Real.sqrt (normalized Real.sqrt v) = 1 := by
  have hpos : 0 < length Real.sqrt v := lt_trans (by positivity) h
  rw [normalized_of_gt Real.sqrt v h]
  unfold length at hpos ⊢
  rw [length_squared_smul]
  have hsq : Real.sqrt (length_squared v) * Real.sqrt (length_squared v) = length_squared v :=
    Real.mul_self_sqrt (length_squared_nonneg v)
  have hne : Real.sqrt (length_squared v) ≠ 0 := ne_of_gt hpos
  have h1 : 1 / Real.sqrt (length_squared v) * (1 / Real.sqrt (length_squared v)) *
      length_squared v = 1 := by
    nth_rewrite 3 [← hsq]
    field_simp
  rw [h1, Real.sqrt_one]

end Vector3

namespace Matrix4

/-- Two matrices with the same sixteen entries are equal. -/
theorem ext_get {A B : Matrix4 F} (h : ∀ i j, A.get i j = B.get i j) : A = B := by
  cases A with
  | mk ra =>
    cases B with
    | mk rb =>
      congr 1
      apply Vec4.ext_get4
      intro i
      apply Vec4.ext_get4
      intro j
      exact h i j

@[simp] theorem get_set (M : Matrix4 F) (r c i j : Fin 4) (v : F) :
    (M.set r c v).get i j = if i = r ∧ j = c then v else M.get i j := by
  unfold Matrix4.get Matrix4.set
  by_cases hi : i = r
  · subst hi
    by_cases hj : j = c <;> simp [hj]
  · simp [hi]

@[simp] theorem default_get (i j : Fin 4) :
    (default : Matrix4 F).get i j = if i = j then 1 else 0 := by
  fin_cases i <;> fin_cases j <;> simp [default, Matrix4.get]

@[simp] theorem identity_get (i j : Fin 4) :
    (identity : Matrix4 F).get i j = if i = j then 1 else 0 := by
  simp [identity]

/-- Lane `j` of `transform_point`: the coordinates of the point weight the ROWS of the
matrix, so lane `j` is built from COLUMN `j` of the matrix. -/
theorem transform_point_get (M : Matrix4 F) (p : Vector3 F) (j : Fin 4) :
    (M.transform_point p).simd.get j =
      (p.x * M.get 0 j + p.y * M.get 1 j) + (p.z * M.get 2 j + 1 * M.get 3 j) := by
  simp [transform_point, Matrix4.get]

/-- Lane `j` of `transform_vector`. -/
theorem transform_vector_get (M : Matrix4 F) (v : Vector3 F) (j : Fin 4) :
    (M.transform_vector v).simd.get j =
      (v.x * M.get 0 j + v.y * M.get 1 j) + v.z * M.get 2 j := by
  simp [transform_vector, Matrix4.get]

/-- The FMA branch of `transform_point` agrees with the other branch. -/
theorem transform_point_fma_eq (M : Matrix4 F) (p : Vector3 F) :
    M.transform_point_fma p = M.transform_point p := by
  apply Vector3.ext_lanes
  intro j
  simp [transform_point_fma, transform_point]
  ring

/-- The FMA branch of `transform_vector` agrees with the other branch. -/
theorem transform_vector_fma_eq (M : Matrix4 F) (v : Vector3 F) :
    M.transform_vector_fma v = M.transform_vector v := by
  apply Vector3.ext_lanes
  intro j
  simp [transform_vector_fma, transform_vector]
  ring

@[simp] theorem translation_get (t : Vector3 F) (i j : Fin 4) :
    (translation t).get i j =
      if i = 2 ∧ j = 3 then t.z else if i = 1 ∧ j = 3 then t.y
      else if i = 0 ∧ j = 3 then t.x else if i = j then 1 else 0 := by
  simp [translation]

@[simp] theorem rotation_y_get (cosf sinf : F → F) (a : F) (i j : Fin 4) :
    (rotation_y cosf sinf a).get i j =
      if i = 2 ∧ j = 2 then cosf a else if i = 2 ∧ j = 0 then -sinf a
      else if i = 0 ∧ j = 2 then sinf a else if i = 0 ∧ j = 0 then cosf a
      else if i = j then 1 else 0 := by
  simp [rotation_y]

theorem transform_point_x (M : Matrix4 F) (p : Vector3 F) :
    (M.transform_point p).x = (p.x * M.get 0 0 + p.y * M.get 1 0) + (p.z * M.get 2 0 + 1 * M.get 3 0) :=
  transform_point_get M p 0
theorem transform_point_y (M : Matrix4 F) (p : Vector3 F) :
    (M.transform_point p).y = (p.x * M.get 0 1 + p.y * M.get 1 1) + (p.z * M.get 2 1 + 1 * M.get 3 1) :=
  transform_point_get M p 1
theorem transform_point_z (M : Matrix4 F) (p : Vector3 F) :
    (M.transform_point p).z = (p.x * M.get 0 2 + p.y * M.get 1 2) + (p.z * M.get 2 2 + 1 * M.get 3 2) :=
  transform_point_get M p 2
theorem transform_point_w (M : Matrix4 F) (p : Vector3 F) :
    (M.transform_point p).w = (p.x * M.get 0 3 + p.y * M.get 1 3) + (p.z * M.get 2 3 + 1 * M.get 3 3) :=
  transform_point_get M p 3
theorem transform_vector_x (M : Matrix4 F) (p : Vector3 F) :
    (M.transform_vector p).x = (p.x * M.get 0 0 + p.y * M.get 1 0) + p.z * M.get 2 0 :=
  transform_vector_get M p 0
theorem transform_vector_y (M : Matrix4 F) (p : Vector3 F) :
    (M.transform_vector p).y = (p.x * M.get 0 1 + p.y * M.get 1 1) + p.z * M.get 2 1 :=
  transform_vector_get M p 1
theorem transform_vector_z (M : Matrix4 F) (p : Vector3 F) :
    (M.transform_vector p).z = (p.x * M.get 0 2 + p.y * M.get 1 2) + p.z * M.get 2 2 :=
  transform_vector_get M p 2
theorem transform_vector_w (M : Matrix4 F) (p : Vector3 F) :
    (M.transform_vector p).w = (p.x * M.get 0 3 + p.y * M.get 1 3) + p.z * M.get 2 3 :=
  transform_vector_get M p 3

/-! ### The elimination steps of `inverse`, entry by entry -/

theorem entry_set (aug : Augmented F) (k r : Fin 4) (row : Vec8 F) (c : Fin 8) :
    entry (aug.set k row) r c = if r = k then row.get c else entry aug r c := by
  unfold entry
  by_cases h : r = k <;> simp [h]

theorem storeu_row_get (l r : M128 F) (c : Fin 8) :
    (storeu_row l r).get c = Fin.append (fun j => l.get j) (fun j => r.get j) c := by
  fin_cases c <;> rfl

theorem loadu_left_get (row : Vec8 F) (j : Fin 4) : (loadu_left row).get j = row.get (lcol j) := by
  fin_cases j <;> rfl

theorem loadu_right_get (row : Vec8 F) (j : Fin 4) : (loadu_right row).get j = row.get (rcol j) := by
  fin_cases j <;> rfl

/-- Storing back the two halves of a lane-wise operation on a row. -/
theorem storeu_lanewise (g : Fin 8 → F) (l r : M128 F)
    (hl : ∀ j, l.get j = g (lcol j)) (hr : ∀ j, r.get j = g (rcol j)) (c : Fin 8) :
    (storeu_row l r).get c = g c := by
  fin_cases c
  · exact hl 0
  · exact hl 1
  · exact hl 2
  · exact hl 3
  · exact hr 0
  · exact hr 1
  · exact hr 2
  · exact hr 3

theorem entry_scale_pivot_row (aug : Augmented F) (i r : Fin 4) (c : Fin 8) :
    entry (scale_pivot_row aug i) r c =
      if r = i then entry aug i c * (1 / entry aug i (lcol i)) else entry aug r c := by
  unfold scale_pivot_row
  simp only [entry_set]
  split_ifs with h
  · apply storeu_lanewise (fun c => entry aug i c * (1 / entry aug i (lcol i)))
    · intro j; simp [loadu_left_get, entry]
    · intro j; simp [loadu_right_get, entry]
  · rfl

theorem entry_eliminate_row (aug : Augmented F) (i k r : Fin 4) (c : Fin 8) :
    entry (eliminate_row aug i k) r c =
      if r = k ∧ k ≠ i then entry aug k c - entry aug k (lcol i) * entry aug i c
      else entry aug r c := by
  unfold eliminate_row
  by_cases hk : k = i
  · simp [hk]
  · simp only [hk, ne_eq, not_false_eq_true, if_true, entry_set, and_true]
    split_ifs with h
    · apply storeu_lanewise (fun c => entry aug k c - entry aug k (lcol i) * entry aug i c)
      · intro j; simp [loadu_left_get, entry]
      · intro j; simp [loadu_right_get, entry]
    · rfl

theorem entry_eliminate_column (aug : Augmented F) (i r : Fin 4) (c : Fin 8) :
    entry (eliminate_column aug i) r c =
      if r = i then entry aug i c
      else entry aug r c - entry aug r (lcol i) * entry aug i c := by
  unfold eliminate_column
  simp only [List.foldl_cons, List.foldl_nil, entry_eliminate_row]
  fin_cases i <;> fin_cases r <;> simp

/-- One iteration of the swap loop of `inverse`, column `j`. -/
theorem entry_swap_step (a : Augmented F) (i p r : Fin 4) (j c : Fin 8) :
    entry ((a.set i ((a.get i).set j ((a.get p).get j))).set p
        (((a.set i ((a.get i).set j ((a.get p).get j))).get p).set j ((a.get i).get j))) r c =
      if c = j then (if r = p then entry a i j else if r = i then entry a p j else entry a r j)
      else entry a r c := by
  unfold entry
  by_cases hc : c = j
  · subst hc
    by_cases hrp : r = p
    · subst hrp; simp
    · by_cases hri : r = i
      · subst hri; simp [hrp]
      · simp [hrp, hri]
  · by_cases hrp : r = p
    · subst hrp
      by_cases hri : r = i
      · subst hri; simp [hc]
      · simp [hc, hri]
    · by_cases hri : r = i
      · subst hri; simp [hc, hrp]
      · simp [hc, hrp, hri]

theorem entry_swap_fold (i p : Fin 4) (L : List (Fin 8)) (hL : L.Nodup) (a : Augmented F)
    (r : Fin 4) (c : Fin 8) :
    entry (L.foldl
        (fun (a : Augmented F) j =>
          let x := (a.get i).get j
          let y := (a.get p).get j
          let a := a.set i ((a.get i).set j y)
          a.set p ((a.get p).set j x)) a) r c =
      if c ∈ L then (if r = p then entry a i c else if r = i then entry a p c else entry a r c)
      else entry a r c := by
  induction L generalizing a with
  | nil => simp
  | cons j L ih =>
    have hj : j ∉ L := (List.nodup_cons.mp hL).1
    have hL2 : L.Nodup := (List.nodup_cons.mp hL).2
    rw [List.foldl_cons, ih hL2]
    simp only [entry_swap_step]
    by_cases hc : c ∈ L
    · have hcj : c ≠ j := fun h => hj (h ▸ hc)
      simp [hc, hcj]
    · by_cases hcj : c = j
      · subst hcj; simp [hc]
      · simp [hc, hcj]

theorem entry_swap_rows (aug : Augmented F) (i p r : Fin 4) (c : Fin 8) :
    entry (swap_rows aug i p) r c =
      if r = p then entry aug i c else if r = i then entry aug p c else entry aug r c := by
  unfold swap_rows
  rw [entry_swap_fold i p _ (by decide)]
  have hc : c ∈ ([0, 1, 2, 3, 4, 5, 6, 7] : List (Fin 8)) := by fin_cases c <;> simp
  simp [hc]

/-- The pivot row found is at or below the diagonal. -/
theorem find_pivot_ge (aug : Augmented F) (i : Fin 4) : i ≤ (find_pivot aug i).1 := by
  fin_cases i <;> simp [find_pivot, List.filter] <;> split_ifs <;>
    first
      | exact le_refl _
      | exact (by decide : (0 : Fin 4) ≤ 1)
      | exact (by decide : (0 : Fin 4) ≤ 2)
      | exact (by decide : (0 : Fin 4) ≤ 3)
      | exact (by decide : (1 : Fin 4) ≤ 2)
      | exact (by decide : (1 : Fin 4) ≤ 3)
      | exact (by decide : (2 : Fin 4) ≤ 3)

/-- The value `max_val` is the magnitude of the entry in the pivot row. -/
theorem find_pivot_val (aug : Augmented F) (i : Fin 4) :
    (find_pivot aug i).2 = |entry aug (find_pivot aug i).1 (lcol i)| := by
  fin_cases i <;> simp [find_pivot, List.filter, entry] <;> split_ifs <;> rfl

/-- The value `max_val` bounds every candidate in rows `i .. 3` of column `i`. -/
theorem find_pivot_max (aug : Augmented F) (i k : Fin 4) (hk : i ≤ k) :
    |entry aug k (lcol i)| ≤ (find_pivot aug i).2 := by
  revert hk
  fin_cases i <;> fin_cases k <;> intro hk <;>
    first
      | exact absurd hk (by decide)
      | (simp [find_pivot, List.filter, entry] <;> split_ifs <;> linarith)

/-! ### Invariants of the Gauss-Jordan loop -/

theorem entry_augment_left (M : Matrix4 F) (r j : Fin 4) :
    entry (augment M) r (lcol j) = M.get r j := by
  fin_cases r <;> fin_cases j <;> rfl

theorem entry_augment_right (M : Matrix4 F) (r j : Fin 4) :
    entry (augment M) r (rcol j) = if r = j then 1 else 0 := by
  fin_cases r <;> fin_cases j <;> rfl

theorem RowsOK_augment (M : Matrix4 F) : RowsOK M (augment M) := by
  intro r j
  simp [entry_augment_left, entry_augment_right]

theorem ColsDone_zero (aug : Augmented F) : ColsDone aug 0 := by
  intro r c h
  exact absurd h (Nat.not_lt_zero _)

theorem RowsOK_swap (M : Matrix4 F) (aug : Augmented F) (i p : Fin 4) (h : RowsOK M aug) :
    RowsOK M (swap_rows aug i p) := by
  intro r j
  simp only [entry_swap_rows]
  split_ifs
  · exact h i j
  · exact h p j
  · exact h r j

theorem RowsOK_scale (M : Matrix4 F) (aug : Augmented F) (i : Fin 4) (h : RowsOK M aug) :
    RowsOK M (scale_pivot_row aug i) := by
  intro r j
  simp only [entry_scale_pivot_row]
  split_ifs
  · rw [← h i j, Finset.sum_mul]
    apply Finset.sum_congr rfl
    intro k _
    ring
  · exact h r j

theorem RowsOK_eliminate (M : Matrix4 F) (aug : Augmented F) (i : Fin 4) (h : RowsOK M aug) :
    RowsOK M (eliminate_column aug i) := by
  intro r j
  simp only [entry_eliminate_column]
  split_ifs
  · exact h i j
  · rw [← h i j, ← h r j, Finset.mul_sum, ← Finset.sum_sub_distrib]
    apply Finset.sum_congr rfl
    intro k _
    ring

theorem ColsDone_swap (aug : Augmented F) (i p : Fin 4) (hp : i ≤ p)
    (h : ColsDone aug i.val) : ColsDone (swap_rows aug i p) i.val := by
  intro r c hc
  have hic : i ≠ c := fun e => by rw [e] at hc; exact lt_irrefl _ hc
  have hpc : p ≠ c := fun e => by
    rw [e] at hp
    exact absurd (lt_of_lt_of_le hc hp) (lt_irrefl _)
  simp only [entry_swap_rows]
  by_cases h1 : r = p
  · subst h1
    rw [if_pos rfl, h i c hc]
    simp [hic, hpc]
  · rw [if_neg h1]
    by_cases h2 : r = i
    · subst h2
      rw [if_pos rfl, h p c hc]
      simp [hic, hpc]
    · rw [if_neg h2]
      exact h r c hc

theorem ColsDone_scale (aug : Augmented F) (i : Fin 4) (h : ColsDone aug i.val) :
    ColsDone (scale_pivot_row aug i) i.val := by
  intro r c hc
  have hic : i ≠ c := fun e => by rw [e] at hc; exact lt_irrefl _ hc
  simp only [entry_scale_pivot_row]
  by_cases h1 : r = i
  · subst h1
    rw [if_pos rfl, h r c hc]
    simp [hic]
  · rw [if_neg h1]
    exact h r c hc

theorem pivot_one_scale (aug : Augmented F) (i : Fin 4) (hne : entry aug i (lcol i) ≠ 0) :
    entry (scale_pivot_row aug i) i (lcol i) = 1 := by
  simp only [entry_scale_pivot_row, if_true]
  field_simp

theorem ColsDone_eliminate (aug : Augmented F) (i : Fin 4) (h : ColsDone aug i.val)
    (hone : entry aug i (lcol i) = 1) : ColsDone (eliminate_column aug i) (i.val + 1) := by
  intro r c hc
  simp only [entry_eliminate_column]
  rcases Nat.lt_succ_iff_lt_or_eq.mp hc with hlt | heq
  · have hic : i ≠ c := fun e => by rw [e] at hlt; exact lt_irrefl _ hlt
    by_cases h1 : r = i
    · subst h1
      rw [if_pos rfl, h r c hlt]
    · rw [if_neg h1, h r c hlt, h i c hlt]
      simp [hic]
  · have hci : c = i := Fin.ext heq
    subst hci
    by_cases h1 : r = c
    · subst h1
      rw [if_pos rfl, hone]
      simp
    · rw [if_neg h1, hone]
      simp [h1]

/-- The literal `1e-10f` of the singular check is positive. -/
theorem threshold_pos : (0 : F) < 1 / 10 ^ 10 := by positivity

theorem gauss_jordan_step_eq (aug : Augmented F) (i : Fin 4) :
    gauss_jordan_step aug i =
      if (find_pivot aug i).2 < 1 / 10 ^ 10 then none
      else some (eliminate_column (scale_pivot_row (swapped aug i) i) i) := rfl

theorem gauss_jordan_step_none (aug : Augmented F) (i : Fin 4)
    (h : (find_pivot aug i).2 < 1 / 10 ^ 10) : gauss_jordan_step aug i = none := by
  rw [gauss_jordan_step_eq, if_pos h]

theorem gauss_jordan_step_some (aug aug1 : Augmented F) (i : Fin 4)
    (h : gauss_jordan_step aug i = some aug1) :
    ¬ (find_pivot aug i).2 < 1 / 10 ^ 10 ∧
      aug1 = eliminate_column (scale_pivot_row (swapped aug i) i) i := by
  rw [gauss_jordan_step_eq] at h
  by_cases hlt : (find_pivot aug i).2 < 1 / 10 ^ 10
  · rw [if_pos hlt] at h
    exact absurd h (by simp)
  · rw [if_neg hlt] at h
    exact ⟨hlt, (Option.some.inj h).symm⟩

theorem entry_swapped (aug : Augmented F) (i r : Fin 4) (c : Fin 8) :
    entry (swapped aug i) r c =
      if r = (find_pivot aug i).1 then entry aug i c
      else if r = i then entry aug (find_pivot aug i).1 c else entry aug r c := by
  unfold swapped
  by_cases hp : (find_pivot aug i).1 = i
  · rw [if_neg (not_not.mpr hp), hp]
    by_cases hr : r = i
    · rw [if_pos hr, hr]
    · rw [if_neg hr, if_neg hr]
  · rw [if_pos hp, entry_swap_rows]

theorem RowsOK_swapped (M : Matrix4 F) (aug : Augmented F) (i : Fin 4) (h : RowsOK M aug) :
    RowsOK M (swapped aug i) := by
  unfold swapped
  split_ifs
  · exact RowsOK_swap M aug i _ h
  · exact h

theorem ColsDone_swapped (aug : Augmented F) (i : Fin 4) (h : ColsDone aug i.val) :
    ColsDone (swapped aug i) i.val := by
  unfold swapped
  split_ifs
  · exact ColsDone_swap aug i _ (find_pivot_ge aug i) h
  · exact h

/-- The pivot used by iteration `i` is not zero when the singular check passes. -/
theorem pivot_ne_zero (aug : Augmented F) (i : Fin 4)
    (h : ¬ (find_pivot aug i).2 < 1 / 10 ^ 10) : entry (swapped aug i) i (lcol i) ≠ 0 := by
  have hval : entry (swapped aug i) i (lcol i) = entry aug (find_pivot aug i).1 (lcol i) := by
    rw [entry_swapped]
    by_cases hp : i = (find_pivot aug i).1
    · rw [if_pos hp, ← hp]
    · rw [if_neg hp, if_pos rfl]
  rw [hval]
  intro h0
  apply h
  rw [find_pivot_val, h0, abs_zero]
  exact threshold_pos

theorem RowsOK_step (M : Matrix4 F) (aug aug1 : Augmented F) (i : Fin 4)
    (h : gauss_jordan_step aug i = some aug1) (hr : RowsOK M aug) : RowsOK M aug1 := by
  rw [(gauss_jordan_step_some aug aug1 i h).2]
  exact RowsOK_eliminate M _ i (RowsOK_scale M _ i (RowsOK_swapped M aug i hr))

theorem ColsDone_step (aug aug1 : Augmented F) (i : Fin 4)
    (h : gauss_jordan_step aug i = some aug1) (hc : ColsDone aug i.val) :
    ColsDone aug1 (i.val + 1) := by
  obtain ⟨hlt, rfl⟩ := gauss_jordan_step_some aug aug1 i h
  exact ColsDone_eliminate _ i (ColsDone_scale _ i (ColsDone_swapped aug i hc))
    (pivot_one_scale _ i (pivot_ne_zero aug i hlt))

theorem gauss_jordan_loop_nil (a : Augmented F) : gauss_jordan_loop [] a = some a := rfl

theorem gauss_jordan_loop_cons (i : Fin 4) (l : List (Fin 4)) (a : Augmented F) :
    gauss_jordan_loop (i :: l) a = (gauss_jordan_step a i).bind (gauss_jordan_loop l) := by
  simp [gauss_jordan_loop, List.foldlM_cons]

/-- When the loop finishes, the left half is the identity and every row satisfies
`right half · M = left half`. -/
theorem gauss_jordan_some (M : Matrix4 F) (aug : Augmented F) (h : gauss_jordan M = some aug) :
    RowsOK M aug ∧ ColsDone aug 4 := by
  unfold gauss_jordan at h
  rw [gauss_jordan_loop_cons] at h
  obtain ⟨a1, h1, h⟩ := Option.bind_eq_some.mp h
  rw [gauss_jordan_loop_cons] at h
  obtain ⟨a2, h2, h⟩ := Option.bind_eq_some.mp h
  rw [gauss_jordan_loop_cons] at h
  obtain ⟨a3, h3, h⟩ := Option.bind_eq_some.mp h
  rw [gauss_jordan_loop_cons] at h
  obtain ⟨a4, h4, h⟩ := Option.bind_eq_some.mp h
  rw [gauss_jordan_loop_nil] at h
  have e : a4 = aug := Option.some.inj h
  subst e
  constructor
  · exact RowsOK_step M _ _ 3 h4 (RowsOK_step M _ _ 2 h3 (RowsOK_step M _ _ 1 h2
      (RowsOK_step M _ _ 0 h1 (RowsOK_augment M))))
  · exact ColsDone_step _ _ 3 h4 (ColsDone_step _ _ 2 h3 (ColsDone_step _ _ 1 h2
      (ColsDone_step _ _ 0 h1 (ColsDone_zero _))))

/-! ### Link with the matrices of Mathlib -/

theorem toMatrix_apply (M : Matrix4 F) (i j : Fin 4) : toMatrix M i j = M.get i j := rfl

theorem toMatrix_injective {A B : Matrix4 F} (h : toMatrix A = toMatrix B) : A = B := by
  apply ext_get
  intro i j
  rw [← toMatrix_apply, ← toMatrix_apply, h]

/-- Entry `(i, j)` of the product computed by `operator*`. -/
theorem mul_get (A B : Matrix4 F) (i j : Fin 4) :
    (mul A B).get i j =
      (A.get i 0 * B.get 0 j + A.get i 1 * B.get 1 j) +
      (A.get i 2 * B.get 2 j + A.get i 3 * B.get 3 j) := by
  fin_cases i <;> simp [mul, mul_row, Matrix4.get]

theorem toMatrix_mul (A B : Matrix4 F) : toMatrix (mul A B) = toMatrix A * toMatrix B := by
  ext i j
  rw [Matrix.mul_apply, Fin.sum_univ_four]
  simp only [toMatrix_apply, mul_get]
  ring

theorem toMatrix_identity : toMatrix (identity : Matrix4 F) = 1 := by
  ext i j
  rw [toMatrix_apply, identity_get, Matrix.one_apply]

/-- The FMA branch of `operator*` agrees with the other branch. -/
theorem mul_fma_eq (A B : Matrix4 F) : mul_fma A B = mul A B := by
  apply ext_get
  intro i j
  rw [mul_get]
  fin_cases i <;> simp [mul_fma, mul_row_fma, Matrix4.get] <;> ring

/-- Entry `(r, k)` of the result of `inverse` when the elimination finishes. -/
theorem inverse_get_of_some (M : Matrix4 F) (aug : Augmented F)
    (h : gauss_jordan M = some aug) (r k : Fin 4) :
    (inverse M).get r k = entry aug r (rcol k) := by
  unfold inverse
  rw [h]
  fin_cases r <;> fin_cases k <;> rfl

theorem inverse_of_none (M : Matrix4 F) (h : gauss_jordan M = none) : inverse M = identity := by
  unfold inverse
  rw [h]

/-- When the elimination finishes, the result is a left inverse. -/
theorem toMatrix_inverse_mul (M : Matrix4 F) (aug : Augmented F)
    (h : gauss_jordan M = some aug) : toMatrix (inverse M) * toMatrix M = 1 := by
  obtain ⟨hr, hc⟩ := gauss_jordan_some M aug h
  ext r j
  rw [Matrix.mul_apply, Matrix.one_apply]
  simp only [toMatrix_apply, inverse_get_of_some M aug h]
  rw [hr r j, hc r j j.isLt]

/-- When the elimination finishes, the result is a two-sided inverse. -/
theorem inverse_two_sided (M : Matrix4 F) (aug : Augmented F)
    (h : gauss_jordan M = some aug) :
    mul M (inverse M) = identity ∧ mul (inverse M) M = identity := by
  have hl := toMatrix_inverse_mul M aug h
  have hr : toMatrix M * toMatrix (inverse M) = 1 := Matrix.mul_eq_one_comm.mp hl
  constructor
  · apply toMatrix_injective
    rw [toMatrix_mul, toMatrix_identity, hr]
  · apply toMatrix_injective
    rw [toMatrix_mul, toMatrix_identity, hl]

/-! ### The determinant -/

/-- The value computed by `determinant`, written out. -/
theorem determinant_expand (M : Matrix4 F) :
    determinant M =
      M.get 0 0 * (M.get 1 1 * (M.get 2 2 * M.get 3 3 - M.get 2 3 * M.get 3 2)
        - M.get 1 2 * (M.get 2 1 * M.get 3 3 - M.get 2 3 * M.get 3 1)
        + M.get 1 3 * (M.get 2 1 * M.get 3 2 - M.get 2 2 * M.get 3 1))
      - M.get 0 1 * (M.get 1 0 * (M.get 2 2 * M.get 3 3 - M.get 2 3 * M.get 3 2)
        - M.get 1 2 * (M.get 2 0 * M.get 3 3 - M.get 2 3 * M.get 3 0)
        + M.get 1 3 * (M.get 2 0 * M.get 3 2 - M.get 2 2 * M.get 3 0))
      + M.get 0 2 * (M.get 1 0 * (M.get 2 1 * M.get 3 3 - M.get 2 3 * M.get 3 1)
        - M.get 1 1 * (M.get 2 0 * M.get 3 3 - M.get 2 3 * M.get 3 0)
        + M.get 1 3 * (M.get 2 0 * M.get 3 1 - M.get 2 1 * M.get 3 0))
      - M.get 0 3 * (M.get 1 0 * (M.get 2 1 * M.get 3 2 - M.get 2 2 * M.get 3 1)
        - M.get 1 1 * (M.get 2 0 * M.get 3 2 - M.get 2 2 * M.get 3 0)
        + M.get 1 2 * (M.get 2 0 * M.get 3 1 - M.get 2 1 * M.get 3 0)) := by
  have h3 : ((3 : Fin 4) : ℕ) = 3 := rfl
  simp [determinant, minor, det3x3, List.filter, List.flatMap, h3]
  ring

/-- The value computed by `determinant` is the determinant of the matrix. -/
theorem determinant_eq_det (M : Matrix4 F) : determinant M = (toMatrix M).det := by
  have e1 : (Fin.succAbove (1 : Fin 4) (0 : Fin 3)) = 0 := by decide
  have e2 : (Fin.succAbove (1 : Fin 4) (1 : Fin 3)) = 2 := by decide
  have e3 : (Fin.succAbove (1 : Fin 4) (2 : Fin 3)) = 3 := by decide
  have e4 : (Fin.succAbove (2 : Fin 4) (0 : Fin 3)) = 0 := by decide
  have e5 : (Fin.succAbove (2 : Fin 4) (1 : Fin 3)) = 1 := by decide
  have e6 : (Fin.succAbove (2 : Fin 4) (2 : Fin 3)) = 3 := by decide
  have e7 : (Fin.succAbove (3 : Fin 4) (0 : Fin 3)) = 0 := by decide
  have e8 : (Fin.succAbove (3 : Fin 4) (1 : Fin 3)) = 1 := by decide
  have e9 : (Fin.succAbove (3 : Fin 4) (2 : Fin 3)) = 2 := by decide
  have h3 : ((3 : Fin 4) : ℕ) = 3 := rfl
  have q1 : (Fin.succ (0 : Fin 3)) = (1 : Fin 4) := rfl
  have q2 : (Fin.succ (1 : Fin 3)) = (2 : Fin 4) := rfl
  have q3 : (Fin.succ (2 : Fin 3)) = (3 : Fin 4) := rfl
  rw [determinant_expand, Matrix.det_succ_row_zero, Fin.sum_univ_four]
  simp only [Matrix.det_fin_three, Matrix.submatrix_apply, toMatrix_apply, Fin.zero_succAbove,
    e1, e2, e3, e4, e5, e6, e7, e8, e9, q1, q2, q3, Fin.succ_zero_eq_one, Fin.succ_one_eq_two,
    Fin.val_zero, Fin.val_one, Fin.val_two, h3]
  ring

/-! ### Consequences for `inverse` -/

theorem diag_get (d0 d1 d2 d3 : F) (i j : Fin 4) :
    (diag d0 d1 d2 d3).get i j = if i = j then ![d0, d1, d2, d3] i else 0 := by
  fin_cases i <;> fin_cases j <;> rfl

theorem determinant_diag (d0 d1 d2 d3 : F) : determinant (diag d0 d1 d2 d3) = d0 * d1 * d2 * d3 := by
  rw [determinant_expand]
  simp [diag_get]
  ring

theorem diag_get_col0 (d0 d1 d2 d3 : F) (k : Fin 4) :
    (diag d0 d1 d2 d3).get k 0 = if k = 0 then d0 else 0 := by
  fin_cases k <;> rfl

/-- The loop over two lists of columns run one after the other. -/
theorem gauss_jordan_loop_append (l1 l2 : List (Fin 4)) (a : Augmented F) :
    gauss_jordan_loop (l1 ++ l2) a = (gauss_jordan_loop l1 a).bind (gauss_jordan_loop l2) := by
  simp [gauss_jordan_loop, List.foldlM_append]

/-- If the singular check fails at the iteration that follows the columns `l`, the whole
loop returns early. -/
theorem gauss_jordan_none_of_step (M : Matrix4 F) (i : Fin 4) (aug : Augmented F)
    (hstate : gauss_jordan_loop (List.take i.val [0, 1, 2, 3]) (augment M) = some aug)
    (hstep : gauss_jordan_step aug i = none) : gauss_jordan M = none := by
  have hsplit : ([0, 1, 2, 3] : List (Fin 4)) =
      List.take i.val [0, 1, 2, 3] ++ i :: List.drop (i.val + 1) [0, 1, 2, 3] := by
    fin_cases i <;> rfl
  unfold gauss_jordan
  rw [hsplit, gauss_jordan_loop_append, hstate, Option.some_bind, gauss_jordan_loop_cons, hstep]
  rfl

/-- If every candidate pivot of column `i` is below the threshold, the singular check of
iteration `i` fails. -/
theorem gauss_jordan_step_none_of_small (aug : Augmented F) (i : Fin 4)
    (hsmall : ∀ k : Fin 4, i ≤ k → |entry aug k (lcol i)| < 1 / 10 ^ 10) :
    gauss_jordan_step aug i = none := by
  apply gauss_jordan_step_none
  rw [find_pivot_val]
  exact hsmall _ (find_pivot_ge aug i)

theorem gauss_jordan_none_of_small_col0 (M : Matrix4 F)
    (h : ∀ k : Fin 4, |M.get k 0| < 1 / 10 ^ 10) : gauss_jordan M = none := by
  apply gauss_jordan_none_of_step M 0 (augment M) rfl
  apply gauss_jordan_step_none_of_small
  intro k _
  rw [entry_augment_left]
  exact h k

/-- A matrix with zero determinant cannot pass the four singular checks. -/
theorem gauss_jordan_none_of_det_zero (M : Matrix4 F) (h : determinant M = 0) :
    gauss_jordan M = none := by
  cases hg : gauss_jordan M with
  | none => rfl
  | some aug =>
    exfalso
    have hmul := toMatrix_inverse_mul M aug hg
    have hdet := congrArg Matrix.det hmul
    rw [Matrix.det_mul, Matrix.det_one, ← determinant_eq_det M, h, mul_zero] at hdet
    exact zero_ne_one hdet

theorem mul_identity (M : Matrix4 F) : mul M identity = M := by
  apply toMatrix_injective
  rw [toMatrix_mul, toMatrix_identity, mul_one]

/-- Row 3 of the result of `inverse` when row 3 of the matrix is `(0, 0, 0, 1)`. -/
theorem inverse_row3 (M : Matrix4 F) (h : ∀ j, M.get 3 j = if (3 : Fin 4) = j then 1 else 0)
    (j : Fin 4) : (inverse M).get 3 j = if (3 : Fin 4) = j then 1 else 0 := by
  cases hg : gauss_jordan M with
  | none => rw [inverse_of_none M hg, identity_get]
  | some aug =>
    have hmul := (inverse_two_sided M aug hg).1
    have e := congrArg (fun A => A.get 3 j) hmul
    simp only [mul_get, identity_get, h] at e
    simpa using e

theorem look_at_row3 (sqrtf : F → F) (eye center up : Vector3 F) (j : Fin 4) :
    (look_at sqrtf eye center up).get 3 j = if (3 : Fin 4) = j then 1 else 0 := by
  fin_cases j <;> simp [look_at]

/-- The origin is sent to row 3 of the matrix by `transform_point`. -/
theorem transform_point_origin (M : Matrix4 F) (j : Fin 4) :
    (M.transform_point (Vector3.ofXYZ 0 0 0)).simd.get j = M.get 3 j := by
  rw [transform_point_get]
  simp

/-! ### Transpose and the factories -/

/-- Entry `(i, j)` of the result of `transpose`. -/
theorem transpose_get (M : Matrix4 F) (i j : Fin 4) : (transpose M).get i j = M.get j i := by
  fin_cases i <;> fin_cases j <;> rfl

theorem identity_mul (M : Matrix4 F) : mul identity M = M := by
  apply toMatrix_injective
  rw [toMatrix_mul, toMatrix_identity, one_mul]

@[simp] theorem zero_get (i j : Fin 4) : (zero : Matrix4 F).get i j = 0 := by
  fin_cases i <;> fin_cases j <;> rfl

@[simp] theorem rotation_x_get (cosf sinf : F → F) (a : F) (i j : Fin 4) :
    (rotation_x cosf sinf a).get i j =
      if i = 2 ∧ j = 2 then cosf a else if i = 2 ∧ j = 1 then sinf a
      else if i = 1 ∧ j = 2 then -sinf a else if i = 1 ∧ j = 1 then cosf a
      else if i = j then 1 else 0 := by
  simp [rotation_x]

@[simp] theorem rotation_z_get (cosf sinf : F → F) (a : F) (i j : Fin 4) :
    (rotation_z cosf sinf a).get i j =
      if i = 1 ∧ j = 1 then cosf a else if i = 1 ∧ j = 0 then sinf a
      else if i = 0 ∧ j = 1 then -sinf a else if i = 0 ∧ j = 0 then cosf a
      else if i = j then 1 else 0 := by
  simp [rotation_z]

@[simp] theorem scale_get (s : Vector3 F) (i j : Fin 4) :
    (scale s).get i j =
      if i = 2 ∧ j = 2 then s.z else if i = 1 ∧ j = 1 then s.y
      else if i = 0 ∧ j = 0 then s.x else if i = j then 1 else 0 := by
  simp [scale]

/-! ### Rotation about an axis -/

/-- With the real square root, scaling a vector by `k ≥ 0` scales its length by `k`. -/
theorem length_real_smul (v : Vector3 ℝ) (k : ℝ) (hk : 0 ≤ k) :
    Vector3.length Real.sqrt (v.smul k) = k * Vector3.length Real.sqrt v := by
  unfold Vector3.length
  rw [Vector3.length_squared_smul, Real.sqrt_mul (mul_self_nonneg k), Real.sqrt_mul_self hk]

/-- With the real square root, the normalised vector does not change when the vector is
scaled by `k > 0`, as long as both pass the length gate. -/
theorem normalized_real_smul (v : Vector3 ℝ) (k : ℝ) (hk : 0 < k)
    (h : Vector3.length Real.sqrt v > 1 / 10 ^ 8)
    (hkl : Vector3.length Real.sqrt (v.smul k) > 1 / 10 ^ 8) :
    Vector3.normalized Real.sqrt (v.smul k) = Vector3.normalized Real.sqrt v := by
  have hpos : 0 < Vector3.length Real.sqrt v := lt_trans (by positivity) h
  rw [Vector3.normalized_of_gt _ _ hkl, Vector3.normalized_of_gt _ _ h,
    length_real_smul v k (le_of_lt hk)]
  apply Vector3.ext_lanes
  intro i
  rw [Vector3.smul_lanes, Vector3.smul_lanes, Vector3.smul_lanes]
  have h1 : k ≠ 0 := ne_of_gt hk
  have h2 : Vector3.length Real.sqrt v ≠ 0 := ne_of_gt hpos
  field_simp
  ring

/-- The entries of `rotation` in terms of the normalised axis. -/
theorem rotation_get (sqrtf cosf sinf : F → F) (axis : Vector3 F) (angle : F) (i j : Fin 4) :
    (rotation sqrtf cosf sinf axis angle).get i j =
      (!![cosf angle + (axis.normalized sqrtf).x * (axis.normalized sqrtf).x * (1 - cosf angle),
          (axis.normalized sqrtf).x * (axis.normalized sqrtf).y * (1 - cosf angle) -
            (axis.normalized sqrtf).z * sinf angle,
          (axis.normalized sqrtf).x * (axis.normalized sqrtf).z * (1 - cosf angle) +
            (axis.normalized sqrtf).y * sinf angle, 0;
          (axis.normalized sqrtf).y * (axis.normalized sqrtf).x * (1 - cosf angle) +
            (axis.normalized sqrtf).z * sinf angle,
          cosf angle + (axis.normalized sqrtf).y * (axis.normalized sqrtf).y * (1 - cosf angle),
          (axis.normalized sqrtf).y * (axis.normalized sqrtf).z * (1 - cosf angle) -
            (axis.normalized sqrtf).x * sinf angle, 0;
          (axis.normalized sqrtf).z * (axis.normalized sqrtf).x * (1 - cosf angle) -
            (axis.normalized sqrtf).y * sinf angle,
          (axis.normalized sqrtf).z * (axis.normalized sqrtf).y * (1 - cosf angle) +
            (axis.normalized sqrtf).x * sinf angle,
          cosf angle + (axis.normalized sqrtf).z * (axis.normalized sqrtf).z * (1 - cosf angle), 0;
          0, 0, 0, 1] : Matrix (Fin 4) (Fin 4) F) i j := by
  fin_cases i <;> fin_cases j <;> simp [rotation]

/-! ### Decomposition -/

theorem determinant_mul (A B : Matrix4 F) :
    determinant (mul A B) = determinant A * determinant B := by
  rw [determinant_eq_det, determinant_eq_det, determinant_eq_det, toMatrix_mul, Matrix.det_mul]

theorem determinant_translation (t : Vector3 F) : determinant (translation t) = 1 := by
  rw [determinant_expand]
  simp

theorem determinant_scale (s : Vector3 F) : determinant (scale s) = s.x * s.y * s.z := by
  rw [determinant_expand]
  simp
  ring

theorem determinant_rotation_x (cosf sinf : F → F) (a : F) :
    determinant (rotation_x cosf sinf a) = cosf a * cosf a + sinf a * sinf a := by
  rw [determinant_expand]
  simp

theorem determinant_rotation_y (cosf sinf : F → F) (a : F) :
    determinant (rotation_y cosf sinf a) = cosf a * cosf a + sinf a * sinf a := by
  rw [determinant_expand]
  simp

theorem determinant_rotation_z (cosf sinf : F → F) (a : F) :
    determinant (rotation_z cosf sinf a) = cosf a * cosf a + sinf a * sinf a := by
  rw [determinant_expand]
  simp

/-- The result of `decompose` when the determinant is not negative and no column of the
upper 3x3 block has length zero. -/
theorem decompose_of_det_nonneg (sqrtf : F → F) (atan2f : F → F → F) (M : Matrix4 F)
    (r : Vector3 F) (l0 l1 l2 : F)
    (e0 : (Vector3.ofXYZ (M.get 0 0) (M.get 1 0) (M.get 2 0)).length sqrtf = l0)
    (e1 : (Vector3.ofXYZ (M.get 0 1) (M.get 1 1) (M.get 2 1)).length sqrtf = l1)
    (e2 : (Vector3.ofXYZ (M.get 0 2) (M.get 1 2) (M.get 2 2)).length sqrtf = l2)
    (hdet : ¬ determinant M < 0) (h0 : l0 ≠ 0) (h1 : l1 ≠ 0) (h2 : l2 ≠ 0) :
    decompose sqrtf atan2f M r =
      ⟨true, Vector3.ofXYZ (M.get 0 3) (M.get 1 3) (M.get 2 3),
        ((r.set_x (atan2f (M.get 2 1 / l1) (M.get 2 2 / l2))).set_y
          (atan2f (-(M.get 2 0 / l0))
            (sqrtf (M.get 2 1 / l1 * (M.get 2 1 / l1) + M.get 2 2 / l2 * (M.get 2 2 / l2))))).set_z
          (atan2f (M.get 1 0 / l0) (M.get 0 0 / l0)),
        Vector3.ofXYZ l0 l1 l2⟩ := by
  unfold decompose
  simp only [e0, e1, e2, hdet, if_false, Vector3.ofXYZ_x, Vector3.ofXYZ_y, Vector3.ofXYZ_z]
  simp [h0, h1, h2]


/-- The function `atan2` of the reals, as the argument of `x + y i`, on a point at distance
`r > 0` and angle `θ` in `(-π, π]`. -/
theorem arg_polar (r θ : ℝ) (hr : 0 < r) (h1 : -Real.pi < θ) (h2 : θ ≤ Real.pi) :
    Complex.arg ⟨r * Real.cos θ, r * Real.sin θ⟩ = θ := by
  have h : (⟨r * Real.cos θ, r * Real.sin θ⟩ : ℂ) =
      (r : ℂ) * (Complex.cos θ + Complex.sin θ * Complex.I) := by
    apply Complex.ext
    · simp [Complex.cos_ofReal_re, Complex.sin_ofReal_im]
    · simp [Complex.sin_ofReal_re, Complex.cos_ofReal_im]
  rw [h]
  exact Complex.arg_mul_cos_add_sin_mul_I hr ⟨h1, h2⟩

/-- The entries of `translation(t) * rotation_z(az) * rotation_y(ay) * rotation_x(ax) *
scale(s)`. -/
theorem trs_get (cosf sinf : F → F) (t s : Vector3 F) (ax ay az : F) (i j : Fin 4) :
    (mul (mul (mul (mul (translation t) (rotation_z cosf sinf az)) (rotation_y cosf sinf ay))
      (rotation_x cosf sinf ax)) (scale s)).get i j =
      (!![cosf az * cosf ay * s.x,
          (cosf az * sinf ay * sinf ax - sinf az * cosf ax) * s.y,
          (cosf az * sinf ay * cosf ax + sinf az * sinf ax) * s.z, t.x;
          sinf az * cosf ay * s.x,
          (sinf az * sinf ay * sinf ax + cosf az * cosf ax) * s.y,
          (sinf az * sinf ay * cosf ax - cosf az * sinf ax) * s.z, t.y;
          -sinf ay * s.x, cosf ay * sinf ax * s.y, cosf ay * cosf ax * s.z, t.z;
          0, 0, 0, 1] : Matrix (Fin 4) (Fin 4) F) i j := by
  fin_cases i <;> fin_cases j <;> simp [mul_get, -mul_eq_mul_right_iff, -mul_eq_mul_left_iff] <;> ring

/-- The lanes of a vector after `set_x`, `set_y` and `set_z`. -/
theorem set_xyz_lanes (r : Vector3 F) (a b c : F) :
    (((r.set_x a).set_y b).set_z c).x = a ∧ (((r.set_x a).set_y b).set_z c).y = b ∧
    (((r.set_x a).set_y b).set_z c).z = c ∧ (((r.set_x a).set_y b).set_z c).w = r.w := by
  simp [Vector3.set_x, Vector3.set_y, Vector3.set_z, Vector3.x, Vector3.y, Vector3.z, Vector3.w]

/-- With the real square root, the length of `(a, b, c)` when `a² + b² + c² = l²`, `l ≥ 0`. -/
theorem length_real_of_sq (a b c l : ℝ) (hl : 0 ≤ l) (h : a * a + b * b + c * c = l * l) :
    (Vector3.ofXYZ a b c).length Real.sqrt = l := by
  unfold Vector3.length Vector3.length_squared
  rw [Vector3.dot_eq]
  simp only [Vector3.ofXYZ_x, Vector3.ofXYZ_y, Vector3.ofXYZ_z]
  rw [h]
  exact Real.sqrt_mul_self hl

end Matrix4

namespace Camera

/-! ### The cache of the camera -/

theorem Coherent_default (sqrtf tanf : F → F) (pi : F) : Coherent sqrtf tanf (default pi) :=
  ⟨fun h => absurd h (by simp [default]), fun h => absurd h (by simp [default])⟩

theorem Coherent_ofPositionTarget (sqrtf tanf : F → F) (pi : F) (p t u : Vector3 F) :
    Coherent sqrtf tanf (ofPositionTarget pi p t u) :=
  ⟨fun h => absurd h (by simp [ofPositionTarget]),
    fun h => absurd h (by simp [ofPositionTarget])⟩

/-- The matrix returned by `view_matrix` on a coherent camera. -/
theorem view_matrix_fst (sqrtf tanf : F → F) (c : Camera F) (h : Coherent sqrtf tanf c) :
    (view_matrix sqrtf c).1 = Matrix4.look_at sqrtf c._position c._target c._up := by
  unfold view_matrix
  cases hd : c._view_dirty with
  | true => simp [update_view_matrix]
  | false => simpa using h.1 hd

/-- The matrix returned by `projection_matrix` on a coherent camera. -/
theorem projection_matrix_fst (sqrtf tanf : F → F) (c : Camera F) (h : Coherent sqrtf tanf c) :
    (projection_matrix tanf c).1 =
      Matrix4.perspective tanf c._fov c._aspect_ratio c._near_plane c._far_plane := by
  unfold projection_matrix
  cases hd : c._projection_dirty with
  | true => simp [update_projection_matrix]
  | false => simpa using h.2 hd

theorem Coherent_view_matrix (sqrtf tanf : F → F) (c : Camera F) (h : Coherent sqrtf tanf c) :
    Coherent sqrtf tanf (view_matrix sqrtf c).2 := by
  unfold view_matrix
  cases hd : c._view_dirty with
  | true => exact ⟨fun _ => rfl, h.2⟩
  | false => simpa using h

theorem Coherent_projection_matrix (sqrtf tanf : F → F) (c : Camera F)
    (h : Coherent sqrtf tanf c) : Coherent sqrtf tanf (projection_matrix tanf c).2 := by
  unfold projection_matrix
  cases hd : c._projection_dirty with
  | true => exact ⟨h.1, fun _ => rfl⟩
  | false => simpa using h

/-- The members read by `look_at` are not changed by `projection_matrix`. -/
theorem projection_matrix_snd_view (tanf : F → F) (c : Camera F) :
    (projection_matrix tanf c).2._position = c._position ∧
    (projection_matrix tanf c).2._target = c._target ∧
    (projection_matrix tanf c).2._up = c._up ∧
    (projection_matrix tanf c).2._view_matrix = c._view_matrix ∧
    (projection_matrix tanf c).2._view_dirty = c._view_dirty := by
  unfold projection_matrix
  cases c._projection_dirty <;> simp [update_projection_matrix]

/-- The matrix returned by `view_matrix` is not changed by a call of `projection_matrix`
before it. -/
theorem view_matrix_after_projection (sqrtf tanf : F → F) (c : Camera F) :
    (view_matrix sqrtf (projection_matrix tanf c).2).1 = (view_matrix sqrtf c).1 := by
  have h := projection_matrix_snd_view tanf c
  unfold view_matrix
  rw [h.2.2.2.2]
  cases c._view_dirty
  · simpa using h.2.2.2.1
  · simp [update_view_matrix, h.1, h.2.1, h.2.2.1]

/-- The members read by `perspective` are not changed by `view_matrix`. -/
theorem view_matrix_snd_projection (sqrtf : F → F) (c : Camera F) :
    (view_matrix sqrtf c).2._fov = c._fov ∧
    (view_matrix sqrtf c).2._aspect_ratio = c._aspect_ratio ∧
    (view_matrix sqrtf c).2._near_plane = c._near_plane ∧
    (view_matrix sqrtf c).2._far_plane = c._far_plane ∧
    (view_matrix sqrtf c).2._projection_matrix = c._projection_matrix ∧
    (view_matrix sqrtf c).2._projection_dirty = c._projection_dirty := by
  unfold view_matrix
  cases c._view_dirty <;> simp [update_view_matrix]

/-- The matrix returned by `projection_matrix` is not changed by a call of `view_matrix`
before it. -/
theorem projection_matrix_after_view (sqrtf tanf : F → F) (c : Camera F) :
    (projection_matrix tanf (view_matrix sqrtf c).2).1 = (projection_matrix tanf c).1 := by
  have h := view_matrix_snd_projection sqrtf c
  unfold projection_matrix
  rw [h.2.2.2.2.2]
  cases c._projection_dirty
  · simpa using h.2.2.2.2.1
  · simp [update_projection_matrix, h.1, h.2.1, h.2.2.1, h.2.2.2.1]

theorem Coherent_call (sqrtf cosf sinf tanf : F → F) (c : Camera F) (k : Call F)
    (h : Coherent sqrtf tanf c) : Coherent sqrtf tanf (call sqrtf cosf sinf tanf c k) := by
  cases k with
  | look_at target => exact ⟨fun hd => absurd hd (by simp [call, look_at]), h.2⟩
  | move offset => exact ⟨fun hd => absurd hd (by simp [call, move]), h.2⟩
  | rotate yaw pitch => exact ⟨fun hd => absurd hd (by simp [call, rotate]), h.2⟩
  | set_position position => exact ⟨fun hd => absurd hd (by simp [call, set_position]), h.2⟩
  | set_target target => exact ⟨fun hd => absurd hd (by simp [call, set_target]), h.2⟩
  | set_up up => exact ⟨fun hd => absurd hd (by simp [call, set_up]), h.2⟩
  | set_perspective fov aspect near far =>
    exact ⟨h.1, fun hd => absurd hd (by simp [call, set_perspective])⟩
  | set_orthographic l r b t near far =>
    exact ⟨h.1, fun hd => absurd hd (by simp [call, set_orthographic])⟩
  | view_matrix => exact Coherent_view_matrix sqrtf tanf c h
  | projection_matrix => exact Coherent_projection_matrix sqrtf tanf c h
  | view_projection_matrix =>
    exact Coherent_view_matrix sqrtf tanf _ (Coherent_projection_matrix sqrtf tanf c h)

theorem Coherent_run (sqrtf cosf sinf tanf : F → F) (calls : List (Call F)) (c : Camera F)
    (h : Coherent sqrtf tanf c) : Coherent sqrtf tanf (run sqrtf cosf sinf tanf c calls) := by
  induction calls generalizing c with
  | nil => exact h
  | cons k ks ih => exact ih _ (Coherent_call sqrtf cosf sinf tanf c k h)

end Camera

namespace Matrix4

/-! ### Composition, orthogonality and special axes -/

/-- Lane `j` of `transform_point` after `transform_point`. -/
theorem transform_point_mul_get (A B : Matrix4 F) (p : Vector3 F) (j : Fin 4) :
    ((mul A B).transform_point p).simd.get j =
      (B.transform_point (A.transform_point p)).simd.get j +
      ((p.x * A.get 0 3 + p.y * A.get 1 3) + (p.z * A.get 2 3 + 1 * A.get 3 3) - 1) *
        B.get 3 j := by
  rw [transform_point_get, transform_point_get]
  simp only [Vector3.x, Vector3.y, Vector3.z, transform_point_get, mul_get]
  ring

/-- The squared length of a normalised vector, with the real square root. -/
theorem normalized_real_sq (v : Vector3 ℝ) (h : Vector3.length Real.sqrt v > 1 / 10 ^ 8) :
    (v.normalized Real.sqrt).x * (v.normalized Real.sqrt).x +
      (v.normalized Real.sqrt).y * (v.normalized Real.sqrt).y +
      (v.normalized Real.sqrt).z * (v.normalized Real.sqrt).z = 1 := by
  have h1 := Vector3.length_normalized_real v h
  unfold Vector3.length at h1
  rw [Real.sqrt_eq_one] at h1
  rw [← h1, Vector3.length_squared, Vector3.dot_eq]

/-- A rotation matrix built from numbers `x, y, z` with `x² + y² + z² = 1` and `c, s` with
`s² + c² = 1` is orthogonal. -/
theorem rotation_mul_transpose (sqrtf cosf sinf : F → F) (axis : Vector3 F) (angle : F)
    (hu : (axis.normalized sqrtf).x * (axis.normalized sqrtf).x +
      (axis.normalized sqrtf).y * (axis.normalized sqrtf).y +
      (axis.normalized sqrtf).z * (axis.normalized sqrtf).z = 1)
    (hcs : sinf angle ^ 2 + cosf angle ^ 2 = 1) :
    mul (rotation sqrtf cosf sinf axis angle)
      (transpose (rotation sqrtf cosf sinf axis angle)) = identity := by
  apply ext_get
  intro i j
  rw [mul_get]
  simp only [transpose_get, rotation_get, identity_get]
  generalize (axis.normalized sqrtf).x = x at hu ⊢
  generalize (axis.normalized sqrtf).y = y at hu ⊢
  generalize (axis.normalized sqrtf).z = z at hu ⊢
  generalize cosf angle = c at hcs ⊢
  generalize sinf angle = s at hcs ⊢
  fin_cases i <;> fin_cases j <;> simp [Matrix.vecHead, Matrix.vecTail]
  · linear_combination (1 - x * x) * hcs + (s ^ 2 + x * x * (1 - c) ^ 2) * hu
  · linear_combination (0 - x * y) * hcs + (x * y * (1 - c) ^ 2) * hu
  · linear_combination (0 - x * z) * hcs + (x * z * (1 - c) ^ 2) * hu
  · linear_combination (0 - y * x) * hcs + (y * x * (1 - c) ^ 2) * hu
  · linear_combination (1 - y * y) * hcs + (s ^ 2 + y * y * (1 - c) ^ 2) * hu
  · linear_combination (0 - y * z) * hcs + (y * z * (1 - c) ^ 2) * hu
  · linear_combination (0 - z * x) * hcs + (z * x * (1 - c) ^ 2) * hu
  · linear_combination (0 - z * y) * hcs + (z * y * (1 - c) ^ 2) * hu
  · linear_combination (1 - z * z) * hcs + (s ^ 2 + z * z * (1 - c) ^ 2) * hu

/-- The normalised vector of a vector whose squared length is 1, when `sqrtf 1 = 1`. -/
theorem normalized_of_unit (sqrtf : F → F) (v : Vector3 F) (h1 : sqrtf 1 = 1)
    (hv : Vector3.length_squared v = 1) (i : Fin 4) :
    (v.normalized sqrtf).simd.get i = v.simd.get i := by
  have hl : Vector3.length sqrtf v = 1 := by rw [Vector3.length, hv, h1]
  have hg : Vector3.length sqrtf v > 1 / 10 ^ 8 := by rw [hl]; norm_num
  rw [Vector3.normalized_of_gt sqrtf v hg, Vector3.smul_lanes, hl]
  simp

/-- The scale written by `decompose`. -/
theorem decompose_scale_eq (sqrtf : F → F) (atan2f : F → F → F) (M : Matrix4 F)
    (r : Vector3 F) :
    (decompose sqrtf atan2f M r).scale =
      if determinant M < 0 then
        (Vector3.ofXYZ ((Vector3.ofXYZ (M.get 0 0) (M.get 1 0) (M.get 2 0)).length sqrtf)
          ((Vector3.ofXYZ (M.get 0 1) (M.get 1 1) (M.get 2 1)).length sqrtf)
          ((Vector3.ofXYZ (M.get 0 2) (M.get 1 2) (M.get 2 2)).length sqrtf)).smul (-1)
      else
        Vector3.ofXYZ ((Vector3.ofXYZ (M.get 0 0) (M.get 1 0) (M.get 2 0)).length sqrtf)
          ((Vector3.ofXYZ (M.get 0 1) (M.get 1 1) (M.get 2 1)).length sqrtf)
          ((Vector3.ofXYZ (M.get 0 2) (M.get 1 2) (M.get 2 2)).length sqrtf) := rfl

/-- The length of `(a, b, c)`. -/
theorem length_ofXYZ (sqrtf : F → F) (a b c : F) :
    (Vector3.ofXYZ a b c).length sqrtf = sqrtf (a ^ 2 + b ^ 2 + c ^ 2) := by
  unfold Vector3.length Vector3.length_squared
  rw [Vector3.dot_eq]
  simp only [Vector3.ofXYZ_x, Vector3.ofXYZ_y, Vector3.ofXYZ_z, sq]

/-- The vector `(a, b, c) * -1.0f`. -/
theorem ofXYZ_smul_neg_one (a b c : F) :
    (Vector3.ofXYZ a b c).smul (-1) = Vector3.ofXYZ (-a) (-b) (-c) := by
  apply Vector3.ext_lanes
  intro i
  rw [Vector3.smul_lanes]
  fin_cases i <;> simp [Vector3.ofXYZ]

end Matrix4

namespace Matrix4

/-- No matrix built by `perspective` is a matrix built by `orthographic`: entry (3, 3) is
0 in the first and 1 in the second. -/
theorem perspective_ne_orthographic (tanf : F → F) (fov aspect near far : F)
    (l r b t n f : F) :
    perspective tanf fov aspect near far ≠ orthographic l r b t n f := by
  intro h
  have h33 : (perspective tanf fov aspect near far).get 3 3 = (orthographic l r b t n f).get 3 3 := by
    rw [h]
  simp [perspective, orthographic] at h33

end Matrix4

namespace Mesh

/-! ### The mesh factories -/

/-- An integer in the range of `int` is stored unchanged. -/
theorem toInt32_of_range (n : Int) (h1 : -2147483648 ≤ n) (h2 : n < 2147483648) :
    toInt32 n = n := by
  unfold toInt32
  omega

@[simp] theorem add_vertex_vertices (m : Mesh F) (v : Vertex F) :
    (m.add_vertex v)._vertices = m._vertices ++ [v] := rfl

@[simp] theorem add_vertex_indices (m : Mesh F) (v : Vertex F) :
    (m.add_vertex v)._indices = m._indices := rfl

@[simp] theorem add_triangle_vertices (m : Mesh F) (a b c : Int) :
    (m.add_triangle a b c)._vertices = m._vertices := rfl

@[simp] theorem add_triangle_indices (m : Mesh F) (a b c : Int) :
    (m.add_triangle a b c)._indices = m._indices ++ [a, b, c] := by
  simp [add_triangle]

/-- A quantity that grows by `k` at every iteration of a loop grows by `k` times the number
of iterations. -/
theorem foldl_measure {α β : Type} (g : α → Nat) (f : α → β → α) (k : Nat)
    (h : ∀ a b, g (f a b) = g a + k) (l : List β) (a : α) :
    g (l.foldl f a) = g a + k * l.length := by
  induction l generalizing a with
  | nil => simp
  | cons b bs ih =>
    rw [List.foldl_cons, ih, h, List.length_cons]
    ring

/-- A property kept by every iteration of a loop holds after the loop. -/
theorem foldl_inv {α β : Type} (P : α → Prop) (f : α → β → α) (l : List β) (a : α)
    (h0 : P a) (hstep : ∀ a b, b ∈ l → P a → P (f a b)) : P (l.foldl f a) := by
  induction l generalizing a with
  | nil => exact h0
  | cons b bs ih =>
    rw [List.foldl_cons]
    apply ih
    · exact hstep a b (List.mem_cons_self b bs) h0
    · intro a' b' hb' ha'
      exact hstep a' b' (List.mem_cons_of_mem b hb') ha'

/-- The loop over `lon` adds one vertex per iteration and no index. -/
theorem create_sphere_ring_spec (sqrtf cosf sinf : F → F) (pi radius : F) (segments : Int)
    (m : Mesh F) (lat : Nat) :
    (create_sphere_ring sqrtf cosf sinf pi radius segments m lat)._vertices.length =
      m._vertices.length + (toInt32 (segments * 2)).toNat ∧
    (create_sphere_ring sqrtf cosf sinf pi radius segments m lat)._indices = m._indices := by
  unfold create_sphere_ring
  constructor
  · have h := foldl_measure (fun m : Mesh F => m._vertices.length)
      (create_sphere_point sqrtf cosf sinf pi radius segments
        (sinf ((lat : F) * pi / ((segments : Int) : F)))
        (cosf ((lat : F) * pi / ((segments : Int) : F)))) 1
      (fun a b => by simp [create_sphere_point]) (List.range (toInt32 (segments * 2)).toNat) m
    simpa using h
  · exact foldl_inv (fun a : Mesh F => a._indices = m._indices) _ _ m rfl
      (fun a b _ ha => by simpa [create_sphere_point] using ha)

/-- The loop over `lat` adds `segments - 1` rings of vertices and no index. -/
theorem create_sphere_rings_spec (sqrtf cosf sinf : F → F) (pi radius : F) (segments : Int)
    (m : Mesh F) (l : List Nat) :
    (l.foldl (create_sphere_ring sqrtf cosf sinf pi radius segments) m)._vertices.length =
      m._vertices.length + (toInt32 (segments * 2)).toNat * l.length ∧
    (l.foldl (create_sphere_ring sqrtf cosf sinf pi radius segments) m)._indices =
      m._indices := by
  constructor
  · exact foldl_measure (fun m : Mesh F => m._vertices.length) _ _
      (fun a b => (create_sphere_ring_spec sqrtf cosf sinf pi radius segments a b).1) l m
  · exact foldl_inv (fun a : Mesh F => a._indices = m._indices) _ _ m rfl
      (fun a b _ ha =>
        (create_sphere_ring_spec sqrtf cosf sinf pi radius segments a b).2.trans ha)

/-- Adding a triangle of three valid indices keeps the indices valid. -/
theorem add_triangle_valid (N : Nat) (m : Mesh F) (a b c : Int)
    (hm : m._vertices.length = N ∧ ∀ idx ∈ m._indices, 0 ≤ idx ∧ idx < (N : Int))
    (ha : 0 ≤ a ∧ a < (N : Int)) (hb : 0 ≤ b ∧ b < (N : Int)) (hc : 0 ≤ c ∧ c < (N : Int)) :
    (m.add_triangle a b c)._vertices.length = N ∧
      ∀ idx ∈ (m.add_triangle a b c)._indices, 0 ≤ idx ∧ idx < (N : Int) := by
  refine ⟨hm.1, ?_⟩
  intro idx h
  rw [add_triangle_indices, List.mem_append] at h
  rcases h with h | h
  · exact hm.2 idx h
  · simp only [List.mem_cons, List.mem_singleton, List.not_mem_nil, or_false] at h
    rcases h with h | h | h <;> rw [h] <;> assumption

/-- The value of `next` in the loops over `i`. -/
theorem next_range (P : Int) (i : Nat) (hP : 0 < P) (hPb : P < 2147483648)
    (hi : (i : Int) < P) :
    0 ≤ Int.tmod (toInt32 (i + 1)) P ∧ Int.tmod (toInt32 (i + 1)) P < P := by
  rw [toInt32_of_range _ (by omega) (by omega)]
  exact ⟨Int.tmod_nonneg _ (by omega), Int.tmod_lt_of_pos _ hP⟩

/-- One iteration of the loop of the top triangles keeps the indices valid. -/
theorem create_sphere_top_valid (N : Nat) (P : Int) (i : Nat) (m : Mesh F)
    (hP : 0 < P) (hN : P + 2 ≤ (N : Int)) (hNb : (N : Int) < 2147483648)
    (hi : (i : Int) < P)
    (hm : m._vertices.length = N ∧ ∀ idx ∈ m._indices, 0 ≤ idx ∧ idx < (N : Int)) :
    (create_sphere_top P m i)._vertices.length = N ∧
      ∀ idx ∈ (create_sphere_top P m i)._indices, 0 ≤ idx ∧ idx < (N : Int) := by
  have hn := next_range P i hP (by omega) hi
  unfold create_sphere_top
  apply add_triangle_valid N m _ _ _ hm
  · omega
  · rw [toInt32_of_range _ (by omega) (by omega)]
    omega
  · rw [toInt32_of_range _ (by omega) (by omega)]
    omega

/-- One iteration of the inner loop of the bands keeps the indices valid. -/
theorem create_sphere_quad_valid (N : Nat) (P c d : Int) (i : Nat) (m : Mesh F)
    (hP : 0 < P) (hNb : (N : Int) < 2147483648)
    (hc : 0 ≤ c ∧ c + P ≤ (N : Int)) (hd : 0 ≤ d ∧ d + P ≤ (N : Int))
    (hi : (i : Int) < P)
    (hm : m._vertices.length = N ∧ ∀ idx ∈ m._indices, 0 ≤ idx ∧ idx < (N : Int)) :
    (create_sphere_quad P c d m i)._vertices.length = N ∧
      ∀ idx ∈ (create_sphere_quad P c d m i)._indices, 0 ≤ idx ∧ idx < (N : Int) := by
  have hn := next_range P i hP (by omega) hi
  unfold create_sphere_quad
  apply add_triangle_valid N _ _ _ _ (add_triangle_valid N m _ _ _ hm ?_ ?_ ?_) <;>
  · rw [toInt32_of_range _ (by omega) (by omega)]
    omega

/-- One iteration of the loop over `ring` keeps the indices valid. -/
theorem create_sphere_band_valid (N : Nat) (P : Int) (ring : Nat) (m : Mesh F)
    (hP : 0 < P) (hNb : (N : Int) < 2147483648)
    (hr : ((ring : Int) + 2) * P + 1 ≤ (N : Int))
    (hm : m._vertices.length = N ∧ ∀ idx ∈ m._indices, 0 ≤ idx ∧ idx < (N : Int)) :
    (create_sphere_band P m ring)._vertices.length = N ∧
      ∀ idx ∈ (create_sphere_band P m ring)._indices, 0 ≤ idx ∧ idx < (N : Int) := by
  have h0 : 0 ≤ (ring : Int) * P := mul_nonneg (by omega) (le_of_lt hP)
  have h1 : ((ring : Int) + 2) * P = (ring : Int) * P + 2 * P := by ring
  have h2 : ((ring : Int) + 1) * P = (ring : Int) * P + P := by ring
  have hring : (ring : Int) + 1 < 2147483648 := by
    by_contra hcon
    have : (2147483647 : Int) * P ≤ (ring : Int) * P :=
      mul_le_mul_of_nonneg_right (by omega) (le_of_lt hP)
    omega
  unfold create_sphere_band
  rw [toInt32_of_range ((ring : Int) * P) (by omega) (by omega),
    toInt32_of_range (1 + (ring : Int) * P) (by omega) (by omega),
    toInt32_of_range ((ring : Int) + 1) (by omega) (by omega),
    toInt32_of_range (((ring : Int) + 1) * P) (by omega) (by omega),
    toInt32_of_range (1 + ((ring : Int) + 1) * P) (by omega) (by omega)]
  apply foldl_inv (fun a : Mesh F =>
    a._vertices.length = N ∧ ∀ idx ∈ a._indices, 0 ≤ idx ∧ idx < (N : Int)) _ _ m hm
  intro a i hi ha
  rw [List.mem_range] at hi
  exact create_sphere_quad_valid N P _ _ i a hP hNb (by omega) (by omega) (by omega) ha

/-- One iteration of the loop of the bottom triangles keeps the indices valid. -/
theorem create_sphere_bottom_valid (N : Nat) (P l b : Int) (i : Nat) (m : Mesh F)
    (hP : 0 < P) (hNb : (N : Int) < 2147483648)
    (hl : 0 ≤ l ∧ l + P ≤ (N : Int)) (hb : 0 ≤ b ∧ b < (N : Int)) (hi : (i : Int) < P)
    (hm : m._vertices.length = N ∧ ∀ idx ∈ m._indices, 0 ≤ idx ∧ idx < (N : Int)) :
    (create_sphere_bottom P l b m i)._vertices.length = N ∧
      ∀ idx ∈ (create_sphere_bottom P l b m i)._indices, 0 ≤ idx ∧ idx < (N : Int) := by
  have hn := next_range P i hP (by omega) hi
  unfold create_sphere_bottom
  apply add_triangle_valid N m _ _ _ hm ?_ ?_ hb <;>
  · rw [toInt32_of_range _ (by omega) (by omega)]
    omega

/-- The three loops of triangles of `create_sphere` on a mesh of `N` vertices without
indices: the vertices are kept, `3 * (P + 2 * P * R + P)` valid indices are written. -/
theorem create_sphere_triangles (N P R : Nat) (l b : Int) (m : Mesh F)
    (hP : 0 < P) (hNb : (N : Int) < 2147483648)
    (hN : ((R : Int) + 1) * P + 2 ≤ (N : Int))
    (hl : 0 ≤ l ∧ l + P ≤ (N : Int)) (hb : 0 ≤ b ∧ b < (N : Int))
    (hm : m._vertices.length = N) (hi : m._indices = []) :
    let r := (List.range P).foldl (create_sphere_bottom (P : Int) l b)
      ((List.range R).foldl (create_sphere_band (P : Int))
        ((List.range P).foldl (create_sphere_top (P : Int)) m))
    r._vertices.length = N ∧ r._indices.length = 3 * (P + 2 * P * R + P) ∧
    ∀ idx ∈ r._indices, 0 ≤ idx ∧ idx < (N : Int) := by
  intro r
  have hP' : (0 : Int) < (P : Int) := by omega
  have hRP : 0 ≤ (R : Int) * P := mul_nonneg (by omega) (by omega)
  have hRP1 : ((R : Int) + 1) * P = (R : Int) * P + P := by ring
  have v : r._vertices.length = N ∧ ∀ idx ∈ r._indices, 0 ≤ idx ∧ idx < (N : Int) := by
    apply foldl_inv (fun a : Mesh F =>
      a._vertices.length = N ∧ ∀ idx ∈ a._indices, 0 ≤ idx ∧ idx < (N : Int))
    · apply foldl_inv (fun a : Mesh F =>
        a._vertices.length = N ∧ ∀ idx ∈ a._indices, 0 ≤ idx ∧ idx < (N : Int))
      · apply foldl_inv (fun a : Mesh F =>
          a._vertices.length = N ∧ ∀ idx ∈ a._indices, 0 ≤ idx ∧ idx < (N : Int))
        · refine ⟨hm, ?_⟩
          intro idx h
          rw [hi] at h
          exact absurd h (List.not_mem_nil idx)
        · intro a i h ha
          rw [List.mem_range] at h
          exact create_sphere_top_valid N P i a hP' (by omega) hNb (by omega) ha
      · intro a ring h ha
        rw [List.mem_range] at h
        have h1 : ((ring : Int) + 2) * P ≤ ((R : Int) + 1) * P :=
          mul_le_mul_of_nonneg_right (by omega) (by omega)
        exact create_sphere_band_valid N P ring a hP' hNb (by omega) ha
    · intro a i h ha
      rw [List.mem_range] at h
      exact create_sphere_bottom_valid N P l b i a hP' hNb hl hb (by omega) ha
  refine ⟨v.1, ?_, v.2⟩
  have c1 := foldl_measure (fun a : Mesh F => a._indices.length)
    (create_sphere_top (P : Int)) 3 (fun a i => by simp [create_sphere_top]) (List.range P) m
  have c2 := foldl_measure (fun a : Mesh F => a._indices.length)
    (create_sphere_band (P : Int)) (6 * P)
    (fun a ring => by
      have h := foldl_measure (fun a : Mesh F => a._indices.length)
        (create_sphere_quad (P : Int)
          (toInt32 (1 + toInt32 ((ring : Int) * P)))
          (toInt32 (1 + toInt32 (toInt32 ((ring : Int) + 1) * P)))) 6
        (fun a i => by simp [create_sphere_quad]) (List.range ((P : Int)).toNat) a
      simpa [create_sphere_band] using h)
    (List.range R) ((List.range P).foldl (create_sphere_top (P : Int)) m)
  have c3 := foldl_measure (fun a : Mesh F => a._indices.length)
    (create_sphere_bottom (P : Int) l b) 3 (fun a i => by simp [create_sphere_bottom])
    (List.range P)
    ((List.range R).foldl (create_sphere_band (P : Int))
      ((List.range P).foldl (create_sphere_top (P : Int)) m))
  simp only [List.length_range, hi, List.length_nil] at c1 c2 c3
  show ((List.range P).foldl (create_sphere_bottom (P : Int) l b) _)._indices.length = _
  rw [c3, c2, c1]
  ring

/-- The first two loops of triangles of `create_sphere` add no vertex. -/
theorem create_sphere_band_top_vertices (P : Int) (n R : Nat) (m : Mesh F) :
    ((List.range R).foldl (create_sphere_band P)
      ((List.range n).foldl (create_sphere_top P) m))._vertices.length =
      m._vertices.length := by
  apply foldl_inv (fun a : Mesh F => a._vertices.length = m._vertices.length)
  · exact foldl_inv (fun a : Mesh F => a._vertices.length = m._vertices.length) _ _ m rfl
      (fun a i _ ha => ha)
  · intro a ring _ ha
    exact foldl_inv (fun a : Mesh F => a._vertices.length = m._vertices.length) _ _ a ha
      (fun a i _ ha => ha)

/-- The three loops of triangles of `create_sphere` add no vertex. -/
theorem create_sphere_triangles_vertices (P l b : Int) (n R : Nat) (m : Mesh F) :
    ((List.range n).foldl (create_sphere_bottom P l b)
      ((List.range R).foldl (create_sphere_band P)
        ((List.range n).foldl (create_sphere_top P) m)))._vertices.length =
      m._vertices.length := by
  apply foldl_inv (fun a : Mesh F => a._vertices.length = m._vertices.length)
  · exact create_sphere_band_top_vertices P n R m
  · exact fun a i _ ha => ha

/-- The mesh of `create_sphere` for `segments = k + 2` up to 32768. -/
theorem create_sphere_spec (sqrtf cosf sinf : F → F) (pi radius : F) (k : Nat)
    (hk : k ≤ 32766) :
    (create_sphere sqrtf cosf sinf pi radius ((k + 2 : Nat) : Int))._vertices.length =
      2 + 2 * (k + 2) * (k + 1) ∧
    (create_sphere sqrtf cosf sinf pi radius ((k + 2 : Nat) : Int))._indices.length =
      3 * (4 * (k + 2) * (k + 1)) ∧
    ∀ idx ∈ (create_sphere sqrtf cosf sinf pi radius ((k + 2 : Nat) : Int))._indices,
      0 ≤ idx ∧ idx < ((2 + 2 * (k + 2) * (k + 1) : Nat) : Int) := by
  have eP : toInt32 (((k + 2 : Nat) : Int) * 2) = ((2 * (k + 2) : Nat) : Int) := by
    rw [toInt32_of_range _ (by omega) (by omega)]
    push_cast
    ring
  have eR : toInt32 (toInt32 (((k + 2 : Nat) : Int) - 1) - 1) = ((k : Nat) : Int) := by
    rw [toInt32_of_range (((k + 2 : Nat) : Int) - 1) (by omega) (by omega),
      toInt32_of_range _ (by omega) (by omega)]
    push_cast
    ring
  have hmul : (k + 2) * (k + 1) ≤ 32768 * 32767 := Nat.mul_le_mul (by omega) (by omega)
  have hNb : ((2 + 2 * (k + 2) * (k + 1) : Nat) : Int) < 2147483648 := by
    have : 2 + 2 * (k + 2) * (k + 1) < 2147483648 := by
      rw [Nat.mul_assoc]
      omega
    exact_mod_cast this
  have hN : ((2 + 2 * (k + 2) * (k + 1) : Nat) : Int) =
      ((k : Int) + 1) * ((2 * (k + 2) : Nat) : Int) + 2 := by
    push_cast
    ring
  have hkP : 0 ≤ (k : Int) * ((2 * (k + 2) : Nat) : Int) := mul_nonneg (by omega) (by omega)
  have hkP1 : ((k : Int) + 1) * ((2 * (k + 2) : Nat) : Int) =
      (k : Int) * ((2 * (k + 2) : Nat) : Int) + ((2 * (k + 2) : Nat) : Int) := by ring
  have hv := create_sphere_rings_spec sqrtf cosf sinf pi radius ((k + 2 : Nat) : Int)
    ((default : Mesh F).add_vertex
      ⟨Vector3.ofXYZ 0 radius 0, Vector3.ofXYZ 0 1 0, Vector3.ofXYZ 1 1 1⟩)
    (List.range' 1 ((((k + 2 : Nat) : Int)).toNat - 1))
  rw [eP, Int.toNat_natCast, Int.toNat_natCast, List.length_range'] at hv
  have hlen : ((((List.range' 1 (k + 2 - 1)).foldl
      (create_sphere_ring sqrtf cosf sinf pi radius ((k + 2 : Nat) : Int))
      ((default : Mesh F).add_vertex
        ⟨Vector3.ofXYZ 0 radius 0, Vector3.ofXYZ 0 1 0, Vector3.ofXYZ 1 1 1⟩)).add_vertex
      ⟨Vector3.ofXYZ 0 (-radius) 0, Vector3.ofXYZ 0 (-1) 0, Vector3.ofXYZ 1 1 1⟩)._vertices.length)
      = 2 + 2 * (k + 2) * (k + 1) := by
    rw [add_vertex_vertices, List.length_append, hv.1]
    simp [default]
    ring
  have ht := create_sphere_triangles (2 + 2 * (k + 2) * (k + 1)) (2 * (k + 2)) k
    (toInt32 (1 + toInt32 (((k : Nat) : Int) * ((2 * (k + 2) : Nat) : Int))))
    (toInt32 (((2 + 2 * (k + 2) * (k + 1) : Nat) : Int) - 1))
    (((List.range' 1 (k + 2 - 1)).foldl
      (create_sphere_ring sqrtf cosf sinf pi radius ((k + 2 : Nat) : Int))
      ((default : Mesh F).add_vertex
        ⟨Vector3.ofXYZ 0 radius 0, Vector3.ofXYZ 0 1 0, Vector3.ofXYZ 1 1 1⟩)).add_vertex
      ⟨Vector3.ofXYZ 0 (-radius) 0, Vector3.ofXYZ 0 (-1) 0, Vector3.ofXYZ 1 1 1⟩)
    (by omega) hNb (by omega)
    (by
      rw [toInt32_of_range (((k : Nat) : Int) * ((2 * (k + 2) : Nat) : Int)) (by omega)
        (by omega), toInt32_of_range _ (by omega) (by omega)]
      omega)
    (by
      rw [toInt32_of_range _ (by omega) (by omega)]
      omega)
    hlen (by rw [add_vertex_indices, hv.2]; rfl)
  have e : create_sphere sqrtf cosf sinf pi radius ((k + 2 : Nat) : Int) =
      (List.range (2 * (k + 2))).foldl
        (create_sphere_bottom ((2 * (k + 2) : Nat) : Int)
          (toInt32 (1 + toInt32 (((k : Nat) : Int) * ((2 * (k + 2) : Nat) : Int))))
          (toInt32 (((2 + 2 * (k + 2) * (k + 1) : Nat) : Int) - 1)))
        ((List.range k).foldl (create_sphere_band ((2 * (k + 2) : Nat) : Int))
          ((List.range (2 * (k + 2))).foldl (create_sphere_top ((2 * (k + 2) : Nat) : Int))
            (((List.range' 1 (k + 2 - 1)).foldl
              (create_sphere_ring sqrtf cosf sinf pi radius ((k + 2 : Nat) : Int))
              ((default : Mesh F).add_vertex
                ⟨Vector3.ofXYZ 0 radius 0, Vector3.ofXYZ 0 1 0,
                  Vector3.ofXYZ 1 1 1⟩)).add_vertex
              ⟨Vector3.ofXYZ 0 (-radius) 0, Vector3.ofXYZ 0 (-1) 0,
                Vector3.ofXYZ 1 1 1⟩))) := by
    unfold create_sphere
    simp only []
    rw [create_sphere_band_top_vertices, eP, eR, Int.toNat_natCast, Int.toNat_natCast, Int.toNat_natCast, hlen]
  rw [e]
  have w : 3 * (2 * (k + 2) + 2 * (2 * (k + 2)) * k + 2 * (k + 2)) =
      3 * (4 * (k + 2) * (k + 1)) := by ring
  rw [← w]
  exact ht

/-- The number of vertices of `create_sphere`, for every `segments`. -/
theorem create_sphere_vertex_count (sqrtf cosf sinf : F → F) (pi radius : F)
    (segments : Int) :
    (create_sphere sqrtf cosf sinf pi radius segments)._vertices.length =
      2 + (toInt32 (segments * 2)).toNat * (segments.toNat - 1) := by
  have hv := create_sphere_rings_spec sqrtf cosf sinf pi radius segments
    ((default : Mesh F).add_vertex
      ⟨Vector3.ofXYZ 0 radius 0, Vector3.ofXYZ 0 1 0, Vector3.ofXYZ 1 1 1⟩)
    (List.range' 1 (segments.toNat - 1))
  unfold create_sphere
  simp only []
  rw [create_sphere_triangles_vertices, add_vertex_vertices, List.length_append, hv.1,
    List.length_range']
  simp [default]
  ring

/-- When the last loop of `create_sphere` runs at least once, the index `bottom_vertex`
is written. -/
theorem create_sphere_bottom_mem (P l b : Int) (n : Nat) (hn : 0 < n) (m : Mesh F) :
    b ∈ ((List.range n).foldl (create_sphere_bottom P l b) m)._indices := by
  obtain ⟨k, rfl⟩ : ∃ k, n = k + 1 := ⟨n - 1, by omega⟩
  rw [List.range_succ_eq_map, List.foldl_cons]
  apply foldl_inv (fun a : Mesh F => b ∈ a._indices)
  · simp [create_sphere_bottom]
  · intro a i _ ha
    simp only [create_sphere_bottom, add_triangle_indices, List.mem_append]
    exact Or.inl ha

/-- The index `bottom_vertex` written by `create_sphere`, for every `segments` with
`int(segments * 2) > 0`. -/
theorem create_sphere_bottom_vertex_mem (sqrtf cosf sinf : F → F) (pi radius : F)
    (segments : Int) (h : 0 < (toInt32 (segments * 2)).toNat) :
    toInt32 (((2 + (toInt32 (segments * 2)).toNat * (segments.toNat - 1) : Nat) : Int) - 1) ∈
      (create_sphere sqrtf cosf sinf pi radius segments)._indices := by
  have hv := create_sphere_rings_spec sqrtf cosf sinf pi radius segments
    ((default : Mesh F).add_vertex
      ⟨Vector3.ofXYZ 0 radius 0, Vector3.ofXYZ 0 1 0, Vector3.ofXYZ 1 1 1⟩)
    (List.range' 1 (segments.toNat - 1))
  have hlen : ∀ (R : Nat), ((List.range R).foldl (create_sphere_band (toInt32 (segments * 2)))
      ((List.range (toInt32 (segments * 2)).toNat).foldl
        (create_sphere_top (toInt32 (segments * 2)))
        (((List.range' 1 (segments.toNat - 1)).foldl
          (create_sphere_ring sqrtf cosf sinf pi radius segments)
          ((default : Mesh F).add_vertex
            ⟨Vector3.ofXYZ 0 radius 0, Vector3.ofXYZ 0 1 0, Vector3.ofXYZ 1 1 1⟩)).add_vertex
          ⟨Vector3.ofXYZ 0 (-radius) 0, Vector3.ofXYZ 0 (-1) 0,
            Vector3.ofXYZ 1 1 1⟩)))._vertices.length =
      2 + (toInt32 (segments * 2)).toNat * (segments.toNat - 1) := by
    intro R
    rw [create_sphere_band_top_vertices, add_vertex_vertices, List.length_append, hv.1, List.length_range']
    simp [default]
    ring
  unfold create_sphere
  simp only []
  rw [hlen]
  exact create_sphere_bottom_mem _ _ _ _ h _

/-- One iteration of the loop over `face` of `create_cube`: four vertices and six indices
are added. -/
theorem create_cube_face_spec (vs ns cs : List (Vector3 F)) (fi : List (List Nat))
    (tw : List (List Int)) (m : Mesh F) (face : Nat) :
    (create_cube_face vs ns cs fi tw m face)._vertices.length = m._vertices.length + 4 ∧
    (create_cube_face vs ns cs fi tw m face)._indices = m._indices ++
      [toInt32 (toInt32 m._vertices.length + (tw.getD face []).getD 0 0),
        toInt32 (toInt32 m._vertices.length + (tw.getD face []).getD 1 0),
        toInt32 (toInt32 m._vertices.length + (tw.getD face []).getD 2 0),
        toInt32 (toInt32 m._vertices.length + (tw.getD face []).getD 3 0),
        toInt32 (toInt32 m._vertices.length + (tw.getD face []).getD 4 0),
        toInt32 (toInt32 m._vertices.length + (tw.getD face []).getD 5 0)] := by
  have h4 : List.range 4 = [0, 1, 2, 3] := rfl
  unfold create_cube_face
  rw [h4]
  simp only [List.foldl_cons, List.foldl_nil, add_triangle_vertices, add_triangle_indices,
    add_vertex_vertices, add_vertex_indices, List.length_append, List.length_singleton,
    List.append_assoc, List.cons_append, List.nil_append, and_self, List.length_cons,
    List.length_nil, and_true]

/-- The mesh of `create_cube`. -/
theorem create_cube_spec (size : F) :
    (create_cube size)._vertices.length = 24 ∧
    (create_cube size)._indices =
      [0, 1, 2, 0, 2, 3, 4, 6, 5, 4, 7, 6, 8, 9, 10, 8, 10, 11, 12, 14, 13, 12, 15, 14,
        16, 18, 17, 16, 19, 18, 20, 21, 22, 20, 22, 23] := by
  have h6 : List.range 6 = [0, 1, 2, 3, 4, 5] := rfl
  unfold create_cube
  simp only []
  rw [h6]
  simp only [List.foldl_cons, List.foldl_nil]
  constructor
  · simp only [(create_cube_face_spec _ _ _ _ _ _ _).1]
    rfl
  · simp only [(create_cube_face_spec _ _ _ _ _ _ _).2, (create_cube_face_spec _ _ _ _ _ _ _).1]
    simp [default, toInt32]

/-- Indices below the number of vertices are valid. -/
theorem valid_of_bounds (m : Mesh F) (N : Nat) (h1 : m._vertices.length = N)
    (h3 : ∀ idx ∈ m._indices, 0 ≤ idx ∧ idx < (N : Int)) : m.ValidIndices := by
  intro idx hidx
  unfold vertex_count
  rw [h1]
  exact h3 idx hidx

/-- The number of triangles of a mesh with `3 * T` indices. -/
theorem triangle_count_of_length (m : Mesh F) (T : Nat) (h : m._indices.length = 3 * T) :
    m.triangle_count = T := by
  unfold triangle_count
  rw [h, Nat.mul_div_cancel_left _ (by norm_num : 0 < 3)]

/-- The mesh of `create_cube`: 24 vertices, 12 triangles, valid indices. -/
theorem create_cube_valid (size : F) :
    (create_cube size).vertex_count = 24 ∧ (create_cube size).triangle_count = 12 ∧
    (create_cube size).ValidIndices := by
  have h := create_cube_spec size
  refine ⟨h.1, triangle_count_of_length _ 12 (by rw [h.2]; rfl),
    valid_of_bounds _ 24 h.1 ?_⟩
  rw [h.2]
  intro idx hidx
  simp only [List.mem_cons, List.mem_singleton, List.not_mem_nil, or_false] at hidx
  omega

/-- The mesh of `create_plane`: 4 vertices, 2 triangles, valid indices. -/
theorem create_plane_valid (width height : F) :
    (create_plane width height).vertex_count = 4 ∧
    (create_plane width height).triangle_count = 2 ∧
    (create_plane width height).ValidIndices := by
  have e : (create_plane width height)._indices = [0, 1, 2, 0, 2, 3] := rfl
  have v : (create_plane width height)._vertices.length = 4 := rfl
  refine ⟨v, triangle_count_of_length _ 2 (by rw [e]; rfl), valid_of_bounds _ 4 v ?_⟩
  rw [e]
  intro idx hidx
  simp only [List.mem_cons, List.mem_singleton, List.not_mem_nil, or_false] at hidx
  omega

/-- The mesh of `create_triangle`: 3 vertices, 1 triangle, valid indices. -/
theorem create_triangle_valid (size : F) :
    (create_triangle size).vertex_count = 3 ∧ (create_triangle size).triangle_count = 1 ∧
    (create_triangle size).ValidIndices := by
  have e : (create_triangle size)._indices = [0, 1, 2] := rfl
  have v : (create_triangle size)._vertices.length = 3 := rfl
  refine ⟨v, triangle_count_of_length _ 1 (by rw [e]; rfl), valid_of_bounds _ 3 v ?_⟩
  rw [e]
  intro idx hidx
  simp only [List.mem_cons, List.mem_singleton, List.not_mem_nil, or_false] at hidx
  omega

/-- The mesh of `create_sphere` for `segments` from 2 to 32768. -/
theorem create_sphere_valid (sqrtf cosf sinf : F → F) (pi radius : F) (segments : Int)
    (h2 : 2 ≤ segments) (h3 : segments ≤ 32768) :
    ((create_sphere sqrtf cosf sinf pi radius segments).vertex_count : Int) =
      2 + 2 * segments * (segments - 1) ∧
    ((create_sphere sqrtf cosf sinf pi radius segments).triangle_count : Int) =
      4 * segments * (segments - 1) ∧
    (create_sphere sqrtf cosf sinf pi radius segments).ValidIndices := by
  obtain ⟨k, rfl⟩ : ∃ k : Nat, segments = ((k + 2 : Nat) : Int) :=
    ⟨(segments - 2).toNat, by omega⟩
  have h := create_sphere_spec sqrtf cosf sinf pi radius k (by omega)
  have hv : (create_sphere sqrtf cosf sinf pi radius ((k + 2 : Nat) : Int)).vertex_count =
      2 + 2 * (k + 2) * (k + 1) := h.1
  have ht := triangle_count_of_length _ (4 * (k + 2) * (k + 1)) h.2.1
  refine ⟨?_, ?_, valid_of_bounds _ _ h.1 h.2.2⟩
  · rw [hv]
    push_cast
    ring
  · rw [ht]
    push_cast
    ring

/-- A vertex count and an index of a mesh, after evaluating the arithmetic. -/
theorem count_and_index (m : Mesh F) (a b : Nat) (x y : Int) (hv : m._vertices.length = a)
    (hab : a = b) (hm : x ∈ m._indices) (hxy : x = y) :
    m.vertex_count = b ∧ y ∈ m.indices := by
  subst hab
  subst hxy
  exact ⟨hv, hm⟩

end Mesh

end Simd3D

/-! ## The claims -/

namespace Simd3D

variable {F : Type} [LinearOrderedField F]

open Matrix4

/-- C1, the code at a failing input. The claim says that component `i` of
`M.transform_point(v)` is `M(i,0)*x + M(i,1)*y + M(i,2)*z + M(i,3)`. Over the reals, for
`M = translation((1,2,3))` and `v = (5,6,7)` the code returns `(5, 6, 7)`, while the claimed
formula gives `6` for component 0: the code weights the rows of `M` with the coordinates of
the point, so component `i` is built from column `i`, not from row `i`. -/
theorem transform_point_translation_example :
    ((translation (Vector3.ofXYZ (1 : ℝ) 2 3)).transform_point (Vector3.ofXYZ 5 6 7)).x = 5 ∧
    ((translation (Vector3.ofXYZ (1 : ℝ) 2 3)).transform_point (Vector3.ofXYZ 5 6 7)).y = 6 ∧
    ((translation (Vector3.ofXYZ (1 : ℝ) 2 3)).transform_point (Vector3.ofXYZ 5 6 7)).z = 7 ∧
    (translation (Vector3.ofXYZ (1 : ℝ) 2 3)).get 0 0 * 5 +
      (translation (Vector3.ofXYZ (1 : ℝ) 2 3)).get 0 1 * 6 +
      (translation (Vector3.ofXYZ (1 : ℝ) 2 3)).get 0 2 * 7 +
      (translation (Vector3.ofXYZ (1 : ℝ) 2 3)).get 0 3 = 6 := by
  refine ⟨?_, ?_, ?_, ?_⟩
  · simp [transform_point_x]
  · simp [transform_point_y]
  · simp [transform_point_z]
  · simp; norm_num

/-- C2, the code at a failing input. The claim says that
`translation(t).transform_point(p) = p + t`. Over the reals, for `t = (1,0,0)` and the
origin `p = (0,0,0)` the code returns a point whose `x` is `0`, while `p + t` has `x = 1`:
the translation matrix does not move the point. -/
theorem translation_origin_example :
    ((translation (Vector3.ofXYZ (1 : ℝ) 0 0)).transform_point (Vector3.ofXYZ 0 0 0)).x = 0 ∧
    ((Vector3.ofXYZ (0 : ℝ) 0 0).add (Vector3.ofXYZ 1 0 0)).x = 1 := by
  constructor
  · simp [transform_point_x]
  · simp [Vector3.add, Vector3.x, Vector3.ofXYZ]

/-- C3, the code at the failing input, which is the concrete case of the claim. The claim
says that `look_at(eye, center, up).inverse().transform_point((0,0,0)) = eye`. Over the
reals with the real square root, for `eye = (0,0,5)`, `center = (0,0,0)`, `up = (0,1,0)` the
code returns `(0, 0, 0)`, while `eye.z = 5`: `transform_point` sends the origin to row 3 of
the inverse, which is `(0, 0, 0, 1)`, and not to its column 3, which holds `eye`. -/
theorem look_at_inverse_origin_example :
    ((inverse (look_at Real.sqrt (Vector3.ofXYZ 0 0 5) (Vector3.ofXYZ 0 0 0)
        (Vector3.ofXYZ 0 1 0))).transform_point (Vector3.ofXYZ 0 0 0)).x = 0 ∧
    ((inverse (look_at Real.sqrt (Vector3.ofXYZ 0 0 5) (Vector3.ofXYZ 0 0 0)
        (Vector3.ofXYZ 0 1 0))).transform_point (Vector3.ofXYZ 0 0 0)).y = 0 ∧
    ((inverse (look_at Real.sqrt (Vector3.ofXYZ 0 0 5) (Vector3.ofXYZ 0 0 0)
        (Vector3.ofXYZ 0 1 0))).transform_point (Vector3.ofXYZ 0 0 0)).z = 0 ∧
    (Vector3.ofXYZ (0 : ℝ) 0 5).z = 5 := by
  refine ⟨?_, ?_, ?_, rfl⟩
  · exact (transform_point_origin _ 0).trans
      ((inverse_row3 _ (look_at_row3 _ _ _ _) 0).trans (by simp))
  · exact (transform_point_origin _ 1).trans
      ((inverse_row3 _ (look_at_row3 _ _ _ _) 1).trans (by simp))
  · exact (transform_point_origin _ 2).trans
      ((inverse_row3 _ (look_at_row3 _ _ _ _) 2).trans (by simp))

/-- C4, counterexample. The claim says that `M * M.inverse()` is the identity for every
`M` with non-zero determinant. Over the reals, `M = diag(1e-11, 1, 1, 1)` has a non-zero
determinant, yet `M * M.inverse()` is not the identity: the first pivot is below `1e-10`,
so `inverse` returns the identity. -/
theorem inverse_tiny_diag_not_inverse :
    determinant (diag (1 / 10 ^ 11) 1 1 1 : Matrix4 ℝ) ≠ 0 ∧
    mul (diag (1 / 10 ^ 11) 1 1 1 : Matrix4 ℝ) (inverse (diag (1 / 10 ^ 11) 1 1 1)) ≠
      identity := by
  have hnone : gauss_jordan (diag (1 / 10 ^ 11) 1 1 1 : Matrix4 ℝ) = none := by
    apply gauss_jordan_none_of_small_col0
    intro k
    rw [diag_get_col0]
    split_ifs <;> norm_num [abs_of_pos]
  constructor
  · rw [determinant_diag]
    norm_num
  · rw [inverse_of_none _ hnone, mul_identity]
    intro h
    have e := congrArg (fun A => A.get 0 0) h
    simp only [diag_get, identity_get] at e
    norm_num at e

/-- C4, amended. In every linearly ordered field (the reals included): for every matrix
`M` on which `inverse` does not take its singular fallback (no iteration of the elimination
meets a selected pivot of magnitude below `1e-10`), `M` has a non-zero determinant and
`M * M.inverse()` is the identity. -/
theorem mul_inverse_of_no_fallback (M : Matrix4 F) (h : gauss_jordan M ≠ none) :
    determinant M ≠ 0 ∧ mul M (inverse M) = identity := by
  cases hg : gauss_jordan M with
  | none => exact absurd hg h
  | some aug =>
    refine ⟨fun h0 => ?_, (inverse_two_sided M aug hg).1⟩
    rw [gauss_jordan_none_of_det_zero M h0] at hg
    exact absurd hg (by simp)

/-- C4, witness of the amended statement: `diag(2, 3, 4, 5)` over the rationals. -/
theorem mul_inverse_of_no_fallback_witness :
    gauss_jordan (diag (2 : ℚ) 3 4 5) ≠ none ∧
    (determinant (diag (2 : ℚ) 3 4 5) ≠ 0 ∧
      mul (diag (2 : ℚ) 3 4 5) (inverse (diag 2 3 4 5)) = identity) :=
  ⟨by decide!, mul_inverse_of_no_fallback (diag 2 3 4 5) (by decide!)⟩

/-- C5. In every linearly ordered field (the reals included): for every matrix `M` on
which the four iterations of the elimination all pass the singular check, so that the loop
ends with an augmented array `aug`, the matrix returned by `inverse` is the right half of
`aug` and is a two-sided inverse: `M * R = identity` and `R * M = identity`. -/
theorem inverse_two_sided_of_no_fallback (M : Matrix4 F) (aug : Augmented F)
    (h : gauss_jordan M = some aug) :
    (∀ r k : Fin 4, (inverse M).get r k = entry aug r (rcol k)) ∧
    mul M (inverse M) = identity ∧ mul (inverse M) M = identity :=
  ⟨inverse_get_of_some M aug h, inverse_two_sided M aug h⟩

/-- C5, witness: a rational matrix whose elimination needs a row swap. -/
theorem inverse_two_sided_of_no_fallback_witness :
    gauss_jordan sampleMatrix = some sampleReduced ∧
    ((∀ r k : Fin 4, (inverse sampleMatrix).get r k = entry sampleReduced r (rcol k)) ∧
      mul sampleMatrix (inverse sampleMatrix) = identity ∧
      mul (inverse sampleMatrix) sampleMatrix = identity) :=
  ⟨by decide!, inverse_two_sided_of_no_fallback sampleMatrix sampleReduced (by decide!)⟩

/-- C6. In every linearly ordered field (the reals included): for every matrix `M` whose
determinant is exactly `0`, `M.inverse()` is exactly the identity matrix. The function
`inverse` is total: it returns a matrix on every input and has no error result. -/
theorem inverse_of_singular (M : Matrix4 F) (h : determinant M = 0) : inverse M = identity :=
  inverse_of_none M (gauss_jordan_none_of_det_zero M h)

/-- C6, witness: the all-zero matrix over the rationals. -/
theorem inverse_of_singular_witness :
    determinant (zero : Matrix4 ℚ) = 0 ∧ inverse (zero : Matrix4 ℚ) = identity :=
  ⟨by decide!, inverse_of_singular zero (by decide!)⟩

/-- C7. For every matrix `M`: if the elimination reaches iteration `i` with the augmented
array `aug` (after the iterations for the columns before `i`) and every entry of column `i`
in rows `i .. 3` of `aug` has magnitude below `1e-10` (that is, their maximum is below
`1e-10`), then `M.inverse()` is exactly the identity. In particular this holds whenever the
four entries of column 0 of `M` all have magnitude below `1e-10`. -/
theorem inverse_identity_of_small_pivot (M : Matrix4 F) :
    (∀ (i : Fin 4) (aug : Augmented F),
      gauss_jordan_loop (List.take i.val [0, 1, 2, 3]) (augment M) = some aug →
      (∀ k : Fin 4, i ≤ k → |entry aug k (lcol i)| < 1 / 10 ^ 10) →
      inverse M = identity) ∧
    ((∀ k : Fin 4, |M.get k 0| < 1 / 10 ^ 10) → inverse M = identity) :=
  ⟨fun i aug hstate hsmall =>
      inverse_of_none M
        (gauss_jordan_none_of_step M i aug hstate (gauss_jordan_step_none_of_small aug i hsmall)),
    fun h => inverse_of_none M (gauss_jordan_none_of_small_col0 M h)⟩

/-- C7, witness over the rationals: `diag(1, 1, 1e-11, 1e-12)` reaches iteration 2 with its
augmented array unchanged and fails the check there; `diag(1e-11, 1, 1, 1)`, whose
determinant is not zero, fails it at iteration 0. Both inverses are the identity. -/
theorem inverse_identity_of_small_pivot_witness :
    determinant (diag (1 / 10 ^ 11) 1 1 1 : Matrix4 ℚ) ≠ 0 ∧
    gauss_jordan_loop (List.take (2 : Fin 4).val [0, 1, 2, 3])
      (augment (diag 1 1 (1 / 10 ^ 11) (1 / 10 ^ 12) : Matrix4 ℚ)) =
        some (augment (diag 1 1 (1 / 10 ^ 11) (1 / 10 ^ 12))) ∧
    inverse (diag 1 1 (1 / 10 ^ 11) (1 / 10 ^ 12) : Matrix4 ℚ) = identity ∧
    inverse (diag (1 / 10 ^ 11) 1 1 1 : Matrix4 ℚ) = identity :=
  ⟨by decide!, by decide!,
    (inverse_identity_of_small_pivot (diag 1 1 (1 / 10 ^ 11) (1 / 10 ^ 12))).1 2
      (augment (diag 1 1 (1 / 10 ^ 11) (1 / 10 ^ 12))) (by decide!) (by decide!),
    (inverse_identity_of_small_pivot (diag (1 / 10 ^ 11) 1 1 1)).2 (by decide!)⟩

/-- C8, counterexample. The claim says that `is_invertible()` returning true guarantees
that `inverse` does not take the identity fallback and that `M * M.inverse()` is the
identity. Over the reals, `M = diag(1e-11, 1e6, 1, 1)` has determinant `1e-5 > 1e-6`, so
`is_invertible()` is true, yet `M.inverse()` is the identity fallback and `M * M.inverse()`
is not the identity. -/
theorem is_invertible_not_sound :
    is_invertible (diag (1 / 10 ^ 11) (10 ^ 6) 1 1 : Matrix4 ℝ) default_epsilon = true ∧
    inverse (diag (1 / 10 ^ 11) (10 ^ 6) 1 1 : Matrix4 ℝ) = identity ∧
    mul (diag (1 / 10 ^ 11) (10 ^ 6) 1 1 : Matrix4 ℝ)
      (inverse (diag (1 / 10 ^ 11) (10 ^ 6) 1 1)) ≠ identity := by
  have hnone : gauss_jordan (diag (1 / 10 ^ 11) (10 ^ 6) 1 1 : Matrix4 ℝ) = none := by
    apply gauss_jordan_none_of_small_col0
    intro k
    rw [diag_get_col0]
    split_ifs <;> norm_num [abs_of_pos]
  refine ⟨?_, inverse_of_none _ hnone, ?_⟩
  · unfold is_invertible default_epsilon
    rw [determinant_diag, decide_eq_true_eq]
    norm_num [abs_of_pos]
  · rw [inverse_of_none _ hnone, mul_identity]
    intro h
    have e := congrArg (fun A => A.get 0 0) h
    simp only [diag_get, identity_get] at e
    norm_num at e

/-- C8, amended. In every linearly ordered field (the reals included): for every matrix
`M` for which `is_invertible()` (default epsilon `1e-6`) returns true, the determinant of
`M` is not zero, and `inverse` either does not take the fallback and then
`M * M.inverse()` is the identity, or takes the fallback and then returns the identity. -/
theorem inverse_of_is_invertible (M : Matrix4 F) (h : is_invertible M default_epsilon = true) :
    determinant M ≠ 0 ∧
    ((gauss_jordan M ≠ none ∧ mul M (inverse M) = identity) ∨
      (gauss_jordan M = none ∧ inverse M = identity)) := by
  have hdet : determinant M ≠ 0 := by
    intro h0
    unfold is_invertible default_epsilon at h
    rw [decide_eq_true_eq, h0, abs_zero] at h
    exact absurd h (not_lt.mpr (by positivity))
  refine ⟨hdet, ?_⟩
  cases hg : gauss_jordan M with
  | none => exact Or.inr ⟨rfl, inverse_of_none M hg⟩
  | some aug => exact Or.inl ⟨by simp, (inverse_two_sided M aug hg).1⟩

/-- C8, witness of the amended statement: the rational sample matrix, of determinant `-4`. -/
theorem inverse_of_is_invertible_witness :
    is_invertible sampleMatrix default_epsilon = true ∧
    (determinant sampleMatrix ≠ 0 ∧
      ((gauss_jordan sampleMatrix ≠ none ∧
          mul sampleMatrix (inverse sampleMatrix) = identity) ∨
        (gauss_jordan sampleMatrix = none ∧ inverse sampleMatrix = identity))) :=
  ⟨by decide!, inverse_of_is_invertible sampleMatrix (by decide!)⟩

/-- C9, the code at a failing input. The claim says that
`rotation_y(a).transform_vector((x,y,z)) = (x*cos a + z*sin a, y, -x*sin a + z*cos a)`.
Over the reals with the real cosine and sine, for `a = pi/2` and `v = (1,0,0)` the code
returns `(0, 0, 1)`, while the claimed formula gives `-1` for the third component: the code
applies the transposed matrix, which is the rotation by `-a`. -/
theorem rotation_y_quarter_turn_example :
    ((rotation_y Real.cos Real.sin (Real.pi / 2)).transform_vector (Vector3.ofXYZ 1 0 0)).x = 0 ∧
    ((rotation_y Real.cos Real.sin (Real.pi / 2)).transform_vector (Vector3.ofXYZ 1 0 0)).y = 0 ∧
    ((rotation_y Real.cos Real.sin (Real.pi / 2)).transform_vector (Vector3.ofXYZ 1 0 0)).z = 1 ∧
    -(1 : ℝ) * Real.sin (Real.pi / 2) + 0 * Real.cos (Real.pi / 2) = -1 := by
  refine ⟨?_, ?_, ?_, ?_⟩
  · simp [transform_vector_x]
  · simp [transform_vector_y]
  · simp [transform_vector_z]
  · simp

/-- C10. In every linearly ordered field (the reals included): for every matrix `M` and
vector `v`, the components `x()`, `y()`, `z()` of `M.transform_vector(v)` are unchanged when
the entries `M(0,3)`, `M(1,3)`, `M(2,3)` are replaced by arbitrary values `a`, `b`, `c`; in
particular the components `x()`, `y()`, `z()` of `translation(t).transform_vector(v)` are
those of `v`, for all `t` and `v`. -/
theorem transform_vector_ignores_translation (M : Matrix4 F) (t v : Vector3 F) (a b c : F) :
    (((((M.set 0 3 a).set 1 3 b).set 2 3 c).transform_vector v).x = (M.transform_vector v).x ∧
      ((((M.set 0 3 a).set 1 3 b).set 2 3 c).transform_vector v).y = (M.transform_vector v).y ∧
      ((((M.set 0 3 a).set 1 3 b).set 2 3 c).transform_vector v).z = (M.transform_vector v).z) ∧
    (((translation t).transform_vector v).x = v.x ∧
      ((translation t).transform_vector v).y = v.y ∧
      ((translation t).transform_vector v).z = v.z) := by
  refine ⟨⟨?_, ?_, ?_⟩, ⟨?_, ?_, ?_⟩⟩
  · simp [transform_vector_x]
  · simp [transform_vector_y]
  · simp [transform_vector_z]
  · simp [transform_vector_x]
  · simp [transform_vector_y]
  · simp [transform_vector_z]

/-- C11, the code at two failing inputs. The claim says that the fourth lane of every
`Vector3` returned by `transform_point` and `transform_vector` is exactly 0. Over the reals,
`Matrix4().transform_point((1,0,0))` has fourth lane `1` (the homogeneous `w` is stored) and
`translation((1,0,0)).transform_vector((1,0,0))` has fourth lane `1`. On the returned point
`p` the horizontal-add branch of `dot`, which relies on a zero fourth lane, gives
`p.dot(p) = 2`, while the `_mm_dp_ps` branch gives `1`. -/
theorem transform_padding_lane_example :
    ((identity : Matrix4 ℝ).transform_point (Vector3.ofXYZ 1 0 0)).w = 1 ∧
    ((translation (Vector3.ofXYZ (1 : ℝ) 0 0)).transform_vector (Vector3.ofXYZ 1 0 0)).w = 1 ∧
    Vector3.dot_hadd ((identity : Matrix4 ℝ).transform_point (Vector3.ofXYZ 1 0 0))
      ((identity : Matrix4 ℝ).transform_point (Vector3.ofXYZ 1 0 0)) = 2 ∧
    Vector3.dot ((identity : Matrix4 ℝ).transform_point (Vector3.ofXYZ 1 0 0))
      ((identity : Matrix4 ℝ).transform_point (Vector3.ofXYZ 1 0 0)) = 1 := by
  have hx : ((identity : Matrix4 ℝ).transform_point (Vector3.ofXYZ 1 0 0)).x = 1 := by
    simp [transform_point_x]
  have hy : ((identity : Matrix4 ℝ).transform_point (Vector3.ofXYZ 1 0 0)).y = 0 := by
    simp [transform_point_y]
  have hz : ((identity : Matrix4 ℝ).transform_point (Vector3.ofXYZ 1 0 0)).z = 0 := by
    simp [transform_point_z]
  have hw : ((identity : Matrix4 ℝ).transform_point (Vector3.ofXYZ 1 0 0)).w = 1 := by
    simp [transform_point_w]
  refine ⟨hw, ?_, ?_, ?_⟩
  · simp [transform_vector_w]
  · rw [Vector3.dot_hadd_eq, hx, hy, hz, hw]
    norm_num
  · rw [Vector3.dot_eq, hx, hy, hz]
    norm_num

/-- C12. In every linearly ordered field (the reals included): `Vector3()` and
`Vector3(x,y,z)` have fourth lane 0, and `operator+`, `operator-`, `operator*(float)`, the
element-wise `operator*`, `cross` (both branches), `normalized` and `normalize` return a
fourth lane of 0 whenever every `Vector3` operand has fourth lane 0. -/
theorem padding_lane_invariant (sqrtf : F → F) (a b : Vector3 F) (k x y z : F)
    (ha : a.w = 0) (hb : b.w = 0) :
    (Vector3.default : Vector3 F).w = 0 ∧ (Vector3.ofXYZ x y z).w = 0 ∧
    (a.add b).w = 0 ∧ (a.sub b).w = 0 ∧ (a.smul k).w = 0 ∧ (a.mul b).w = 0 ∧
    (a.cross b).w = 0 ∧ (a.cross_fma b).w = 0 ∧
    (a.normalized sqrtf).w = 0 ∧ (a.normalize sqrtf).w = 0 := by
  have hn : (a.normalized sqrtf).w = 0 := by
    unfold Vector3.normalized
    by_cases h : Vector3.length sqrtf a > 1 / 10 ^ 8
    · simp only [h, if_true]
      unfold Vector3.w at ha ⊢
      rw [Vector3.smul_lanes, ha, zero_mul]
    · simp only [h, if_false]
      exact Vector3.zero_lanes 3
  unfold Vector3.w at ha hb
  refine ⟨rfl, rfl, ?_, ?_, ?_, ?_, ?_, ?_, hn, ?_⟩
  · simp [Vector3.add, Vector3.w, ha, hb]
  · simp [Vector3.sub, Vector3.w, ha, hb]
  · simp [Vector3.smul, Vector3.w, ha]
  · simp [Vector3.mul, Vector3.w, ha, hb]
  · rw [(Vector3.cross_lanes a b).2.2.2, sub_self]
  · rw [Vector3.cross_fma_eq, (Vector3.cross_lanes a b).2.2.2, sub_self]
  · rw [Vector3.normalize_eq]
    exact hn

/-- C12, witness over the reals with the real square root. -/
theorem padding_lane_invariant_witness :
    (Vector3.ofXYZ (3 : ℝ) 4 0).w = 0 ∧ (Vector3.ofXYZ (1 : ℝ) 2 3).w = 0 ∧
    ((Vector3.default : Vector3 ℝ).w = 0 ∧ (Vector3.ofXYZ (7 : ℝ) 8 9).w = 0 ∧
      ((Vector3.ofXYZ (3 : ℝ) 4 0).add (Vector3.ofXYZ 1 2 3)).w = 0 ∧
      ((Vector3.ofXYZ (3 : ℝ) 4 0).sub (Vector3.ofXYZ 1 2 3)).w = 0 ∧
      ((Vector3.ofXYZ (3 : ℝ) 4 0).smul 2).w = 0 ∧
      ((Vector3.ofXYZ (3 : ℝ) 4 0).mul (Vector3.ofXYZ 1 2 3)).w = 0 ∧
      ((Vector3.ofXYZ (3 : ℝ) 4 0).cross (Vector3.ofXYZ 1 2 3)).w = 0 ∧
      ((Vector3.ofXYZ (3 : ℝ) 4 0).cross_fma (Vector3.ofXYZ 1 2 3)).w = 0 ∧
      ((Vector3.ofXYZ (3 : ℝ) 4 0).normalized Real.sqrt).w = 0 ∧
      ((Vector3.ofXYZ (3 : ℝ) 4 0).normalize Real.sqrt).w = 0) :=
  ⟨rfl, rfl, padding_lane_invariant Real.sqrt (Vector3.ofXYZ 3 4 0) (Vector3.ofXYZ 1 2 3)
    2 7 8 9 rfl rfl⟩

/-- C13, counterexample. The claim says that `v.normalized().length() = 1` for every vector
of non-zero length. Over the reals with the real square root, `v = (1e-9, 0, 0)` has length
`1e-9`, which is not zero, yet `v.normalized()` is the zero vector (the length is not above
`1e-8`) and its length is `0`, not `1`. -/
theorem normalized_short_vector_example :
    Vector3.length Real.sqrt (Vector3.ofXYZ (1 / 10 ^ 9) 0 0) ≠ 0 ∧
    Vector3.length Real.sqrt
      (Vector3.normalized Real.sqrt (Vector3.ofXYZ (1 / 10 ^ 9) 0 0)) ≠ 1 := by
  have hlen : Vector3.length Real.sqrt (Vector3.ofXYZ (1 / 10 ^ 9) 0 0) = 1 / 10 ^ 9 :=
    Vector3.length_real_axis _ (by positivity)
  constructor
  · rw [hlen]
    norm_num
  · rw [Vector3.normalized_of_le _ _ (by rw [hlen]; norm_num), Vector3.length_real_zero]
    norm_num

/-- C13, amended. Over the reals with the real square root: for every vector `v` whose
length is above `1e-8`, `v.normalized().length() = 1`. -/
theorem length_normalized_of_gt (v : Vector3 ℝ)
    (h : Vector3.length Real.sqrt v > 1 / 10 ^ 8) :
    Vector3.length Real.sqrt (Vector3.normalized Real.sqrt v) = 1 :=
  Vector3.length_normalized_real v h

/-- C13, witness of the amended statement: `(3, 4, 0)`, of length 5. -/
theorem length_normalized_of_gt_witness :
    Vector3.length Real.sqrt (Vector3.ofXYZ 3 4 0) > 1 / 10 ^ 8 ∧
    Vector3.length Real.sqrt (Vector3.normalized Real.sqrt (Vector3.ofXYZ 3 4 0)) = 1 :=
  ⟨by rw [Vector3.length_real_345]; norm_num,
    length_normalized_of_gt (Vector3.ofXYZ 3 4 0) (by rw [Vector3.length_real_345]; norm_num)⟩

/-- C14. For every square-root function and every vector `v`: if `v.length() > 1e-8` then
`v.normalized() = v * (1 / v.length())`; if `v.length() <= 1e-8` then `v.normalized()` is
exactly the zero vector `Vector3::zero()`, all four lanes 0; in particular the vector
`(0,0,0)` is normalised to the zero vector as soon as the square root of 0 is at most
`1e-8`, as the real one is. `normalized` is a total function: no input gives an error. -/
theorem normalized_epsilon_gate (sqrtf : F → F) (v : Vector3 F) :
    (Vector3.length sqrtf v > 1 / 10 ^ 8 →
      Vector3.normalized sqrtf v = v.smul (1 / Vector3.length sqrtf v)) ∧
    (Vector3.length sqrtf v ≤ 1 / 10 ^ 8 →
      Vector3.normalized sqrtf v = Vector3.zero ∧
      ∀ i, (Vector3.normalized sqrtf v).simd.get i = 0) ∧
    (sqrtf 0 ≤ 1 / 10 ^ 8 →
      Vector3.normalized sqrtf (Vector3.ofXYZ 0 0 0) = Vector3.ofXYZ 0 0 0) := by
  refine ⟨Vector3.normalized_of_gt sqrtf v, fun h => ?_, fun h => ?_⟩
  · rw [Vector3.normalized_of_le sqrtf v h]
    exact ⟨rfl, Vector3.zero_lanes⟩
  · have hl : Vector3.length sqrtf (Vector3.ofXYZ 0 0 0) ≤ 1 / 10 ^ 8 := by
      unfold Vector3.length Vector3.length_squared
      rw [Vector3.dot_eq]
      simpa using h
    rw [Vector3.normalized_of_le sqrtf _ hl]
    rfl

/-- C14, witness over the reals with the real square root: `(3, 4, 0)` is above the
threshold, `(1e-8, 0, 0)` is exactly at the threshold and is sent to the zero vector, and
the square root of 0 is 0. -/
theorem normalized_epsilon_gate_witness :
    Vector3.length Real.sqrt (Vector3.ofXYZ 3 4 0) > 1 / 10 ^ 8 ∧
    Vector3.normalized Real.sqrt (Vector3.ofXYZ 3 4 0) =
      (Vector3.ofXYZ 3 4 0).smul (1 / Vector3.length Real.sqrt (Vector3.ofXYZ 3 4 0)) ∧
    Vector3.length Real.sqrt (Vector3.ofXYZ (1 / 10 ^ 8) 0 0) ≤ 1 / 10 ^ 8 ∧
    Vector3.normalized Real.sqrt (Vector3.ofXYZ (1 / 10 ^ 8) 0 0) = Vector3.zero ∧
    Real.sqrt 0 ≤ 1 / 10 ^ 8 ∧
    Vector3.normalized Real.sqrt (Vector3.ofXYZ (0 : ℝ) 0 0) = Vector3.ofXYZ 0 0 0 :=
  ⟨by rw [Vector3.length_real_345]; norm_num,
    (normalized_epsilon_gate Real.sqrt (Vector3.ofXYZ 3 4 0)).1
      (by rw [Vector3.length_real_345]; norm_num),
    by rw [Vector3.length_real_axis _ (by positivity)],
    ((normalized_epsilon_gate Real.sqrt (Vector3.ofXYZ (1 / 10 ^ 8) 0 0)).2.1
      (by rw [Vector3.length_real_axis _ (by positivity)])).1,
    by rw [Real.sqrt_zero]; positivity,
    (normalized_epsilon_gate Real.sqrt (Vector3.ofXYZ (0 : ℝ) 0 0)).2.2
      (by rw [Real.sqrt_zero]; positivity)⟩

/-- C15. For every square-root function and every vector `v`, the value of the receiver
after `v.normalize()` equals `v.normalized()`; above the `1e-8` threshold both are
`v * (1 / v.length())` and at or below it both are the zero vector. The receiver is the only
thing `normalize` writes. -/
theorem normalize_agrees_with_normalized (sqrtf : F → F) (v : Vector3 F) :
    Vector3.normalize sqrtf v = Vector3.normalized sqrtf v ∧
    (Vector3.length sqrtf v > 1 / 10 ^ 8 →
      Vector3.normalize sqrtf v = v.smul (1 / Vector3.length sqrtf v)) ∧
    (Vector3.length sqrtf v ≤ 1 / 10 ^ 8 → Vector3.normalize sqrtf v = Vector3.zero) := by
  refine ⟨Vector3.normalize_eq sqrtf v, fun h => ?_, fun h => ?_⟩
  · rw [Vector3.normalize_eq, Vector3.normalized_of_gt sqrtf v h]
  · rw [Vector3.normalize_eq, Vector3.normalized_of_le sqrtf v h]

/-- C15, witness over the reals with the real square root, on both sides of the threshold. -/
theorem normalize_agrees_with_normalized_witness :
    Vector3.length Real.sqrt (Vector3.ofXYZ 3 4 0) > 1 / 10 ^ 8 ∧
    Vector3.normalize Real.sqrt (Vector3.ofXYZ 3 4 0) =
      (Vector3.ofXYZ 3 4 0).smul (1 / Vector3.length Real.sqrt (Vector3.ofXYZ 3 4 0)) ∧
    Vector3.length Real.sqrt (Vector3.ofXYZ (1 / 10 ^ 9) 0 0) ≤ 1 / 10 ^ 8 ∧
    Vector3.normalize Real.sqrt (Vector3.ofXYZ (1 / 10 ^ 9) 0 0) = Vector3.zero :=
  ⟨by rw [Vector3.length_real_345]; norm_num,
    (normalize_agrees_with_normalized Real.sqrt (Vector3.ofXYZ 3 4 0)).2.1
      (by rw [Vector3.length_real_345]; norm_num),
    by rw [Vector3.length_real_axis _ (by positivity)]; norm_num,
    (normalize_agrees_with_normalized Real.sqrt (Vector3.ofXYZ (1 / 10 ^ 9) 0 0)).2.2
      (by rw [Vector3.length_real_axis _ (by positivity)]; norm_num)⟩

/-- C16. In every linearly ordered field (the reals included): for every matrix `M`, the
value computed by `M.determinant()`, the cofactor expansion along row 0 over the four 3x3
minors, equals the determinant of the 4x4 matrix with entries `M(i,j)`. -/
theorem determinant_is_det (M : Matrix4 F) : determinant M = Matrix.det (toMatrix M) :=
  determinant_eq_det M

/-- C17. In every linearly ordered field (the reals included): for all matrices `A`, `B`
and all `i`, `j`, entry `(i,j)` of `A * B` is the sum over `k` of `A(i,k) * B(k,j)`, on the
branch with FMA and on the branch without. -/
theorem mul_entry_sum (A B : Matrix4 F) (i j : Fin 4) :
    (mul A B).get i j = ∑ k : Fin 4, A.get i k * B.get k j ∧
    (mul_fma A B).get i j = ∑ k : Fin 4, A.get i k * B.get k j := by
  have h : (mul A B).get i j = ∑ k : Fin 4, A.get i k * B.get k j := by
    rw [mul_get, Fin.sum_univ_four]
    ring
  exact ⟨h, by rw [mul_fma_eq, h]⟩

/-- C18. For all vectors `a`, `b` (whatever their fourth lanes), `a.cross(b)` is the vector
`Vector3(ay*bz - az*by, az*bx - ax*bz, ax*by - ay*bx)`, fourth lane 0 included, on the
branch with FMA and on the branch without. -/
theorem cross_components (a b : Vector3 F) :
    a.cross b = Vector3.ofXYZ (a.y * b.z - a.z * b.y) (a.z * b.x - a.x * b.z)
      (a.x * b.y - a.y * b.x) ∧
    a.cross_fma b = Vector3.ofXYZ (a.y * b.z - a.z * b.y) (a.z * b.x - a.x * b.z)
      (a.x * b.y - a.y * b.x) := by
  have h : a.cross b = Vector3.ofXYZ (a.y * b.z - a.z * b.y) (a.z * b.x - a.x * b.z)
      (a.x * b.y - a.y * b.x) := by
    obtain ⟨hx, hy, hz, hw⟩ := Vector3.cross_lanes a b
    apply Vector3.ext_lanes
    intro i
    fin_cases i
    · exact hx
    · exact hy
    · exact hz
    · exact hw.trans (sub_self _)
  exact ⟨h, by rw [Vector3.cross_fma_eq, h]⟩

/-- C19. In every linearly ordered field (the reals included): for all vectors `a`, `b`,
`a.cross(b)` equals `b.cross(a) * -1`, lane by lane. -/
theorem cross_anticommutative (a b : Vector3 F) : a.cross b = (b.cross a).smul (-1) := by
  obtain ⟨hx, hy, hz, hw⟩ := Vector3.cross_lanes a b
  obtain ⟨hx2, hy2, hz2, hw2⟩ := Vector3.cross_lanes b a
  simp only [Vector3.x, Vector3.y, Vector3.z, Vector3.w] at hx hy hz hw hx2 hy2 hz2 hw2
  apply Vector3.ext_lanes
  intro i
  rw [Vector3.smul_lanes]
  fin_cases i
  · show (a.cross b).simd.get 0 = (b.cross a).simd.get 0 * -1
    rw [hx, hx2]; ring
  · show (a.cross b).simd.get 1 = (b.cross a).simd.get 1 * -1
    rw [hy, hy2]; ring
  · show (a.cross b).simd.get 2 = (b.cross a).simd.get 2 * -1
    rw [hz, hz2]; ring
  · show (a.cross b).simd.get 3 = (b.cross a).simd.get 3 * -1
    rw [hw, hw2]; ring

/-- C20. In every linearly ordered field (the reals included): for all vectors `a`, `b`
whose fourth lane is 0, `a.dot(b) = ax*bx + ay*by + az*bz` on the `_mm_dp_ps` branch and on
the horizontal-add branch; on both branches `a.dot(b) = b.dot(a)`, and
`length_squared(a) = a.dot(a)`. -/
theorem dot_formula (a b : Vector3 F) (ha : a.w = 0) (hb : b.w = 0) :
    a.dot b = a.x * b.x + a.y * b.y + a.z * b.z ∧
    a.dot_hadd b = a.x * b.x + a.y * b.y + a.z * b.z ∧
    a.dot b = b.dot a ∧ a.dot_hadd b = b.dot_hadd a ∧
    a.length_squared = a.dot a := by
  refine ⟨Vector3.dot_eq a b, ?_, ?_, ?_, rfl⟩
  · rw [Vector3.dot_hadd_eq, ha, hb]
    ring
  · rw [Vector3.dot_eq, Vector3.dot_eq]
    ring
  · rw [Vector3.dot_hadd_eq, Vector3.dot_hadd_eq]
    ring

/-- C20, witness over the rationals: `(1,2,3)` and `(4,5,6)`. -/
theorem dot_formula_witness :
    (Vector3.ofXYZ (1 : ℚ) 2 3).w = 0 ∧ (Vector3.ofXYZ (4 : ℚ) 5 6).w = 0 ∧
    ((Vector3.ofXYZ (1 : ℚ) 2 3).dot (Vector3.ofXYZ 4 5 6) =
        (Vector3.ofXYZ (1 : ℚ) 2 3).x * (Vector3.ofXYZ (4 : ℚ) 5 6).x +
        (Vector3.ofXYZ (1 : ℚ) 2 3).y * (Vector3.ofXYZ (4 : ℚ) 5 6).y +
        (Vector3.ofXYZ (1 : ℚ) 2 3).z * (Vector3.ofXYZ (4 : ℚ) 5 6).z ∧
      (Vector3.ofXYZ (1 : ℚ) 2 3).dot_hadd (Vector3.ofXYZ 4 5 6) =
        (Vector3.ofXYZ (1 : ℚ) 2 3).x * (Vector3.ofXYZ (4 : ℚ) 5 6).x +
        (Vector3.ofXYZ (1 : ℚ) 2 3).y * (Vector3.ofXYZ (4 : ℚ) 5 6).y +
        (Vector3.ofXYZ (1 : ℚ) 2 3).z * (Vector3.ofXYZ (4 : ℚ) 5 6).z ∧
      (Vector3.ofXYZ (1 : ℚ) 2 3).dot (Vector3.ofXYZ 4 5 6) =
        (Vector3.ofXYZ (4 : ℚ) 5 6).dot (Vector3.ofXYZ 1 2 3) ∧
      (Vector3.ofXYZ (1 : ℚ) 2 3).dot_hadd (Vector3.ofXYZ 4 5 6) =
        (Vector3.ofXYZ (4 : ℚ) 5 6).dot_hadd (Vector3.ofXYZ 1 2 3) ∧
      (Vector3.ofXYZ (1 : ℚ) 2 3).length_squared =
        (Vector3.ofXYZ (1 : ℚ) 2 3).dot (Vector3.ofXYZ 1 2 3)) :=
  ⟨rfl, rfl, dot_formula (Vector3.ofXYZ 1 2 3) (Vector3.ofXYZ 4 5 6) rfl rfl⟩

/-- C21. Entry (i, j) of M.transpose() is entry (j, i) of M. -/
theorem transpose_entry (M : Matrix4 F) (i j : Fin 4) : (transpose M).get i j = M.get j i :=
  transpose_get M i j

/-- C22. Transposing twice gives the matrix back. -/
theorem transpose_involution (M : Matrix4 F) : transpose (transpose M) = M := by
  apply ext_get
  intro i j
  rw [transpose_get, transpose_get]

/-- C23. The default-constructed matrix and identity() have entry (i, j) equal to 1 when
i = j and 0 otherwise, and identity() is a unit of operator* on both sides, in both
branches of the code. -/
theorem identity_two_sided_unit :
    (∀ i j : Fin 4, (Matrix4.default : Matrix4 F).get i j = if i = j then 1 else 0) ∧
    (∀ i j : Fin 4, (identity : Matrix4 F).get i j = if i = j then 1 else 0) ∧
    (∀ M : Matrix4 F, mul identity M = M ∧ mul M identity = M) ∧
    (∀ M : Matrix4 F, mul_fma identity M = M ∧ mul_fma M identity = M) :=
  ⟨default_get, identity_get, fun M => ⟨identity_mul M, mul_identity M⟩,
    fun M => ⟨(mul_fma_eq _ _).trans (identity_mul M), (mul_fma_eq _ _).trans (mul_identity M)⟩⟩

/-- C24. The rows of look_at(eye, center, up): with f = normalized(center - eye),
s = normalized(f x up) and u = s x f, row 0 is (s.x, s.y, s.z, -s.eye), row 1 is
(u.x, u.y, u.z, -u.eye), row 2 is (-f.x, -f.y, -f.z, f.eye) and row 3 is (0, 0, 0, 1). -/
theorem look_at_rows (sqrtf : F → F) (eye center up : Vector3 F) :
    let f := (center.sub eye).normalized sqrtf
    let s := (f.cross up).normalized sqrtf
    let u := s.cross f
    let M := look_at sqrtf eye center up
    (M.get 0 0 = s.x ∧ M.get 0 1 = s.y ∧ M.get 0 2 = s.z ∧ M.get 0 3 = -(s.dot eye)) ∧
    (M.get 1 0 = u.x ∧ M.get 1 1 = u.y ∧ M.get 1 2 = u.z ∧ M.get 1 3 = -(u.dot eye)) ∧
    (M.get 2 0 = -f.x ∧ M.get 2 1 = -f.y ∧ M.get 2 2 = -f.z ∧ M.get 2 3 = f.dot eye) ∧
    (M.get 3 0 = 0 ∧ M.get 3 1 = 0 ∧ M.get 3 2 = 0 ∧ M.get 3 3 = 1) := by
  simp [look_at]

/-- C25. The entries of perspective(fov, aspect, near, far) with t = tan(fov / 2):
m(0,0) = 1 / (aspect * t), m(1,1) = 1 / t, m(2,2) = -(far + near) / (far - near),
m(2,3) = -(2 * far * near) / (far - near), m(3,2) = -1 and every other entry is 0; and
over the reals fov = pi / 2, aspect = 1, near = 1, far = 100 gives m(0,0) = 1, m(1,1) = 1,
m(2,2) = -101/99 and m(2,3) = -200/99. -/
theorem perspective_entries :
    (∀ (tanf : F → F) (fov aspect near far : F),
      let t := tanf (fov / 2)
      let M := perspective tanf fov aspect near far
      (M.get 0 0 = 1 / (aspect * t) ∧ M.get 0 1 = 0 ∧ M.get 0 2 = 0 ∧ M.get 0 3 = 0) ∧
      (M.get 1 0 = 0 ∧ M.get 1 1 = 1 / t ∧ M.get 1 2 = 0 ∧ M.get 1 3 = 0) ∧
      (M.get 2 0 = 0 ∧ M.get 2 1 = 0 ∧ M.get 2 2 = -(far + near) / (far - near) ∧
        M.get 2 3 = -(2 * far * near) / (far - near)) ∧
      (M.get 3 0 = 0 ∧ M.get 3 1 = 0 ∧ M.get 3 2 = -1 ∧ M.get 3 3 = 0)) ∧
    ((perspective Real.tan (Real.pi / 2) 1 1 100).get 0 0 = 1 ∧
      (perspective Real.tan (Real.pi / 2) 1 1 100).get 1 1 = 1 ∧
      (perspective Real.tan (Real.pi / 2) 1 1 100).get 2 2 = -101 / 99 ∧
      (perspective Real.tan (Real.pi / 2) 1 1 100).get 2 3 = -200 / 99) := by
  constructor
  · intro tanf fov aspect near far
    have h : fov * (1 / 2) = fov / 2 := by ring
    unfold perspective
    rw [h]
    simp
  · have h : Real.pi / 2 * (1 / 2) = Real.pi / 4 := by ring
    simp only [perspective, h, Real.tan_pi_div_four]
    simp
    norm_num

/-- C26. The entries of rotation_x(a), rotation_y(a) and rotation_z(a): the identity
except for the 2x2 block of cos a and sin a; and when cos 0 = 1 and sin 0 = 0 the three
matrices at angle 0 are the identity. -/
theorem rotation_axes_entries (cosf sinf : F → F) :
    (∀ (a : F) (i j : Fin 4),
      (rotation_x cosf sinf a).get i j =
        (!![1, 0, 0, 0; 0, cosf a, -sinf a, 0; 0, sinf a, cosf a, 0; 0, 0, 0, 1] :
          Matrix (Fin 4) (Fin 4) F) i j ∧
      (rotation_y cosf sinf a).get i j =
        (!![cosf a, 0, sinf a, 0; 0, 1, 0, 0; -sinf a, 0, cosf a, 0; 0, 0, 0, 1] :
          Matrix (Fin 4) (Fin 4) F) i j ∧
      (rotation_z cosf sinf a).get i j =
        (!![cosf a, -sinf a, 0, 0; sinf a, cosf a, 0, 0; 0, 0, 1, 0; 0, 0, 0, 1] :
          Matrix (Fin 4) (Fin 4) F) i j) ∧
    (cosf 0 = 1 → sinf 0 = 0 →
      rotation_x cosf sinf 0 = identity ∧ rotation_y cosf sinf 0 = identity ∧
      rotation_z cosf sinf 0 = identity) := by
  constructor
  · intro a i j
    fin_cases i <;> fin_cases j <;> simp <;> (try constructor) <;> rfl
  · intro hc hs
    refine ⟨?_, ?_, ?_⟩ <;>
    · apply ext_get
      intro i j
      fin_cases i <;> fin_cases j <;> simp [hc, hs]

theorem rotation_axes_entries_witness :
    rotation_x Real.cos Real.sin 0 = identity ∧ rotation_y Real.cos Real.sin 0 = identity ∧
      rotation_z Real.cos Real.sin 0 = identity :=
  (rotation_axes_entries Real.cos Real.sin).2 Real.cos_zero Real.sin_zero

/-- C30. The result of is_invertible(epsilon) is true exactly when
|determinant| > epsilon, the default epsilon is 1e-6, and a matrix with
|determinant| = epsilon is reported as not invertible. -/
theorem is_invertible_iff (M : Matrix4 F) (epsilon : F) :
    (is_invertible M epsilon = true ↔ |determinant M| > epsilon) ∧
    (default_epsilon : F) = 1 / 10 ^ 6 ∧
    (|determinant M| = epsilon → is_invertible M epsilon = false) := by
  refine ⟨by simp [is_invertible], rfl, ?_⟩
  intro h
  simp [is_invertible, h]

theorem is_invertible_iff_witness :
    |determinant (diag (1 / 10 ^ 6) 1 1 1 : Matrix4 ℚ)| = default_epsilon ∧
    is_invertible (diag (1 / 10 ^ 6) 1 1 1 : Matrix4 ℚ) default_epsilon = false :=
  have h : |determinant (diag (1 / 10 ^ 6) 1 1 1 : Matrix4 ℚ)| = default_epsilon := by
    rw [determinant_diag]; norm_num [default_epsilon]
  ⟨h, (is_invertible_iff _ _).2.2 h⟩

/-- C27. Matrix4::rotation normalises its axis: with the real square root, for an axis
longer than 1e-8 and k > 0 with k * axis longer than 1e-8, rotation(axis * k, angle) is
rotation(axis, angle), and this matrix is the matrix of the formula of Rodrigues for the
unit vector u = axis / |axis|: u has length 1, the 3x3 block sends every v to
v cos a + (u x v) sin a + u (u . v) (1 - cos a), and the last row and column are
(0, 0, 0, 1). -/
theorem rotation_normalises_axis (cosf sinf : ℝ → ℝ) (axis : Vector3 ℝ) (k angle : ℝ)
    (h : Vector3.length Real.sqrt axis > 1 / 10 ^ 8) (hk : k > 0)
    (hkl : Vector3.length Real.sqrt (axis.smul k) > 1 / 10 ^ 8) :
    let u := axis.smul (1 / Vector3.length Real.sqrt axis)
    let R := rotation Real.sqrt cosf sinf axis angle
    rotation Real.sqrt cosf sinf (axis.smul k) angle = R ∧
    Vector3.length Real.sqrt u = 1 ∧
    (∀ v : Vector3 ℝ,
      let w := ((v.smul (cosf angle)).add ((u.cross v).smul (sinf angle))).add
        (u.smul (u.dot v * (1 - cosf angle)))
      R.get 0 0 * v.x + R.get 0 1 * v.y + R.get 0 2 * v.z = w.x ∧
      R.get 1 0 * v.x + R.get 1 1 * v.y + R.get 1 2 * v.z = w.y ∧
      R.get 2 0 * v.x + R.get 2 1 * v.y + R.get 2 2 * v.z = w.z) ∧
    (∀ i : Fin 4, R.get i 3 = if i = 3 then 1 else 0) ∧
    (∀ j : Fin 4, R.get 3 j = if 3 = j then 1 else 0) := by
  intro u R
  have hu : Vector3.normalized Real.sqrt axis = u := Vector3.normalized_of_gt _ _ h
  refine ⟨?_, ?_, ?_, ?_, ?_⟩
  · show rotation Real.sqrt cosf sinf (axis.smul k) angle = rotation Real.sqrt cosf sinf axis angle
    unfold Matrix4.rotation
    rw [normalized_real_smul axis k hk h hkl]
  · rw [← hu]
    exact Vector3.length_normalized_real axis h
  · intro v
    have c := Vector3.cross_lanes u v
    simp only [R, rotation_get, hu]
    simp [Vector3.add, Vector3.smul, Vector3.x, Vector3.y, Vector3.z, Vector3.dot_eq] at c ⊢
    rw [c.1, c.2.1, c.2.2.1]
    refine ⟨by ring, by ring, by ring⟩
  · intro i
    simp only [R, rotation_get]
    fin_cases i <;> simp
  · intro j
    simp only [R, rotation_get]
    fin_cases j <;> simp

theorem rotation_normalises_axis_witness :
    Vector3.length Real.sqrt (Vector3.ofXYZ 3 4 0) > 1 / 10 ^ 8 ∧ (2 : ℝ) > 0 ∧
    Vector3.length Real.sqrt ((Vector3.ofXYZ 3 4 0).smul 2) > 1 / 10 ^ 8 ∧
    rotation Real.sqrt Real.cos Real.sin ((Vector3.ofXYZ 3 4 0).smul 2) 1 =
      rotation Real.sqrt Real.cos Real.sin (Vector3.ofXYZ 3 4 0) 1 :=
  have h1 : Vector3.length Real.sqrt (Vector3.ofXYZ 3 4 0) > 1 / 10 ^ 8 := by
    rw [Vector3.length_real_345]; norm_num
  have h2 : Vector3.length Real.sqrt ((Vector3.ofXYZ 3 4 0).smul 2) > 1 / 10 ^ 8 := by
    rw [length_real_smul _ _ (by norm_num), Vector3.length_real_345]; norm_num
  ⟨h1, by norm_num, h2,
    (rotation_normalises_axis Real.cos Real.sin (Vector3.ofXYZ 3 4 0) 2 1 h1 (by norm_num) h2).1⟩

/-- C28. Round trip of decompose over the reals (square root, cosine and sine of the
reals, atan2(y, x) as the argument of x + y i): for a translation t, a scale s with
positive components, angles ax and az in (-pi, pi) and ay in (-pi/2, pi/2), decomposing
translation(t) * rotation_z(az) * rotation_y(ay) * rotation_x(ax) * scale(s) returns true,
the translation (t.x, t.y, t.z), the scale (s.x, s.y, s.z) and the rotation with
components ax, ay, az (its padding lane is left as it was). -/
theorem decompose_round_trip (t s r0 : Vector3 ℝ) (ax ay az : ℝ)
    (hsx : 0 < s.x) (hsy : 0 < s.y) (hsz : 0 < s.z)
    (hax : -Real.pi < ax ∧ ax < Real.pi) (hay : -(Real.pi / 2) < ay ∧ ay < Real.pi / 2)
    (haz : -Real.pi < az ∧ az < Real.pi) :
    let M := mul (mul (mul (mul (translation t) (rotation_z Real.cos Real.sin az))
      (rotation_y Real.cos Real.sin ay)) (rotation_x Real.cos Real.sin ax)) (scale s)
    let d := decompose Real.sqrt (fun y x => Complex.arg ⟨x, y⟩) M r0
    d.ret = true ∧
    d.translation = Vector3.ofXYZ t.x t.y t.z ∧
    d.scale = Vector3.ofXYZ s.x s.y s.z ∧
    d.rotation.x = ax ∧ d.rotation.y = ay ∧ d.rotation.z = az ∧ d.rotation.w = r0.w := by
  intro M d
  have hx := Real.sin_sq_add_cos_sq ax
  have hy := Real.sin_sq_add_cos_sq ay
  have hz := Real.sin_sq_add_cos_sq az
  have hcy : 0 < Real.cos ay := Real.cos_pos_of_mem_Ioo ⟨hay.1, hay.2⟩
  have g : ∀ i j, M.get i j = _ := fun i j => trs_get Real.cos Real.sin t s ax ay az i j
  have e0 : (Vector3.ofXYZ (M.get 0 0) (M.get 1 0) (M.get 2 0)).length Real.sqrt = s.x := by
    apply length_real_of_sq _ _ _ _ (le_of_lt hsx)
    rw [g, g, g]
    simp
    linear_combination (s.x * s.x * Real.cos ay ^ 2) * hz + (s.x * s.x) * hy
  have e1 : (Vector3.ofXYZ (M.get 0 1) (M.get 1 1) (M.get 2 1)).length Real.sqrt = s.y := by
    apply length_real_of_sq _ _ _ _ (le_of_lt hsy)
    rw [g, g, g]
    simp
    linear_combination (s.y * s.y * (Real.sin ay ^ 2 * Real.sin ax ^ 2 + Real.cos ax ^ 2)) * hz +
      (s.y * s.y * Real.sin ax ^ 2) * hy + (s.y * s.y) * hx
  have e2 : (Vector3.ofXYZ (M.get 0 2) (M.get 1 2) (M.get 2 2)).length Real.sqrt = s.z := by
    apply length_real_of_sq _ _ _ _ (le_of_lt hsz)
    rw [g, g, g]
    simp
    linear_combination (s.z * s.z * (Real.sin ay ^ 2 * Real.cos ax ^ 2 + Real.sin ax ^ 2)) * hz +
      (s.z * s.z * Real.cos ax ^ 2) * hy + (s.z * s.z) * hx
  have hdet : ¬ determinant M < 0 := by
    have e : determinant M = s.x * s.y * s.z := by
      simp only [M, determinant_mul, determinant_translation, determinant_rotation_x,
        determinant_rotation_y, determinant_rotation_z, determinant_scale]
      linear_combination (s.x * s.y * s.z *
        ((Real.cos ay * Real.cos ay + Real.sin ay * Real.sin ay) *
          (Real.cos ax * Real.cos ax + Real.sin ax * Real.sin ax))) * hz +
        (s.x * s.y * s.z * (Real.cos ax * Real.cos ax + Real.sin ax * Real.sin ax)) * hy +
        (s.x * s.y * s.z) * hx
    rw [e]
    exact not_lt.mpr (le_of_lt (mul_pos (mul_pos hsx hsy) hsz))
  have hd : d = _ := decompose_of_det_nonneg Real.sqrt (fun y x => Complex.arg ⟨x, y⟩) M r0
    s.x s.y s.z e0 e1 e2 hdet (ne_of_gt hsx) (ne_of_gt hsy) (ne_of_gt hsz)
  have nx : s.x ≠ 0 := ne_of_gt hsx
  have ny : s.y ≠ 0 := ne_of_gt hsy
  have nz : s.z ≠ 0 := ne_of_gt hsz
  have q21 : M.get 2 1 / s.y = Real.cos ay * Real.sin ax := by
    rw [g]; simp; field_simp
  have q22 : M.get 2 2 / s.z = Real.cos ay * Real.cos ax := by
    rw [g]; simp; field_simp
  have q20 : -(M.get 2 0 / s.x) = 1 * Real.sin ay := by
    rw [g]; simp; field_simp
  have q10 : M.get 1 0 / s.x = Real.cos ay * Real.sin az := by
    rw [g]; simp; field_simp; ring
  have q00 : M.get 0 0 / s.x = Real.cos ay * Real.cos az := by
    rw [g]; simp; field_simp; ring
  have qs : Real.sqrt (Real.cos ay * Real.sin ax * (Real.cos ay * Real.sin ax) +
      Real.cos ay * Real.cos ax * (Real.cos ay * Real.cos ax)) = 1 * Real.cos ay := by
    have : Real.cos ay * Real.sin ax * (Real.cos ay * Real.sin ax) +
        Real.cos ay * Real.cos ax * (Real.cos ay * Real.cos ax) = Real.cos ay * Real.cos ay := by
      linear_combination (Real.cos ay * Real.cos ay) * hx
    rw [this, Real.sqrt_mul_self (le_of_lt hcy), one_mul]
  have l := set_xyz_lanes r0
    (Complex.arg ⟨M.get 2 2 / s.z, M.get 2 1 / s.y⟩)
    (Complex.arg ⟨Real.sqrt (M.get 2 1 / s.y * (M.get 2 1 / s.y) +
      M.get 2 2 / s.z * (M.get 2 2 / s.z)), -(M.get 2 0 / s.x)⟩)
    (Complex.arg ⟨M.get 0 0 / s.x, M.get 1 0 / s.x⟩)
  rw [hd]
  refine ⟨rfl, ?_, rfl, ?_, ?_, ?_, l.2.2.2⟩
  · show Vector3.ofXYZ (M.get 0 3) (M.get 1 3) (M.get 2 3) = _
    rw [g, g, g]
    simp
  · refine l.1.trans ?_
    rw [q21, q22]
    exact arg_polar _ _ hcy hax.1 (le_of_lt hax.2)
  · refine l.2.1.trans ?_
    rw [q21, q22, q20, qs]
    exact arg_polar _ _ one_pos (by linarith [hay.1, Real.pi_pos]) (by linarith [hay.2, Real.pi_pos])
  · refine l.2.2.1.trans ?_
    rw [q10, q00]
    exact arg_polar _ _ hcy haz.1 (le_of_lt haz.2)

theorem decompose_round_trip_witness :
    (-Real.pi < 1 ∧ (1 : ℝ) < Real.pi) ∧ (-(Real.pi / 2) < 1 ∧ (1 : ℝ) < Real.pi / 2) ∧
    (let d := decompose Real.sqrt (fun y x => Complex.arg ⟨x, y⟩)
        (mul (mul (mul (mul (translation (Vector3.ofXYZ 1 2 3))
          (rotation_z Real.cos Real.sin 1)) (rotation_y Real.cos Real.sin 1))
          (rotation_x Real.cos Real.sin 1)) (scale (Vector3.ofXYZ 2 3 4)))
        Vector3.default;
      d.ret = true ∧ d.translation = Vector3.ofXYZ 1 2 3 ∧ d.scale = Vector3.ofXYZ 2 3 4 ∧
      d.rotation.x = 1 ∧ d.rotation.y = 1 ∧ d.rotation.z = 1 ∧ d.rotation.w = 0) :=
  have h3 := Real.pi_gt_three
  have h1 : -Real.pi < 1 ∧ (1 : ℝ) < Real.pi := ⟨by linarith, by linarith⟩
  have h2 : -(Real.pi / 2) < 1 ∧ (1 : ℝ) < Real.pi / 2 := ⟨by linarith, by linarith⟩
  ⟨h1, h2, decompose_round_trip (Vector3.ofXYZ 1 2 3) (Vector3.ofXYZ 2 3 4) Vector3.default
    1 1 1 (by norm_num) (by norm_num) (by norm_num) h1 h2 h1⟩

/-- C29. Cache coherence of Camera: in every state reached from either constructor by a
sequence of calls of look_at, move, rotate, set_position, set_target, set_up,
set_perspective, set_orthographic, view_matrix, projection_matrix and
view_projection_matrix, a clear view dirty flag means the cached view matrix is
look_at(position, target, up) and a clear projection dirty flag means the cached
projection matrix is perspective(fov, aspect, near, far); view_matrix() and
projection_matrix() return these recomputed values, and view_projection_matrix() returns
projection_matrix() * view_matrix(), whichever operand is evaluated first. -/
theorem camera_cache_coherence (sqrtf cosf sinf tanf : F → F) (pi : F) (c0 : Camera F)
    (h0 : c0 = Camera.default pi ∨
      ∃ position target up, c0 = Camera.ofPositionTarget pi position target up)
    (calls : List (Camera.Call F)) :
    let c := Camera.run sqrtf cosf sinf tanf c0 calls
    (c._view_dirty = false →
      c._view_matrix = Matrix4.look_at sqrtf c._position c._target c._up) ∧
    (c._projection_dirty = false →
      c._projection_matrix =
        Matrix4.perspective tanf c._fov c._aspect_ratio c._near_plane c._far_plane) ∧
    (c.view_matrix sqrtf).1 = Matrix4.look_at sqrtf c._position c._target c._up ∧
    (c.projection_matrix tanf).1 =
      Matrix4.perspective tanf c._fov c._aspect_ratio c._near_plane c._far_plane ∧
    (c.view_projection_matrix sqrtf tanf).1 =
      Matrix4.mul (c.projection_matrix tanf).1 (c.view_matrix sqrtf).1 ∧
    (c.view_projection_matrix_rl sqrtf tanf).1 =
      Matrix4.mul (c.projection_matrix tanf).1 (c.view_matrix sqrtf).1 := by
  intro c
  have hc0 : Camera.Coherent sqrtf tanf c0 := by
    rcases h0 with h | ⟨p, t, u, h⟩
    · rw [h]; exact Camera.Coherent_default sqrtf tanf pi
    · rw [h]; exact Camera.Coherent_ofPositionTarget sqrtf tanf pi p t u
  have hc : Camera.Coherent sqrtf tanf c := Camera.Coherent_run sqrtf cosf sinf tanf calls c0 hc0
  refine ⟨hc.1, hc.2, Camera.view_matrix_fst sqrtf tanf c hc,
    Camera.projection_matrix_fst sqrtf tanf c hc, ?_, ?_⟩
  · unfold Camera.view_projection_matrix
    simp only []
    rw [Camera.view_matrix_after_projection]
  · unfold Camera.view_projection_matrix_rl
    simp only []
    rw [Camera.projection_matrix_after_view]

theorem camera_cache_coherence_witness :
    let c := Camera.run Real.sqrt Real.cos Real.sin Real.tan (Camera.default Real.pi)
      [Camera.Call.view_matrix, Camera.Call.move (Vector3.ofXYZ 1 0 0),
        Camera.Call.projection_matrix];
    c._view_dirty = true ∧ c._projection_dirty = false ∧
    c._projection_matrix =
      Matrix4.perspective Real.tan c._fov c._aspect_ratio c._near_plane c._far_plane :=
  ⟨rfl, rfl,
    (camera_cache_coherence Real.sqrt Real.cos Real.sin Real.tan Real.pi
      (Camera.default Real.pi) (Or.inl rfl)
      [Camera.Call.view_matrix, Camera.Call.move (Vector3.ofXYZ 1 0 0),
        Camera.Call.projection_matrix]).2.1 rfl⟩

/-- C31. Composition law of transform_point as implemented: when column 3 of A is
(0, 0, 0, 1), (A * B).transform_point(p) = B.transform_point(A.transform_point(p)) for
every B and p, on all four lanes and in both branches of the code: the left factor of a
product is applied to the point first. -/
theorem transform_point_mul (A B : Matrix4 F) (p : Vector3 F)
    (h0 : A.get 0 3 = 0) (h1 : A.get 1 3 = 0) (h2 : A.get 2 3 = 0) (h3 : A.get 3 3 = 1) :
    (mul A B).transform_point p = B.transform_point (A.transform_point p) ∧
    (mul_fma A B).transform_point_fma p =
      B.transform_point_fma (A.transform_point_fma p) := by
  have h : (mul A B).transform_point p = B.transform_point (A.transform_point p) := by
    apply Vector3.ext_lanes
    intro j
    rw [transform_point_mul_get, h0, h1, h2, h3]
    ring
  refine ⟨h, ?_⟩
  rw [mul_fma_eq, transform_point_fma_eq, transform_point_fma_eq, transform_point_fma_eq, h]

theorem transform_point_mul_witness :
    (mul (diag 2 3 4 1) sampleMatrix).transform_point (Vector3.ofXYZ 1 2 3) =
      sampleMatrix.transform_point ((diag 2 3 4 1).transform_point (Vector3.ofXYZ 1 2 3)) :=
  (transform_point_mul (diag 2 3 4 1) sampleMatrix (Vector3.ofXYZ 1 2 3) rfl rfl rfl rfl).1

/-- C32. With the real square root and sin² + cos² = 1 at the angle, the matrix
R = rotation(axis, angle) of an axis longer than 1e-8 is orthogonal:
R * R.transpose() = identity. -/
theorem rotation_orthogonal (cosf sinf : ℝ → ℝ) (axis : Vector3 ℝ) (angle : ℝ)
    (h : Vector3.length Real.sqrt axis > 1 / 10 ^ 8)
    (hcs : sinf angle ^ 2 + cosf angle ^ 2 = 1) :
    mul (rotation Real.sqrt cosf sinf axis angle)
      (transpose (rotation Real.sqrt cosf sinf axis angle)) = identity :=
  rotation_mul_transpose Real.sqrt cosf sinf axis angle (normalized_real_sq axis h) hcs

theorem rotation_orthogonal_witness :
    Vector3.length Real.sqrt (Vector3.ofXYZ 3 4 0) > 1 / 10 ^ 8 ∧
    mul (rotation Real.sqrt Real.cos Real.sin (Vector3.ofXYZ 3 4 0) 1)
      (transpose (rotation Real.sqrt Real.cos Real.sin (Vector3.ofXYZ 3 4 0) 1)) = identity :=
  have h : Vector3.length Real.sqrt (Vector3.ofXYZ 3 4 0) > 1 / 10 ^ 8 := by
    rw [Vector3.length_real_345]; norm_num
  ⟨h, rotation_orthogonal Real.cos Real.sin (Vector3.ofXYZ 3 4 0) 1 h
    (Real.sin_sq_add_cos_sq 1)⟩

/-- C33. When the square root of 1 is 1, rotation((1,0,0), a) = rotation_x(a),
rotation((0,1,0), a) = rotation_y(a) and rotation((0,0,1), a) = rotation_z(a), for every
angle and every pair of functions cos and sin. -/
theorem rotation_agrees_with_axes (sqrtf cosf sinf : F → F) (a : F) (h1 : sqrtf 1 = 1) :
    rotation sqrtf cosf sinf (Vector3.ofXYZ 1 0 0) a = rotation_x cosf sinf a ∧
    rotation sqrtf cosf sinf (Vector3.ofXYZ 0 1 0) a = rotation_y cosf sinf a ∧
    rotation sqrtf cosf sinf (Vector3.ofXYZ 0 0 1) a = rotation_z cosf sinf a := by
  have e1 := normalized_of_unit sqrtf (Vector3.ofXYZ 1 0 0) h1
    (by simp [Vector3.length_squared, Vector3.dot_eq])
  have e2 := normalized_of_unit sqrtf (Vector3.ofXYZ 0 1 0) h1
    (by simp [Vector3.length_squared, Vector3.dot_eq])
  have e3 := normalized_of_unit sqrtf (Vector3.ofXYZ 0 0 1) h1
    (by simp [Vector3.length_squared, Vector3.dot_eq])
  refine ⟨?_, ?_, ?_⟩
  · apply ext_get
    intro i j
    rw [rotation_get]
    simp only [Vector3.x, Vector3.y, Vector3.z, e1]
    fin_cases i <;> fin_cases j <;> simp [Vector3.ofXYZ, Matrix.vecHead, Matrix.vecTail]
  · apply ext_get
    intro i j
    rw [rotation_get]
    simp only [Vector3.x, Vector3.y, Vector3.z, e2]
    fin_cases i <;> fin_cases j <;> simp [Vector3.ofXYZ, Matrix.vecHead, Matrix.vecTail]
  · apply ext_get
    intro i j
    rw [rotation_get]
    simp only [Vector3.x, Vector3.y, Vector3.z, e3]
    fin_cases i <;> fin_cases j <;> simp [Vector3.ofXYZ, Matrix.vecHead, Matrix.vecTail]

theorem rotation_agrees_with_axes_witness :
    rotation Real.sqrt Real.cos Real.sin (Vector3.ofXYZ 1 0 0) 1 =
      rotation_x Real.cos Real.sin 1 ∧
    rotation Real.sqrt Real.cos Real.sin (Vector3.ofXYZ 0 1 0) 1 =
      rotation_y Real.cos Real.sin 1 ∧
    rotation Real.sqrt Real.cos Real.sin (Vector3.ofXYZ 0 0 1) 1 =
      rotation_z Real.cos Real.sin 1 :=
  rotation_agrees_with_axes Real.sqrt Real.cos Real.sin 1 Real.sqrt_one

/-- C34. The scale written by decompose: with Lj = sqrt(M(0,j)² + M(1,j)² + M(2,j)²),
it is (L0, L1, L2) when the determinant is >= 0 and (-L0, -L1, -L2) when the determinant
is < 0, and decompose returns true. -/
theorem decompose_scale (sqrtf : F → F) (atan2f : F → F → F) (M : Matrix4 F)
    (r : Vector3 F) :
    let L := fun j : Fin 4 => sqrtf (M.get 0 j ^ 2 + M.get 1 j ^ 2 + M.get 2 j ^ 2)
    let d := decompose sqrtf atan2f M r
    d.ret = true ∧
    (determinant M ≥ 0 → d.scale = Vector3.ofXYZ (L 0) (L 1) (L 2)) ∧
    (determinant M < 0 → d.scale = Vector3.ofXYZ (-L 0) (-L 1) (-L 2)) := by
  intro L d
  refine ⟨rfl, ?_, ?_⟩
  · intro h
    show (decompose sqrtf atan2f M r).scale = _
    rw [decompose_scale_eq, if_neg (not_lt.mpr h), length_ofXYZ, length_ofXYZ, length_ofXYZ]
  · intro h
    show (decompose sqrtf atan2f M r).scale = _
    rw [decompose_scale_eq, if_pos h, length_ofXYZ, length_ofXYZ, length_ofXYZ,
      ofXYZ_smul_neg_one]

theorem decompose_scale_witness :
    determinant (diag (-1) 1 1 1 : Matrix4 ℝ) < 0 ∧
    (decompose Real.sqrt (fun y x => Complex.arg ⟨x, y⟩) (diag (-1) 1 1 1)
      Vector3.default).scale =
      Vector3.ofXYZ (-Real.sqrt ((-1) ^ 2 + 0 ^ 2 + 0 ^ 2)) (-Real.sqrt (0 ^ 2 + 1 ^ 2 + 0 ^ 2))
        (-Real.sqrt (0 ^ 2 + 0 ^ 2 + 1 ^ 2)) :=
  have h : determinant (diag (-1) 1 1 1 : Matrix4 ℝ) < 0 := by
    rw [determinant_diag]; norm_num
  ⟨h, (decompose_scale Real.sqrt (fun y x => Complex.arg ⟨x, y⟩) (diag (-1) 1 1 1)
    Vector3.default).2.2 h⟩

/-- C37. Degenerate axis: when the length of the axis is at most 1e-8,
rotation(axis, a) is diag(cos a, cos a, cos a, 1), for every angle a. -/
theorem rotation_degenerate_axis (sqrtf cosf sinf : F → F) (axis : Vector3 F) (a : F)
    (h : Vector3.length sqrtf axis ≤ 1 / 10 ^ 8) :
    rotation sqrtf cosf sinf axis a = diag (cosf a) (cosf a) (cosf a) 1 := by
  apply ext_get
  intro i j
  rw [rotation_get, diag_get, Vector3.normalized_of_le sqrtf axis h]
  simp only [Vector3.x, Vector3.y, Vector3.z, Vector3.zero_lanes]
  fin_cases i <;> fin_cases j <;> simp [Matrix.vecHead, Matrix.vecTail]

theorem rotation_degenerate_axis_witness :
    Vector3.length Real.sqrt (Vector3.zero : Vector3 ℝ) ≤ 1 / 10 ^ 8 ∧
    rotation Real.sqrt Real.cos Real.sin Vector3.zero Real.pi = diag (-1) (-1) (-1) 1 :=
  have h : Vector3.length Real.sqrt (Vector3.zero : Vector3 ℝ) ≤ 1 / 10 ^ 8 := by
    rw [Vector3.length_real_zero]; norm_num
  ⟨h, by
    have e := rotation_degenerate_axis Real.sqrt Real.cos Real.sin Vector3.zero Real.pi h
    rw [Real.cos_pi] at e
    exact e⟩

/-- C35. Cache invalidation of Camera is confined to the cache concerned: look_at, move,
rotate, set_position, set_target and set_up leave fov, aspect ratio, near and far planes,
the cached projection matrix and the projection dirty flag unchanged; set_perspective
leaves position, target, up, the cached view matrix and the view dirty flag unchanged;
view_matrix() with a clear view dirty flag and projection_matrix() with a clear
projection dirty flag return the cached matrix and leave the whole camera unchanged. -/
theorem camera_invalidation_confined (sqrtf cosf sinf tanf : F → F) (c : Camera F) :
    (∀ target, (c.look_at target).projection_part = c.projection_part) ∧
    (∀ offset, (c.move offset).projection_part = c.projection_part) ∧
    (∀ yaw pitch, (c.rotate sqrtf cosf sinf yaw pitch).projection_part = c.projection_part) ∧
    (∀ position, (c.set_position position).projection_part = c.projection_part) ∧
    (∀ target, (c.set_target target).projection_part = c.projection_part) ∧
    (∀ up, (c.set_up up).projection_part = c.projection_part) ∧
    (∀ fov aspect near far, (c.set_perspective fov aspect near far).view_part = c.view_part) ∧
    (c._view_dirty = false → c.view_matrix sqrtf = (c._view_matrix, c)) ∧
    (c._projection_dirty = false → c.projection_matrix tanf = (c._projection_matrix, c)) := by
  refine ⟨fun _ => rfl, fun _ => rfl, fun _ _ => rfl, fun _ => rfl, fun _ => rfl,
    fun _ => rfl, fun _ _ _ _ => rfl, ?_, ?_⟩
  · intro h
    simp [Camera.view_matrix, h]
  · intro h
    simp [Camera.projection_matrix, h]

theorem camera_invalidation_confined_witness :
    let c := ((Camera.default Real.pi).view_projection_matrix Real.sqrt Real.tan).2;
    c._view_dirty = false ∧ c._projection_dirty = false ∧
    c.view_matrix Real.sqrt = (c._view_matrix, c) ∧
    c.projection_matrix Real.tan = (c._projection_matrix, c) :=
  ⟨rfl, rfl,
    (camera_invalidation_confined Real.sqrt Real.cos Real.sin Real.tan
      ((Camera.default Real.pi).view_projection_matrix Real.sqrt Real.tan).2).2.2.2.2.2.2.2.1
      rfl,
    (camera_invalidation_confined Real.sqrt Real.cos Real.sin Real.tan
      ((Camera.default Real.pi).view_projection_matrix Real.sqrt Real.tan).2).2.2.2.2.2.2.2.2
      rfl⟩

/-- C36. Camera::set_orthographic ignores left, right, bottom and top: on every camera
it has the effect of set_perspective(fov(), aspect_ratio(), near, far), the next
projection_matrix() returns perspective(fov, aspect, near, far), and this matrix is not
a matrix of Matrix4::orthographic for any arguments. -/
theorem set_orthographic_is_set_perspective (tanf : F → F) (c : Camera F)
    (left right bottom top near far : F) :
    c.set_orthographic left right bottom top near far =
      c.set_perspective c._fov c._aspect_ratio near far ∧
    ((c.set_orthographic left right bottom top near far).projection_matrix tanf).1 =
      Matrix4.perspective tanf c._fov c._aspect_ratio near far ∧
    (∀ l r b t n f : F,
      ((c.set_orthographic left right bottom top near far).projection_matrix tanf).1 ≠
        Matrix4.orthographic l r b t n f) := by
  have h : ((c.set_orthographic left right bottom top near far).projection_matrix tanf).1 =
      Matrix4.perspective tanf c._fov c._aspect_ratio near far := rfl
  refine ⟨rfl, h, ?_⟩
  intro l r b t n f
  rw [h]
  exact perspective_ne_orthographic tanf _ _ _ _ l r b t n f

/-- C38 (counterexample). In 32-bit `int` arithmetic create_sphere with segments = 32769
builds 2147549186 vertices and writes the index -2147418111: the index of the bottom
vertex, 2147549185, does not fit in an `int`. -/
theorem create_sphere_index_overflow :
    (Mesh.create_sphere Real.sqrt Real.cos Real.sin Real.pi 1 32769).vertex_count =
      2147549186 ∧
    (-2147418111 : Int) ∈
      (Mesh.create_sphere Real.sqrt Real.cos Real.sin Real.pi 1 32769).indices :=
  Mesh.count_and_index _ _ _ _ _
    (Mesh.create_sphere_vertex_count Real.sqrt Real.cos Real.sin Real.pi 1 32769) (by decide)
    (Mesh.create_sphere_bottom_vertex_mem Real.sqrt Real.cos Real.sin Real.pi 1 32769
      (by decide))
    (by decide)

/-- C38. The mesh factories write only valid indices: every entry of indices() is >= 0
and < vertex_count() for create_cube (24 vertices, 12 triangles), create_plane
(4 vertices, 2 triangles), create_triangle (3 vertices, 1 triangle) and, for every radius
and every segments from 2 to 32768 (the largest value for which the number of vertices
fits in an `int`), create_sphere, which has 2 + 2 * segments * (segments - 1) vertices
and 4 * segments * (segments - 1) triangles. -/
theorem mesh_factories_valid_indices :
    (∀ size : F, (Mesh.create_cube size).vertex_count = 24 ∧
      (Mesh.create_cube size).triangle_count = 12 ∧ (Mesh.create_cube size).ValidIndices) ∧
    (∀ width height : F, (Mesh.create_plane width height).vertex_count = 4 ∧
      (Mesh.create_plane width height).triangle_count = 2 ∧
      (Mesh.create_plane width height).ValidIndices) ∧
    (∀ size : F, (Mesh.create_triangle size).vertex_count = 3 ∧
      (Mesh.create_triangle size).triangle_count = 1 ∧
      (Mesh.create_triangle size).ValidIndices) ∧
    (∀ (sqrtf cosf sinf : F → F) (pi radius : F) (segments : Int),
      2 ≤ segments → segments ≤ 32768 →
      ((Mesh.create_sphere sqrtf cosf sinf pi radius segments).vertex_count : Int) =
        2 + 2 * segments * (segments - 1) ∧
      ((Mesh.create_sphere sqrtf cosf sinf pi radius segments).triangle_count : Int) =
        4 * segments * (segments - 1) ∧
      (Mesh.create_sphere sqrtf cosf sinf pi radius segments).ValidIndices) :=
  ⟨Mesh.create_cube_valid, Mesh.create_plane_valid, Mesh.create_triangle_valid,
    Mesh.create_sphere_valid⟩

theorem mesh_factories_valid_indices_witness :
    (2 : Int) ≤ 16 ∧ (16 : Int) ≤ 32768 ∧
    ((Mesh.create_sphere Real.sqrt Real.cos Real.sin Real.pi 1 16).vertex_count : Int) =
      2 + 2 * 16 * (16 - 1) ∧
    ((Mesh.create_sphere Real.sqrt Real.cos Real.sin Real.pi 1 16).triangle_count : Int) =
      4 * 16 * (16 - 1) ∧
    (Mesh.create_sphere Real.sqrt Real.cos Real.sin Real.pi 1 16).ValidIndices :=
  ⟨by decide, by decide,
    mesh_factories_valid_indices.2.2.2 Real.sqrt Real.cos Real.sin Real.pi 1 16
      (by decide) (by decide)⟩

end Simd3D
